import Mathlib

/-!
# PL/Proxy executor and result stream: a shallow embedding

The definitions below follow `src/execute.c` and `src/result.c` function by
function.  Conventions of the embedding:

* C strings are NUL-free `List Char`; a `NULL` pointer is `none`.
* `plproxy_error` and PostgreSQL's `ereport(ERROR)` leave the function through a
  non-local exit.  A function that can raise returns its final state together
  with `Option ProxyError` (`none` = returned normally), so the state at the
  moment of the error stays observable (the cluster is a long-lived object).
* Every answer of the outside world (libpq, `poll`, `gettimeofday`, SPI, the
  interrupt flag) is an explicit argument: a record of the answers the callee
  obtains during that call.
* Pointers from `part_map` into `conn_list` are indices into `conn_list`.
-/

namespace PLProxy

/-! ## Data model (`plproxy.h`, as used by the three source files) -/

/-- Connection states of `ProxyConnection.state`. -/
inductive ConnState
  | C_NONE
  | C_CONNECT_WRITE
  | C_CONNECT_READ
  | C_READY
  | C_QUERY_WRITE
  | C_QUERY_READ
  | C_DONE
  deriving DecidableEq, Repr

/-- Values of `PQresultStatus` the code distinguishes; everything that is
neither `PGRES_TUPLES_OK` nor `PGRES_COMMAND_OK` takes the `default:` branch. -/
inductive ExecStatusType
  | PGRES_TUPLES_OK
  | PGRES_COMMAND_OK
  | PGRES_OTHER
  deriving DecidableEq, Repr

/-- A libpq result: its status, the column names (`PQfname`, `none` when libpq
has no name for the column) and the rows; a cell is `none` when
`PQgetisnull`. `PQnfields` is the number of names, `PQntuples` the number of rows. -/
structure PGresult where
  status : ExecStatusType
  fnames : List (Option (List Char))
  rows : List (List (Option (List Char)))
  deriving DecidableEq, Repr

def PQnfields (res : PGresult) : Nat := res.fnames.length

def PQntuples (res : PGresult) : Nat := res.rows.length

/-- Result of `PQfname(res, col)`: `NULL` when the column is out of range or unnamed. -/
def PQfname (res : PGresult) (col : Nat) : Option (List Char) := res.fnames[col]?.join

/-- A statement handed to libpq on a connection. -/
inductive RemoteStmt
  | simple (sql : List Char)
  | params (sql : List Char) (values : List (Option (List Char)))
      (plengths pformats : Option (List Int)) (binary_result : Int)
  deriving DecidableEq, Repr

/-- The libpq handle `conn->db`: its socket and what has been sent on it. -/
structure PGconn where
  sock : Int
  sent : List RemoteStmt
  deriving DecidableEq, Repr

structure ProxyConnection where
  connstr : List Char
  db : Option PGconn
  res : Option PGresult
  pos : Nat
  connect_time : Int
  query_time : Int
  state : ConnState
  run_on : Bool
  same_ver : Bool
  tuning : Bool
  deriving DecidableEq, Repr

structure ProxyConfig where
  connection_lifetime : Int
  query_timeout : Int
  connect_timeout : Int
  disable_binary : Int
  deriving DecidableEq, Repr

/-- The cluster. `conn_count` of the source is `conn_list.length`; `part_map[i]`
is the index in `conn_list` of the connection the slot points to. -/
structure ProxyCluster where
  config : ProxyConfig
  part_count : Int
  part_mask : Int
  part_map : List Nat
  conn_list : List ProxyConnection
  ret_cur_conn : Nat
  ret_total : Int
  deriving DecidableEq, Repr

def ProxyCluster.conn_count (cluster : ProxyCluster) : Nat := cluster.conn_list.length

/-- SQL error codes the catch block of `plproxy_exec` can see. -/
inductive SqlErrCode
  | ERRCODE_QUERY_CANCELED
  | ERRCODE_INTERNAL_ERROR
  | ERRCODE_OTHER
  deriving DecidableEq, Repr

/-- The errors raised in the three source files, one constructor per message,
plus what `CHECK_FOR_INTERRUPTS` raises and a marker for a memory access
outside an array (undefined behaviour in C, kept apart from every real error). -/
inductive ProxyError
  | hash_returned_null          -- "Hash function returned NULL"
  | hash_result_type            -- "Hash result must be int2, int4 or int8"
  | hashcount_not_one           -- "Only set-returning function allows hashcount <> 1"
  | part_out_of_range           -- "part number out of range"
  | uninitialized_run_type      -- "uninitialized run_type"
  | query_failed                -- "query '%s' failed: %s"
  | no_memory_for_pgconn        -- "No memory for PGconn"
  | conn_error_connect_start    -- conn_error "PQconnectStart"
  | conn_error_connect_poll     -- conn_error "PQconnectPoll"
  | conn_error_flush            -- conn_error "PQflush"
  | conn_error_send_query       -- conn_error "PQsendQuery"
  | conn_error_send_params      -- conn_error "PQsendQueryParams"
  | conn_error_consume_input    -- conn_error "PQconsumeInput"
  | conn_error_double_result    -- conn_error "double result?"
  | conn_error_remote           -- conn_error "remote error"
  | conn_error_tuning           -- conn_error "... -- does not seem to apply"
  | check_old_conn_failed       -- "check_old_conn: select failed: %s"
  | poll_failed                 -- "poll() failed: %s"
  | connect_timeout             -- "connect timeout to: %s"
  | query_timeout               -- "query timeout"
  | run_on_mismatch             -- "run_on does not match res"
  | unfinished_connection       -- "Unfinished connection"
  | lost_result                 -- "Lost result"
  | remote_error                -- "Remote error: %s"
  | unnamed_column (col : Nat)  -- "Unnamed result column %d"
  | single_field_got_record     -- "single field function but got record"
  | too_few_fields              -- "Got too few fields from remote end"
  | too_many_fields             -- "Got too many fields from remote end"
  | field_missing (i : Nat)     -- "Field %s does not exists in result"
  | bug_no_result               -- "bug: no result"
  | unexpected_null             -- "unexcpected NULL"
  | interrupt (code : SqlErrCode)  -- raised by CHECK_FOR_INTERRUPTS
  | bad_access                  -- access outside an array
  deriving DecidableEq, Repr

/-- Run types of `func->run_type`; `R_NONE` stands for every value that takes
the `default:` branch of the selection switch. -/
inductive RunType
  | R_HASH
  | R_ALL
  | R_ANY
  | R_EXACT
  | R_NONE
  deriving DecidableEq, Repr

/-! ## `execute.c`: partition selection -/

/-- Conversion of a signed integer value to `uint32`. -/
def to_uint32 (v : Int) : Nat := (v % 4294967296).toNat

def INT8OID : Nat := 20
def INT2OID : Nat := 21
def INT4OID : Nat := 23
def SPI_OK_SELECT : Int := 5

/-- What `plproxy_query_exec(func, fcinfo, func->hash_sql)` leaves behind: the
return code of `SPI_execute_plan`, the type of column 1 and, per returned row,
the value of column 1 (`none` when `isnull`). `SPI_processed` is `vals.length`. -/
structure SPIResult where
  err : Int
  htype : Nat
  vals : List (Option Int)
  deriving DecidableEq, Repr

/-- The body `hashval = DatumGet...(val); hashval &= cluster->part_mask`
of the tagging loop, for a column of type `htype`. -/
def hash_slot (htype : Nat) (v : Int) (part_mask : Int) : Option Nat :=
  if htype = INT4OID then some (Nat.land (to_uint32 v) (to_uint32 part_mask))
  else if htype = INT8OID then some (Nat.land (to_uint32 v) (to_uint32 part_mask))
  else if htype = INT2OID then some (Nat.land (to_uint32 v) (to_uint32 part_mask))
  else none

/-- The statement `cluster->part_map[slot]->run_on = 1`. A slot outside the
partition map, or a map entry outside `conn_list`, is an access outside an
array. -/
def tag_part (cluster : ProxyCluster) (slot : Nat) : ProxyCluster × Option ProxyError :=
  match cluster.part_map[slot]? with
  | none => (cluster, some ProxyError.bad_access)
  | some ci =>
    if ci < cluster.conn_list.length then
      ({ cluster with conn_list :=
          cluster.conn_list.modify (fun conn => { conn with run_on := true }) ci }, none)
    else (cluster, some ProxyError.bad_access)

/-- The loop `for (i = 0; i < SPI_processed; i++)` of `tag_hash_partitions`. -/
def tag_hash_loop (htype : Nat) : List (Option Int) → ProxyCluster →
    ProxyCluster × Option ProxyError
  | [], cluster => (cluster, none)
  | none :: _, cluster => (cluster, some ProxyError.hash_returned_null)
  | some v :: rest, cluster =>
    match hash_slot htype v cluster.part_mask with
    | none => (cluster, some ProxyError.hash_result_type)
    | some slot =>
      match tag_part cluster slot with
      | (cluster1, some e) => (cluster1, some e)
      | (cluster1, none) => tag_hash_loop htype rest cluster1

/-- The function `tag_hash_partitions`: run the hash query, tag, sanity check. -/
def tag_hash_partitions (fn_retset : Bool) (spi : SPIResult) (cluster : ProxyCluster) :
    ProxyCluster × Option ProxyError :=
  if spi.err ≠ SPI_OK_SELECT then (cluster, some ProxyError.query_failed)
  else
    match tag_hash_loop spi.htype spi.vals cluster with
    | (cluster1, some e) => (cluster1, some e)
    | (cluster1, none) =>
      if (spi.vals.length = 0 ∨ spi.vals.length > 1) ∧ fn_retset = false then
        (cluster1, some ProxyError.hashcount_not_one)
      else (cluster1, none)

/-- The function `plproxy_clean_results` on a non-null cluster. -/
def plproxy_clean_results (cluster : ProxyCluster) : ProxyCluster :=
  { cluster with
    ret_total := 0
    ret_cur_conn := 0
    conn_list := cluster.conn_list.map
      (fun conn => { conn with res := none, pos := 0, run_on := false }) }

/-- The loop `for (i = 0; i < cluster->part_count; i++) part_map[i]->run_on = 1`
from slot `i` on, with `n` iterations left. -/
def tag_all_loop : Nat → Nat → ProxyCluster → ProxyCluster × Option ProxyError
  | 0, _, cluster => (cluster, none)
  | n + 1, i, cluster =>
    match tag_part cluster i with
    | (cluster1, some e) => (cluster1, some e)
    | (cluster1, none) => tag_all_loop n (i + 1) cluster1

/-- What the selection step of `plproxy_exec` reads besides the cluster. -/
structure SelectInput where
  run_type : RunType
  exact_nr : Int
  fn_retset : Bool
  spi : SPIResult
  random : Int
  deriving DecidableEq, Repr

/-- The `switch (func->run_type)` of `plproxy_exec`. -/
def tag_partitions (sel : SelectInput) (cluster : ProxyCluster) :
    ProxyCluster × Option ProxyError :=
  match sel.run_type with
  | RunType.R_HASH => tag_hash_partitions sel.fn_retset sel.spi cluster
  | RunType.R_ALL => tag_all_loop cluster.part_count.toNat 0 cluster
  | RunType.R_EXACT =>
    if sel.exact_nr < 0 ∨ sel.exact_nr ≥ cluster.part_count then
      (cluster, some ProxyError.part_out_of_range)
    else tag_part cluster sel.exact_nr.toNat
  | RunType.R_ANY =>
    tag_part cluster (Int.land sel.random cluster.part_mask).toNat
  | RunType.R_NONE => (cluster, some ProxyError.uninitialized_run_type)

/-- The first two steps of `plproxy_exec`: clean old results, tag partitions. -/
def plproxy_exec_select (sel : SelectInput) (cluster : ProxyCluster) :
    ProxyCluster × Option ProxyError :=
  tag_partitions sel (plproxy_clean_results cluster)

/-- Whether connection `j` of the cluster is tagged (`run_on`). -/
def is_tagged (cluster : ProxyCluster) (j : Nat) : Bool :=
  match cluster.conn_list[j]? with
  | some conn => conn.run_on
  | none => false

/-- Well-formedness of the partition map: it holds at least `part_count`
pointers, each to a connection of `conn_list`. -/
def part_map_valid (cluster : ProxyCluster) : Prop :=
  cluster.part_count.toNat ≤ cluster.part_map.length ∧
    ∀ ci ∈ cluster.part_map, ci < cluster.conn_list.length

instance (cluster : ProxyCluster) : Decidable (part_map_valid cluster) := by
  unfold part_map_valid; infer_instance

/-- Search for the smallest mask of the form `2^k - 1` that is at least `need`. -/
def spec_mask_search (need : Nat) : Nat → Nat → Nat
  | 0, m => m
  | fuel + 1, m => if need ≤ m then m else spec_mask_search need fuel (2 * m + 1)

/-- Modelled from the spec: the construction of the cluster (part_count,
part_mask, part_map) is in `cluster.c`, which is not among the sources. The data
model of the spec gives partitionMask as the smallest `2^k - 1` that is at
least `partitionCount - 1`. -/
def spec_part_mask (part_count : Nat) : Nat :=
  spec_mask_search (part_count - 1) part_count 0

/-- An idle connection without socket, used to build concrete clusters. -/
def idle_conn : ProxyConnection :=
  { connstr := [], db := none, res := none, pos := 0, connect_time := 0, query_time := 0,
    state := ConnState.C_NONE, run_on := false, same_ver := false, tuning := false }

def default_config : ProxyConfig :=
  { connection_lifetime := 0, query_timeout := 0, connect_timeout := 0, disable_binary := 0 }

/-- A cluster of three partitions whose mask is sized up to the next power of two. -/
def three_part_cluster : ProxyCluster :=
  { config := default_config, part_count := 3, part_mask := 3, part_map := [0, 1, 2],
    conn_list := [idle_conn, idle_conn, idle_conn], ret_cur_conn := 0, ret_total := 0 }

/-- A cluster of four partitions with mask 3. -/
def four_part_cluster : ProxyCluster :=
  { config := default_config, part_count := 4, part_mask := 3, part_map := [0, 1, 2, 3],
    conn_list := [idle_conn, idle_conn, idle_conn, idle_conn], ret_cur_conn := 0,
    ret_total := 0 }

/-! ## `result.c`: conversion of results to rows -/

/-- The parts of `ProxyType` the code reads. -/
structure ProxyType where
  type_oid : Nat
  name : List Char
  has_recv : Bool
  deriving DecidableEq, Repr

/-- The parts of `ProxyComposite` the code reads: the attribute names of
`tupdesc` (`natts` is their number) and the `use_binary` flag. -/
structure ProxyComposite where
  attnames : List (List Char)
  use_binary : Bool
  deriving DecidableEq, Repr

/-- A `ProxyQuery`: statement text and the map from statement parameter to
function argument (`arg_count` is `arg_lookup.length`). -/
structure ProxyQuery where
  sql : List Char
  arg_lookup : List Nat
  deriving DecidableEq, Repr

def ProxyQuery.arg_count (q : ProxyQuery) : Nat := q.arg_lookup.length

structure ProxyFunction where
  name : List Char
  arg_types : List ProxyType
  arg_names : List (List Char)
  run_type : RunType
  exact_nr : Int
  hash_sql : ProxyQuery
  remote_sql : ProxyQuery
  ret_scalar : Option ProxyType
  ret_composite : Option ProxyComposite
  result_map : List Int
  deriving DecidableEq, Repr

def VOIDOID : Nat := 2278

/-- The test `strcasecmp(a, b) == 0`. -/
def strcasecmp_eq (a b : List Char) : Bool := a.map Char.toLower == b.map Char.toLower

/-- The function `name_matches`. -/
def name_matches (aname : List Char) (res : PGresult) (col : Nat) : Except ProxyError Bool :=
  match PQfname res col with
  | none => Except.error (ProxyError.unnamed_column (col + 1))
  | some fname => if strcasecmp_eq aname fname then Except.ok true else Except.ok false

/-- The slow-path loop `for (j = 0; j < nfields; j++)` of `map_results` for
attribute `i`, from column `j` with `n` columns left: the column assigned to
`result_map[i]`, or `none` when the loop ends without assignment. -/
def slow_search (aname : List Char) (res : PGresult) (i : Nat) :
    Nat → Nat → Except ProxyError (Option Nat)
  | 0, _ => Except.ok none
  | n + 1, j =>
    if j = i then slow_search aname res i n (j + 1)
    else
      match name_matches aname res j with
      | Except.error e => Except.error e
      | Except.ok true => Except.ok (some j)
      | Except.ok false => slow_search aname res i n (j + 1)

/-- One iteration of the attribute loop of `map_results`. The final test
`result_map[i] < 0` fires exactly when neither path has assigned a column. -/
def map_one (aname : List Char) (res : PGresult) (i nfields : Nat) (result_map : List Int) :
    List Int × Option ProxyError :=
  match name_matches aname res i with
  | Except.error e => (result_map.set i (-1), some e)
  | Except.ok true => ((result_map.set i (-1)).set i i, none)
  | Except.ok false =>
    match slow_search aname res i nfields 0 with
    | Except.error e => (result_map.set i (-1), some e)
    | Except.ok (some j) => ((result_map.set i (-1)).set i j, none)
    | Except.ok none => (result_map.set i (-1), some (ProxyError.field_missing i))

/-- The loop `for (i = 0; i < natts; i++)` of `map_results`, from attribute `i`. -/
def map_results_loop (res : PGresult) (nfields : Nat) :
    Nat → List (List Char) → List Int → List Int × Option ProxyError
  | _, [], result_map => (result_map, none)
  | i, aname :: rest, result_map =>
    match map_one aname res i nfields result_map with
    | (rm1, some e) => (rm1, some e)
    | (rm1, none) => map_results_loop res nfields (i + 1) rest rm1

/-- The function `map_results`. -/
def map_results (func : ProxyFunction) (res : PGresult) : ProxyFunction × Option ProxyError :=
  match func.ret_scalar with
  | some _ =>
    if PQnfields res ≠ 1 then (func, some ProxyError.single_field_got_record)
    else (func, none)
  | none =>
    match func.ret_composite with
    | none => (func, some ProxyError.bad_access)
    | some comp =>
      if PQnfields res < comp.attnames.length then (func, some ProxyError.too_few_fields)
      else if PQnfields res > comp.attnames.length then
        (func, some ProxyError.too_many_fields)
      else
        match map_results_loop res (PQnfields res) 0 comp.attnames func.result_map with
        | (rm, e) => ({ func with result_map := rm }, e)

/-- The loop of `walk_results` with `n` connections left to visit: it ends with
the index of the connection that has unreturned rows, or raises. -/
def walk_results_loop (func : ProxyFunction) :
    Nat → ProxyCluster → (ProxyFunction × ProxyCluster) × Except ProxyError Nat
  | 0, cluster => ((func, cluster), Except.error ProxyError.bug_no_result)
  | n + 1, cluster =>
    match cluster.conn_list[cluster.ret_cur_conn]? with
    | none => ((func, cluster), Except.error ProxyError.bug_no_result)
    | some conn =>
      match conn.res with
      | none => walk_results_loop func n { cluster with ret_cur_conn := cluster.ret_cur_conn + 1 }
      | some res =>
        if conn.pos = PQntuples res then
          walk_results_loop func n { cluster with ret_cur_conn := cluster.ret_cur_conn + 1 }
        else if conn.pos = 0 then
          match map_results func res with
          | (func1, some e) => ((func1, cluster), Except.error e)
          | (func1, none) => ((func1, cluster), Except.ok cluster.ret_cur_conn)
        else ((func, cluster), Except.ok cluster.ret_cur_conn)

/-- The function `walk_results`. -/
def walk_results (func : ProxyFunction) (cluster : ProxyCluster) :
    (ProxyFunction × ProxyCluster) × Except ProxyError Nat :=
  walk_results_loop func (cluster.conn_count - cluster.ret_cur_conn) cluster

/-- Cell `(row, col)` of a result; `none` when `PQgetisnull`. -/
def PQgetvalue (res : PGresult) (row col : Nat) : Option (List Char) :=
  ((res.rows[row]?).bind (fun r => r[col]?)).join

/-- A row handed back by `plproxy_result`: the connection and row it was read
from and the cells in output-column order (decoding by the value codec is
outside the three source files). -/
structure ResultRow where
  conn : Nat
  row : Nat
  cells : List (Option (List Char))
  deriving DecidableEq, Repr

/-- The function `return_composite`: one cell per attribute, through `result_map`. -/
def return_composite (func : ProxyFunction) (meta : ProxyComposite) (res : PGresult)
    (pos : Nat) : List (Option (List Char)) :=
  (List.range meta.attnames.length).map
    (fun i => PQgetvalue res pos (func.result_map.getD i 0).toNat)

/-- The function `return_scalar`. -/
def return_scalar (ret_scalar : ProxyType) (res : PGresult) (pos : Nat) :
    List (Option (List Char)) :=
  if ret_scalar.type_oid = VOIDOID then []
  else [PQgetvalue res pos 0]

/-- The choice `if (func->ret_composite) return_composite else return_scalar`
of `plproxy_result`. -/
def result_datum (func : ProxyFunction) (res : PGresult) (pos : Nat) :
    Except ProxyError (List (Option (List Char))) :=
  match func.ret_composite with
  | some meta => Except.ok (return_composite func meta res pos)
  | none =>
    match func.ret_scalar with
    | some ty => Except.ok (return_scalar ty res pos)
    | none => Except.error ProxyError.bad_access

/-- The function `plproxy_result`. -/
def plproxy_result (func : ProxyFunction) (cluster : ProxyCluster) :
    (ProxyFunction × ProxyCluster) × Except ProxyError ResultRow :=
  match walk_results func cluster with
  | (st, Except.error e) => (st, Except.error e)
  | ((func1, cluster1), Except.ok ci) =>
    match cluster1.conn_list[ci]? with
    | none => ((func1, cluster1), Except.error ProxyError.bad_access)
    | some conn =>
      match conn.res with
      | none => ((func1, cluster1), Except.error ProxyError.bad_access)
      | some res =>
        match result_datum func1 res conn.pos with
        | Except.error e => ((func1, cluster1), Except.error e)
        | Except.ok cells =>
          ((func1,
            { cluster1 with
              ret_total := cluster1.ret_total - 1
              conn_list := cluster1.conn_list.modify
                (fun c => { c with pos := c.pos + 1 }) ci }),
            Except.ok { conn := ci, row := conn.pos, cells := cells })

/-- The first `n` calls of `plproxy_result`, as long as each returns a row. -/
def drain_rows : Nat → ProxyFunction → ProxyCluster →
    Option (List ResultRow × ProxyFunction × ProxyCluster)
  | 0, func, cluster => some ([], func, cluster)
  | n + 1, func, cluster =>
    match plproxy_result func cluster with
    | (_, Except.error _) => none
    | ((func1, cluster1), Except.ok row) =>
      match drain_rows n func1 cluster1 with
      | none => none
      | some (rows, func2, cluster2) => some (row :: rows, func2, cluster2)

/-- Row count of a connection: `PQntuples` of its result, 0 without result. -/
def conn_ntuples (conn : ProxyConnection) : Nat :=
  match conn.res with
  | some res => PQntuples res
  | none => 0

/-- The enumeration of all `(c, r)` with `r < ntuples(c)`, in ascending
connection index and then ascending row index. -/
def row_enum (cluster : ProxyCluster) : List (Nat × Nat) :=
  cluster.conn_list.enum.flatMap
    (fun p => (List.range (conn_ntuples p.2)).map (fun r => (p.1, r)))

/-- The state a successful execute leaves to the result stream: every row
cursor 0, `ret_cur_conn` 0 and `ret_total` the sum of the row counts of the
connections holding a result. -/
def stream_start (cluster : ProxyCluster) : Prop :=
  (∀ conn ∈ cluster.conn_list, conn.pos = 0) ∧ cluster.ret_cur_conn = 0 ∧
    cluster.ret_total = ((cluster.conn_list.map conn_ntuples).sum : Nat)

instance (cluster : ProxyCluster) : Decidable (stream_start cluster) := by
  unfold stream_start; infer_instance

/-- The unread rows of connection `j`: from its cursor to the end of its result. -/
def conn_rows (j : Nat) (conn : ProxyConnection) : List (Nat × Nat) :=
  (List.range' conn.pos (conn_ntuples conn - conn.pos)).map (fun r => (j, r))

/-- The unread rows of a list of connections, the first having index `j`. -/
def rows_from : Nat → List ProxyConnection → List (Nat × Nat)
  | _, [] => []
  | j, conn :: rest => conn_rows j conn ++ rows_from (j + 1) rest

/-- The rows the stream still has to yield: unread rows of the connections
from `ret_cur_conn` on. -/
def remaining_rows (cluster : ProxyCluster) : List (Nat × Nat) :=
  rows_from cluster.ret_cur_conn (cluster.conn_list.drop cluster.ret_cur_conn)

/-- No row cursor is beyond the end of its result. -/
def pos_in_range (cluster : ProxyCluster) : Prop :=
  ∀ conn ∈ cluster.conn_list, conn.pos ≤ conn_ntuples conn

/-- A row-set result with columns `id` and `name`. -/
def two_col_result (rows : List (List (Option (List Char)))) : PGresult :=
  { status := ExecStatusType.PGRES_TUPLES_OK,
    fnames := [some ['i', 'd'], some ['n', 'a', 'm', 'e']], rows := rows }

/-- A finished connection holding a result. -/
def done_conn (res : PGresult) : ProxyConnection :=
  { idle_conn with
    db := some ⟨3, []⟩
    res := some res
    state := ConnState.C_DONE
    run_on := true }

/-- A composite-returning function whose columns are declared as `NAME, ID`. -/
def name_id_func : ProxyFunction :=
  { name := ['f'], arg_types := [], arg_names := [], run_type := RunType.R_ALL, exact_nr := 0,
    hash_sql := ⟨[], []⟩, remote_sql := ⟨[], []⟩, ret_scalar := none,
    ret_composite := some ⟨[['N', 'A', 'M', 'E'], ['I', 'D']], false⟩, result_map := [0, 0] }

/-- Three connections after a round: two rows on connection 0, connection 1
not tagged, one row on connection 2. -/
def streamed_cluster : ProxyCluster :=
  { config := default_config, part_count := 4, part_mask := 3, part_map := [0, 1, 2, 0],
    conn_list :=
      [done_conn (two_col_result [[some ['1'], some ['a']], [some ['2'], none]]),
       idle_conn,
       done_conn (two_col_result [[some ['3'], some ['c']]])],
    ret_cur_conn := 0, ret_total := 3 }

/-- The connections before `ret_cur_conn` have no unread row left. -/
def passed_drained (cluster : ProxyCluster) : Prop :=
  ∀ j conn, j < cluster.ret_cur_conn → cluster.conn_list[j]? = some conn →
    conn_ntuples conn ≤ conn.pos

/-- Whether input column `c` of the result is named and its name equals
`aname` ignoring case. -/
def col_matches (aname : List Char) (res : PGresult) (c : Nat) : Bool :=
  match PQfname res c with
  | some fname => strcasecmp_eq aname fname
  | none => false

/-- Case folding of a name, as `strcasecmp` compares. -/
def fold_case (s : List Char) : List Char := s.map Char.toLower

/-- Every connection whose cursor has left row 0 holds a result that
`map_results` accepts. -/
def started_ok (func : ProxyFunction) (cluster : ProxyCluster) : Prop :=
  ∀ conn ∈ cluster.conn_list, conn.pos ≠ 0 → ∀ r, conn.res = some r →
    (map_results func r).2 = none

/-! ## `execute.c`: connection state machine -/

/-- Values of `PostgresPollingStatusType`. -/
inductive PollingStatus
  | PGRES_POLLING_FAILED
  | PGRES_POLLING_READING
  | PGRES_POLLING_WRITING
  | PGRES_POLLING_OK
  | PGRES_POLLING_ACTIVE
  deriving DecidableEq, Repr

/-- What the local server contributes: `PG_VERSION` and
`GetDatabaseEncodingName()`. -/
structure LocalServer where
  pg_version : List Char
  encoding : List Char
  deriving DecidableEq, Repr

/-- The answers libpq, `poll` and `gettimeofday` give for one connection while
the executor works on it once: in `prepare_conn`/`check_old_conn`, in
`send_query`/`tune_connection`, in `handle_conn` and in `remote_cancel`. -/
structure ConnWorld where
  /-- Seconds of `gettimeofday` in `prepare_conn`. -/
  prep_now : Int
  /-- Whether `PQstatus(conn->db) == CONNECTION_OK` in `check_old_conn`. -/
  status_ok : Bool
  /-- How often `poll` in `check_old_conn` is interrupted (`EINTR`) before it answers. -/
  idle_eintr : Nat
  /-- The answer of `poll` in `check_old_conn` that is not an `EINTR` failure. -/
  idle_poll : Int
  /-- `PQconnectStart`: `none` for `NULL`, else the new handle and whether its
  status is `CONNECTION_BAD`. -/
  connect_start : Option (PGconn × Bool)
  /-- Seconds of `gettimeofday` in `send_query`. -/
  send_now : Int
  /-- `PQparameterStatus(conn->db, "server_version")`. -/
  server_version : Option (List Char)
  /-- `PQparameterStatus(conn->db, "client_encoding")`. -/
  client_encoding : Option (List Char)
  /-- Return value of `PQsendQuery` (tuning statement). -/
  send_query_res : Int
  /-- Return value of `PQsendQueryParams`. -/
  send_params_res : Int
  /-- Return value of `PQflush` after sending. -/
  send_flush : Int
  /-- Return value of `PQconnectPoll` in `handle_conn`. -/
  connect_poll : PollingStatus
  /-- Return value of `PQflush` in `handle_conn`. -/
  handle_flush : Int
  /-- Return value of `PQconsumeInput`. -/
  consume_input : Int
  /-- The completed sub-results `PQgetResult` hands out, none of them while `PQisBusy`. -/
  read_results : List PGresult
  /-- After them: `true` when `PQisBusy`, `false` when `PQgetResult` returns `NULL`. -/
  read_busy : Bool
  /-- Whether `PQgetCancel` returns a handle. -/
  cancel_handle : Bool
  /-- Return value of `PQcancel`. -/
  cancel_res : Int
  deriving DecidableEq, Repr

/-- The loop of `cmp_branch` from position `i`, the strings being what is
left of `this` and `that` (an empty list is the terminator). -/
def cmp_branch_loop : Nat → List Char → List Char → Bool
  | _, [], [] => true
  | dot, [], b :: _ =>
    if dot ≠ 0 ∧ b = '.' then true
    else false
  | dot, a :: _, [] =>
    if dot ≠ 0 ∧ a = '.' then true
    else false
  | dot, a :: as, b :: bs =>
    if a ≠ b then false
    else if a = '.' then
      if dot ≠ 0 then true else cmp_branch_loop (dot + 1) as bs
    else cmp_branch_loop dot as bs

/-- The function `cmp_branch`. -/
def cmp_branch (this that : List Char) : Bool := cmp_branch_loop 0 this that

/-- The function `flush_connection`, `res` being the answer of `PQflush`. -/
def flush_connection (res : Int) (conn : ProxyConnection) :
    ProxyConnection × Option ProxyError :=
  if res > 0 then ({ conn with state := ConnState.C_QUERY_WRITE }, none)
  else if res = 0 then ({ conn with state := ConnState.C_QUERY_READ }, none)
  else (conn, some ProxyError.conn_error_flush)

/-- Record a statement that libpq has accepted for sending on the handle of
the connection. -/
def pq_send (stmt : RemoteStmt) (conn : ProxyConnection) : ProxyConnection :=
  { conn with db := conn.db.map (fun d => { d with sent := d.sent ++ [stmt] }) }

/-- The tuning statement `set client_encoding = '%s'; `. -/
def tuning_sql (this_enc : List Char) : List Char :=
  "set client_encoding = '".toList ++ this_enc ++ "'; ".toList

/-- The function `tune_connection`; the returned number is its return value. -/
def tune_connection (loc : LocalServer) (cw : ConnWorld) (conn : ProxyConnection) :
    ProxyConnection × Option ProxyError × Int :=
  match cw.server_version with
  | none => (conn, some ProxyError.bad_access, 0)
  | some dst_ver =>
    let conn1 := { conn with same_ver := cmp_branch dst_ver loc.pg_version }
    let sql : Option (List Char) :=
      match cw.client_encoding with
      | some dst_enc => if loc.encoding ≠ dst_enc then some (tuning_sql loc.encoding) else none
      | none => none
    match sql with
    | some s =>
      if conn1.tuning then (conn1, some ProxyError.conn_error_tuning, 0)
      else
        let conn2 := { conn1 with tuning := true, state := ConnState.C_QUERY_WRITE }
        if cw.send_query_res = 0 then (conn2, some ProxyError.conn_error_send_query, 0)
        else
          match flush_connection cw.send_flush (pq_send (RemoteStmt.simple s) conn2) with
          | (conn3, e) => (conn3, e, 1)
    | none => ({ conn1 with tuning := false }, none, 0)

/-- The arguments `values`, `plengths`, `pformats` of `remote_execute`. -/
structure RemoteArgs where
  values : List (Option (List Char))
  plengths : Option (List Int)
  pformats : Option (List Int)
  deriving DecidableEq, Repr

/-- The choice of `binary_result` in `send_query`. -/
def binary_result (func : ProxyFunction) (cf : ProxyConfig) (conn : ProxyConnection) :
    Option Int :=
  if cf.disable_binary = 0 ∧ conn.same_ver = true then
    match func.ret_scalar with
    | some ty => some (if ty.has_recv then 1 else 0)
    | none =>
      match func.ret_composite with
      | some comp => some (if comp.use_binary then 1 else 0)
      | none => none
  else some 0

/-- The function `send_query`. -/
def send_query (loc : LocalServer) (func : ProxyFunction) (cf : ProxyConfig)
    (args : RemoteArgs) (cw : ConnWorld) (conn : ProxyConnection) :
    ProxyConnection × Option ProxyError :=
  let conn0 := { conn with query_time := cw.send_now }
  match tune_connection loc cw conn0 with
  | (conn1, some e, _) => (conn1, some e)
  | (conn1, none, _) =>
    if conn1.tuning then (conn1, none)
    else
      match binary_result func cf conn1 with
      | none => (conn1, some ProxyError.bad_access)
      | some bin =>
        let conn2 := { conn1 with state := ConnState.C_QUERY_WRITE }
        if cw.send_params_res = 0 then (conn2, some ProxyError.conn_error_send_params)
        else flush_connection cw.send_flush (pq_send
          (RemoteStmt.params func.remote_sql.sql args.values args.plengths args.pformats bin)
          conn2)

/-- Modelled from the spec: the macro `PLPROXY_IDLE_CONN_CHECK` is defined in
`plproxy.h`, which is not among the sources. The spec calls it a short grace
window of idle time, in seconds, below which a connection is reused unchecked. -/
def PLPROXY_IDLE_CONN_CHECK : Int := 10

/-- The `intr_loop` of `check_old_conn`: `n` answers of `poll` that fail with
`EINTR` lead back to the label, then `poll` answers `cw.idle_poll`. -/
def idle_poll_loop (cw : ConnWorld) : Nat → Except ProxyError Bool
  | 0 =>
    if cw.idle_poll > 0 then Except.ok false
    else if cw.idle_poll < 0 then Except.error ProxyError.check_old_conn_failed
    else Except.ok true
  | n + 1 => idle_poll_loop cw n

/-- The function `check_old_conn`: `true` keeps the connection, `false` drops it. -/
def check_old_conn (cf : ProxyConfig) (cw : ConnWorld) (conn : ProxyConnection) (now : Int) :
    Except ProxyError Bool :=
  if cw.status_ok = false then Except.ok false
  else if cf.connection_lifetime > 0 ∧ now - conn.connect_time ≥ cf.connection_lifetime then
    Except.ok false
  else if now - conn.query_time < PLPROXY_IDLE_CONN_CHECK then Except.ok true
  else idle_poll_loop cw cw.idle_eintr

/-- The tail of `prepare_conn` after the switch: launch a new connection. -/
def launch_conn (cw : ConnWorld) (conn : ProxyConnection) :
    ProxyConnection × Option ProxyError :=
  let conn1 := { conn with connect_time := cw.prep_now }
  match cw.connect_start with
  | none => ({ conn1 with db := none }, some ProxyError.no_memory_for_pgconn)
  | some (db, bad) =>
    let conn2 := { conn1 with db := some db, state := ConnState.C_CONNECT_WRITE }
    if bad then (conn2, some ProxyError.conn_error_connect_start) else (conn2, none)

/-- The statements `PQfinish(conn->db); conn->db = NULL; conn->state = C_NONE`. -/
def drop_conn (conn : ProxyConnection) : ProxyConnection :=
  { conn with db := none, state := ConnState.C_NONE }

/-- The function `prepare_conn`, with the fall-through of its switch. -/
def prepare_conn (cf : ProxyConfig) (cw : ConnWorld) (conn : ProxyConnection) :
    ProxyConnection × Option ProxyError :=
  match conn.state with
  | ConnState.C_DONE =>
    let conn1 := { conn with state := ConnState.C_READY }
    match check_old_conn cf cw conn1 cw.prep_now with
    | Except.error e => (conn1, some e)
    | Except.ok true => (conn1, none)
    | Except.ok false => launch_conn cw (drop_conn conn1)
  | ConnState.C_READY =>
    match check_old_conn cf cw conn cw.prep_now with
    | Except.error e => (conn, some e)
    | Except.ok true => (conn, none)
    | Except.ok false => launch_conn cw (drop_conn conn)
  | ConnState.C_CONNECT_READ => launch_conn cw (drop_conn conn)
  | ConnState.C_CONNECT_WRITE => launch_conn cw (drop_conn conn)
  | ConnState.C_QUERY_READ => launch_conn cw (drop_conn conn)
  | ConnState.C_QUERY_WRITE => launch_conn cw (drop_conn conn)
  | ConnState.C_NONE => launch_conn cw conn

/-- The function `another_result`, `got` being the answer of `PQgetResult`;
the returned flag is its return value. -/
def another_result (got : Option PGresult) (conn : ProxyConnection) :
    ProxyConnection × Option ProxyError × Bool :=
  match got with
  | none =>
    if conn.tuning then ({ conn with state := ConnState.C_READY }, none, false)
    else ({ conn with state := ConnState.C_DONE }, none, false)
  | some res =>
    match res.status with
    | ExecStatusType.PGRES_TUPLES_OK =>
      if conn.res.isSome then (conn, some ProxyError.conn_error_double_result, true)
      else ({ conn with res := some res }, none, true)
    | ExecStatusType.PGRES_COMMAND_OK => (conn, none, true)
    | ExecStatusType.PGRES_OTHER => (conn, some ProxyError.conn_error_remote, true)

/-- The loop `while (1)` of `handle_conn` in state `C_QUERY_READ`. -/
def read_loop (busy : Bool) : List PGresult → ProxyConnection →
    ProxyConnection × Option ProxyError
  | [], conn =>
    if busy then (conn, none)
    else
      match another_result none conn with
      | (conn1, e, _) => (conn1, e)
  | res :: rest, conn =>
    match another_result (some res) conn with
    | (conn1, some e, _) => (conn1, some e)
    | (conn1, none, _) => read_loop busy rest conn1

/-- The function `handle_conn`. -/
def handle_conn (cw : ConnWorld) (conn : ProxyConnection) :
    ProxyConnection × Option ProxyError :=
  let connect_step : ProxyConnection × Option ProxyError :=
    match cw.connect_poll with
    | PollingStatus.PGRES_POLLING_WRITING =>
      ({ conn with state := ConnState.C_CONNECT_WRITE }, none)
    | PollingStatus.PGRES_POLLING_READING =>
      ({ conn with state := ConnState.C_CONNECT_READ }, none)
    | PollingStatus.PGRES_POLLING_OK => ({ conn with state := ConnState.C_READY }, none)
    | PollingStatus.PGRES_POLLING_ACTIVE => (conn, some ProxyError.conn_error_connect_poll)
    | PollingStatus.PGRES_POLLING_FAILED => (conn, some ProxyError.conn_error_connect_poll)
  match conn.state with
  | ConnState.C_CONNECT_READ => connect_step
  | ConnState.C_CONNECT_WRITE => connect_step
  | ConnState.C_QUERY_WRITE => flush_connection cw.handle_flush conn
  | ConnState.C_QUERY_READ =>
    if cw.consume_input = 0 then (conn, some ProxyError.conn_error_consume_input)
    else read_loop cw.read_busy cw.read_results conn
  | ConnState.C_NONE => (conn, none)
  | ConnState.C_DONE => (conn, none)
  | ConnState.C_READY => (conn, none)

/-- The function `check_timeouts`. -/
def check_timeouts (cf : ProxyConfig) (conn : ProxyConnection) (now : Int) :
    Option ProxyError :=
  match conn.state with
  | ConnState.C_CONNECT_READ | ConnState.C_CONNECT_WRITE =>
    if cf.connect_timeout ≤ 0 then none
    else if now - conn.connect_time ≤ cf.connect_timeout then none
    else some ProxyError.connect_timeout
  | ConnState.C_QUERY_READ | ConnState.C_QUERY_WRITE =>
    if cf.query_timeout ≤ 0 then none
    else if now - conn.query_time ≤ cf.query_timeout then none
    else some ProxyError.query_timeout
  | _ => none

/-! ## `execute.c`: multiplexer and executor -/

def POLLIN : Int := 1
def POLLOUT : Int := 4

/-- An entry of `pfd_cache`. -/
structure PollFd where
  fd : Int
  events : Int
  revents : Int
  deriving DecidableEq, Repr

/-- The answers of the outside world during one turn of the wait loop of
`remote_execute`. -/
structure IterWorld where
  /-- What `CHECK_FOR_INTERRUPTS` raises, if anything. -/
  interrupt : Option SqlErrCode
  /-- Return value of `poll` in `poll_conns`. -/
  poll_res : Int
  /-- Whether `errno == EINTR` after a failed `poll`. -/
  poll_eintr : Bool
  /-- The `revents` that `poll` stores in the entries of the wait set, by position. -/
  revents : List Int
  /-- Seconds of `gettimeofday` in the recheck. -/
  now : Int
  /-- The per-connection answers, by connection index. -/
  conn : Nat → ConnWorld

/-- The function `PQsocket`: -1 without handle. -/
def PQsocket (db : Option PGconn) : Int :=
  match db with
  | some d => d.sock
  | none => -1

/-- The first loop of `poll_conns`: the wait set, one entry per tagged
connection that is connecting or in a query. -/
def build_pollfds : List ProxyConnection → List PollFd
  | [] => []
  | conn :: rest =>
    if conn.run_on = false then build_pollfds rest
    else
      match conn.state with
      | ConnState.C_DONE => build_pollfds rest
      | ConnState.C_READY => build_pollfds rest
      | ConnState.C_NONE => build_pollfds rest
      | ConnState.C_CONNECT_READ => ⟨PQsocket conn.db, POLLIN, 0⟩ :: build_pollfds rest
      | ConnState.C_QUERY_READ => ⟨PQsocket conn.db, POLLIN, 0⟩ :: build_pollfds rest
      | ConnState.C_CONNECT_WRITE => ⟨PQsocket conn.db, POLLOUT, 0⟩ :: build_pollfds rest
      | ConnState.C_QUERY_WRITE => ⟨PQsocket conn.db, POLLOUT, 0⟩ :: build_pollfds rest

/-- What `poll` does to the wait set: it stores the `revents`. -/
def store_revents : List PollFd → List Int → List PollFd
  | [], _ => []
  | pf :: rest, [] => pf :: store_revents rest []
  | pf :: rest, r :: rs => { pf with revents := r } :: store_revents rest rs

/-- Whether the second loop of `poll_conns` looks at the connection. -/
def in_flight (conn : ProxyConnection) : Bool :=
  match conn.state with
  | ConnState.C_DONE => false
  | ConnState.C_READY => false
  | ConnState.C_NONE => false
  | ConnState.C_CONNECT_READ => true
  | ConnState.C_QUERY_READ => true
  | ConnState.C_CONNECT_WRITE => true
  | ConnState.C_QUERY_WRITE => true

/-- The second loop of `poll_conns` from connection `i` on, `pf` being what is
left of the wait set: the connections after the loop (those before `i` are in
`done`, in reverse). Running out of entries is an access outside the array. -/
def dispatch_loop (world : Nat → ConnWorld) :
    Nat → List ProxyConnection → List PollFd → List ProxyConnection →
    List ProxyConnection × Option ProxyError
  | _, [], _, done => (done.reverse, none)
  | i, conn :: rest, pf, done =>
    if conn.run_on = false then dispatch_loop world (i + 1) rest pf (conn :: done)
    else if in_flight conn = false then dispatch_loop world (i + 1) rest pf (conn :: done)
    else
      match pf with
      | [] => (done.reverse ++ conn :: rest, some ProxyError.bad_access)
      | entry :: pf_rest =>
        if entry.revents ≠ 0 then
          match handle_conn (world i) conn with
          | (conn1, some e) => (done.reverse ++ conn1 :: rest, some e)
          | (conn1, none) => dispatch_loop world (i + 1) rest pf_rest (conn1 :: done)
        else dispatch_loop world (i + 1) rest pf_rest (conn :: done)

/-- The function `poll_conns`; the returned number is its return value. -/
def poll_conns (w : IterWorld) (cluster : ProxyCluster) :
    ProxyCluster × Option ProxyError × Int :=
  if w.poll_res = 0 then (cluster, none, 0)
  else if w.poll_res < 0 ∧ w.poll_eintr = true then (cluster, none, 0)
  else if w.poll_res < 0 then (cluster, some ProxyError.poll_failed, 0)
  else
    match dispatch_loop w.conn 0 cluster.conn_list
        (store_revents (build_pollfds cluster.conn_list) w.revents) [] with
    | (conns, some e) => ({ cluster with conn_list := conns }, some e, 0)
    | (conns, none) => ({ cluster with conn_list := conns }, none, 1)

/-- The recheck loop of `remote_execute` from connection `i` on; `pending`
counts the tagged connections that are not `C_DONE`. -/
def recheck_loop (loc : LocalServer) (func : ProxyFunction) (cf : ProxyConfig)
    (args : RemoteArgs) (w : IterWorld) :
    Nat → List ProxyConnection → List ProxyConnection → Nat →
    List ProxyConnection × Option ProxyError × Nat
  | _, [], done, pending => (done.reverse, none, pending)
  | i, conn :: rest, done, pending =>
    if conn.run_on = false then
      recheck_loop loc func cf args w (i + 1) rest (conn :: done) pending
    else
      let sent : ProxyConnection × Option ProxyError :=
        if conn.state = ConnState.C_READY then send_query loc func cf args (w.conn i) conn
        else (conn, none)
      match sent with
      | (conn1, some e) => (done.reverse ++ conn1 :: rest, some e, pending)
      | (conn1, none) =>
        let pending1 := if conn1.state ≠ ConnState.C_DONE then pending + 1 else pending
        match check_timeouts cf conn1 w.now with
        | some e => (done.reverse ++ conn1 :: rest, some e, pending1)
        | none => recheck_loop loc func cf args w (i + 1) rest (conn1 :: done) pending1

/-- How a call leaves `remote_execute`: it returns, it raises, or it is still
in the wait loop when the scripted answers of the world are used up. -/
inductive Exit
  | returned
  | raised (e : ProxyError)
  | waiting
  deriving DecidableEq, Repr

/-- The loop `while (pending)` of `remote_execute`, one `IterWorld` per turn. -/
def wait_loop (loc : LocalServer) (func : ProxyFunction) (args : RemoteArgs) :
    List IterWorld → Nat → ProxyCluster → ProxyCluster × Exit
  | [], pending, cluster => if pending = 0 then (cluster, Exit.returned) else (cluster, Exit.waiting)
  | w :: rest, pending, cluster =>
    if pending = 0 then (cluster, Exit.returned)
    else
      match w.interrupt with
      | some code => (cluster, Exit.raised (ProxyError.interrupt code))
      | none =>
        match poll_conns w cluster with
        | (cluster1, some e, _) => (cluster1, Exit.raised e)
        | (cluster1, none, ret) =>
          if ret = 0 then wait_loop loc func args rest pending cluster1
          else
            match recheck_loop loc func cluster1.config args w 0 cluster1.conn_list [] 0 with
            | (conns, some e, _) => ({ cluster1 with conn_list := conns }, Exit.raised e)
            | (conns, none, pending1) =>
              wait_loop loc func args rest pending1 { cluster1 with conn_list := conns }

/-- The first loop of `remote_execute`: launch the connection or send the query. -/
def launch_loop (loc : LocalServer) (func : ProxyFunction) (cf : ProxyConfig)
    (args : RemoteArgs) (world : Nat → ConnWorld) :
    Nat → List ProxyConnection → List ProxyConnection →
    List ProxyConnection × Option ProxyError
  | _, [], done => (done.reverse, none)
  | i, conn :: rest, done =>
    if conn.run_on = false then launch_loop loc func cf args world (i + 1) rest (conn :: done)
    else
      match prepare_conn cf (world i) conn with
      | (conn1, some e) => (done.reverse ++ conn1 :: rest, some e)
      | (conn1, none) =>
        let sent : ProxyConnection × Option ProxyError :=
          if conn1.state = ConnState.C_READY then send_query loc func cf args (world i) conn1
          else (conn1, none)
        match sent with
        | (conn2, some e) => (done.reverse ++ conn2 :: rest, some e)
        | (conn2, none) => launch_loop loc func cf args world (i + 1) rest (conn2 :: done)

/-- The last loop of `remote_execute`: review the results and sum up
`ret_total`, which is returned next to the error. -/
def review_loop : List ProxyConnection → Int → Int × Option ProxyError
  | [], total => (total, none)
  | conn :: rest, total =>
    if (conn.run_on = true ∨ conn.res.isSome = true) ∧
        ¬ (conn.run_on = true ∧ conn.res.isSome = true) then
      (total, some ProxyError.run_on_mismatch)
    else if conn.run_on = false then review_loop rest total
    else if conn.state ≠ ConnState.C_DONE then (total, some ProxyError.unfinished_connection)
    else
      match conn.res with
      | none => (total, some ProxyError.lost_result)
      | some res =>
        if res.status ≠ ExecStatusType.PGRES_TUPLES_OK then (total, some ProxyError.remote_error)
        else review_loop rest (total + PQntuples res)

/-- The answers of the outside world during one call of `remote_execute`. -/
structure ExecWorld where
  /-- Per-connection answers during the first loop. -/
  launch : Nat → ConnWorld
  /-- One entry per turn of the wait loop. -/
  iters : List IterWorld
  /-- Per-connection answers during `remote_cancel`. -/
  cancel : Nat → ConnWorld

/-- The function `remote_execute`. -/
def remote_execute (loc : LocalServer) (func : ProxyFunction) (args : RemoteArgs)
    (world : ExecWorld) (cluster : ProxyCluster) : ProxyCluster × Exit :=
  match launch_loop loc func cluster.config args world.launch 0 cluster.conn_list [] with
  | (conns, some e) => ({ cluster with conn_list := conns }, Exit.raised e)
  | (conns, none) =>
    match wait_loop loc func args world.iters 1 { cluster with conn_list := conns } with
    | (cluster1, Exit.raised e) => (cluster1, Exit.raised e)
    | (cluster1, Exit.waiting) => (cluster1, Exit.waiting)
    | (cluster1, Exit.returned) =>
      match review_loop cluster1.conn_list cluster1.ret_total with
      | (total, some e) => ({ cluster1 with ret_total := total }, Exit.raised e)
      | (total, none) => ({ cluster1 with ret_total := total }, Exit.returned)

/-- The function `remote_cancel` from connection `i` on: the connections on
which `PQcancel` is called. -/
def remote_cancel_loop (world : Nat → ConnWorld) : Nat → List ProxyConnection → List Nat
  | _, [] => []
  | i, conn :: rest =>
    if conn.state = ConnState.C_NONE ∨ conn.state = ConnState.C_READY ∨
        conn.state = ConnState.C_DONE then
      remote_cancel_loop world (i + 1) rest
    else if (world i).cancel_handle = false then remote_cancel_loop world (i + 1) rest
    else i :: remote_cancel_loop world (i + 1) rest

/-- The function `remote_cancel` on a non-null cluster. It changes nothing in
the cluster; its effect is the list of connections that get a cancel request. -/
def remote_cancel (world : Nat → ConnWorld) (cluster : ProxyCluster) : List Nat :=
  remote_cancel_loop world 0 cluster.conn_list

/-- The parts of `FunctionCallInfo` the code reads: the argument values
(`PG_GETARG_DATUM`), their null flags (`PG_ARGISNULL`) and `flinfo->fn_retset`. -/
structure FunctionCallInfo where
  arg : List Int
  argnull : List Bool
  fn_retset : Bool
  deriving DecidableEq, Repr

/-- The answers of the outside world during one call of `plproxy_exec`;
`send_type` is the value codec `plproxy_send_type`, giving the encoded value,
its length and its format. -/
structure CallWorld where
  spi : SPIResult
  random : Int
  send_type : ProxyType → Int → Bool → List Char × Int × Int
  exec : ExecWorld

/-- What the argument loop of `plproxy_exec` has filled in so far. -/
structure PreparedArgs where
  values : List (Option (List Char))
  plengths : List Int
  pformats : List Int
  gotbin : Bool
  deriving DecidableEq, Repr

/-- The loop `for (i = 0; i < func->remote_sql->arg_count; i++)` of
`plproxy_exec` from parameter `i` on, `lookup` being what is left of `arg_lookup`. -/
def prepare_args_loop (func : ProxyFunction) (fcinfo : FunctionCallInfo) (cf : ProxyConfig)
    (send_type : ProxyType → Int → Bool → List Char × Int × Int) :
    Nat → List Nat → PreparedArgs → Except ProxyError PreparedArgs
  | _, [], acc => Except.ok acc
  | i, idx :: rest, acc =>
    if fcinfo.argnull.getD i false then
      prepare_args_loop func fcinfo cf send_type (i + 1) rest
        { acc with values := acc.values ++ [none], plengths := acc.plengths ++ [0],
                   pformats := acc.pformats ++ [0] }
    else
      match func.arg_types[idx]? with
      | none => Except.error ProxyError.bad_access
      | some ty =>
        let bin : Bool := if cf.disable_binary ≠ 0 then false else true
        match send_type ty (fcinfo.arg.getD idx 0) bin with
        | (val, len, fmt) =>
          prepare_args_loop func fcinfo cf send_type (i + 1) rest
            { values := acc.values ++ [some val], plengths := acc.plengths ++ [len],
              pformats := acc.pformats ++ [fmt],
              gotbin := if fmt ≠ 0 then true else acc.gotbin }

/-- Modelled from the spec: `plproxy_error` and `geterrcode` for servers from
8.4 on are outside the three source files. In the spec a fatal error leaves
through a non-local exit and cancellation is told apart by the code of the
caught error, so only what `CHECK_FOR_INTERRUPTS` raises can carry the
query-cancelled code; every error raised by the proxy itself is an internal
error. -/
def geterrcode (e : ProxyError) : SqlErrCode :=
  match e with
  | ProxyError.interrupt code => code
  | _ => SqlErrCode.ERRCODE_INTERNAL_ERROR

/-- How a call of `plproxy_exec` ends: the cluster it leaves, how it exits and
the connections that got a cancel request from the catch block. -/
structure ExecResult where
  cluster : ProxyCluster
  exit : Exit
  cancelled : List Nat
  deriving DecidableEq, Repr

/-- The choice `if (gotbin) remote_execute(func, values, plengths, pformats)
else remote_execute(func, values, NULL, NULL)`. -/
def remote_args (prep : PreparedArgs) : RemoteArgs :=
  if prep.gotbin then ⟨prep.values, some prep.plengths, some prep.pformats⟩
  else ⟨prep.values, none, none⟩

/-- The function `plproxy_exec`. -/
def plproxy_exec (loc : LocalServer) (func : ProxyFunction) (fcinfo : FunctionCallInfo)
    (world : CallWorld) (cluster : ProxyCluster) : ExecResult :=
  match plproxy_exec_select
      ⟨func.run_type, func.exact_nr, fcinfo.fn_retset, world.spi, world.random⟩ cluster with
  | (cluster1, some e) => ⟨cluster1, Exit.raised e, []⟩
  | (cluster1, none) =>
    match prepare_args_loop func fcinfo cluster1.config world.send_type 0
        func.remote_sql.arg_lookup ⟨[], [], [], false⟩ with
    | Except.error e => ⟨cluster1, Exit.raised e, []⟩
    | Except.ok prep =>
      match remote_execute loc func (remote_args prep) world.exec cluster1 with
      | (cluster2, Exit.raised e) =>
        if geterrcode e = SqlErrCode.ERRCODE_QUERY_CANCELED then
          ⟨cluster2, Exit.raised e, remote_cancel world.exec.cancel cluster2⟩
        else ⟨cluster2, Exit.raised e, []⟩
      | (cluster2, Exit.returned) => ⟨cluster2, Exit.returned, []⟩
      | (cluster2, Exit.waiting) => ⟨cluster2, Exit.waiting, []⟩

/-! ## Concrete worlds for the examples -/

def local_server : LocalServer :=
  { pg_version := ['8', '.', '3', '.', '5'], encoding := ['U', 'T', 'F', '8'] }

/-- A remote end of the same branch and encoding that accepts everything and
has no result to hand out. -/
def plain_conn_world : ConnWorld :=
  { prep_now := 0, status_ok := true, idle_eintr := 0, idle_poll := 0,
    connect_start := some (⟨5, []⟩, false), send_now := 0,
    server_version := some ['8', '.', '3', '.', '1'],
    client_encoding := some ['U', 'T', 'F', '8'],
    send_query_res := 1, send_params_res := 1, send_flush := 0,
    connect_poll := PollingStatus.PGRES_POLLING_OK, handle_flush := 0, consume_input := 1,
    read_results := [], read_busy := false, cancel_handle := true, cancel_res := 1 }

/-- The same remote end handing out one row-set result of two rows. -/
def rows_conn_world : ConnWorld :=
  { plain_conn_world with
    read_results := [two_col_result [[some ['1'], some ['a']], [some ['2'], none]]] }

/-- A turn of the wait loop in which `poll` reports one event on the first entry. -/
def event_iter (now : Int) (cw : ConnWorld) : IterWorld :=
  { interrupt := none, poll_res := 1, poll_eintr := false, revents := [1], now := now,
    conn := fun _ => cw }

/-- A turn of the wait loop in which `poll` times out without event. -/
def idle_iter (now : Int) : IterWorld :=
  { interrupt := none, poll_res := 0, poll_eintr := false, revents := [], now := now,
    conn := fun _ => plain_conn_world }

/-- A turn of the wait loop in which the backend is told to cancel the query. -/
def cancel_iter : IterWorld :=
  { interrupt := some SqlErrCode.ERRCODE_QUERY_CANCELED, poll_res := 0, poll_eintr := false,
    revents := [], now := 0, conn := fun _ => plain_conn_world }

/-- One partition, its connection tagged and without socket. -/
def one_part_cluster (cf : ProxyConfig) : ProxyCluster :=
  { config := cf, part_count := 1, part_mask := 0, part_map := [0],
    conn_list := [{ idle_conn with run_on := true }], ret_cur_conn := 0, ret_total := 0 }

/-- Connect, send, receive two rows: the world of a round that completes. -/
def complete_world : ExecWorld :=
  { launch := fun _ => plain_conn_world,
    iters := [event_iter 1 plain_conn_world, event_iter 2 rows_conn_world],
    cancel := fun _ => plain_conn_world }

def no_args : RemoteArgs := ⟨[], none, none⟩

def timeout_config : ProxyConfig :=
  { connection_lifetime := 0, query_timeout := 1, connect_timeout := 1, disable_binary := 0 }

/-- Connect and send at time 1, then three wakeups of `poll` without any event
at times 1000, 2000 and 3000. -/
def stalled_world : ExecWorld :=
  { launch := fun _ => plain_conn_world,
    iters := [event_iter 1 plain_conn_world, idle_iter 1000, idle_iter 2000, idle_iter 3000],
    cancel := fun _ => plain_conn_world }

/-- A connection attempt that is still writing at time 100. -/
def slow_connect_world : ExecWorld :=
  { launch := fun _ => plain_conn_world,
    iters := [event_iter 100
      { plain_conn_world with connect_poll := PollingStatus.PGRES_POLLING_WRITING }],
    cancel := fun _ => plain_conn_world }

/-- A connection attempt during which the query is cancelled. -/
def cancelled_world : ExecWorld :=
  { launch := fun _ => plain_conn_world, iters := [cancel_iter],
    cancel := fun _ => plain_conn_world }

/-- A call world around an executor world, for a function without arguments. -/
def call_world (exec : ExecWorld) : CallWorld :=
  { spi := ⟨0, 0, []⟩, random := 0, send_type := fun _ _ _ => ([], 0, 0), exec := exec }

def no_fcinfo : FunctionCallInfo := ⟨[], [], false⟩

/-- The cancel requests of the catch block of `plproxy_exec` for an exit of
`remote_execute`. -/
def catch_cancels (world : Nat → ConnWorld) (cluster : ProxyCluster) (x : Exit) : List Nat :=
  match x with
  | Exit.raised e =>
    if geterrcode e = SqlErrCode.ERRCODE_QUERY_CANCELED then remote_cancel world cluster else []
  | _ => []

/-- The tagged connection right after `PQconnectStart`. -/
def connecting_conn : ProxyConnection :=
  { idle_conn with
    db := some ⟨5, []⟩
    state := ConnState.C_CONNECT_WRITE
    run_on := true }

/-- The example function with run type `R_EXACT` and the given partition number. -/
def exact_func (nr : Int) : ProxyFunction :=
  { name_id_func with run_type := RunType.R_EXACT, exact_nr := nr }

/-! ## Concrete inputs for the connection state machine -/

/-- A connection that is `C_READY` on socket 3, connected and last used at time 0. -/
def ready_conn : ProxyConnection :=
  { idle_conn with
    db := some ⟨3, []⟩
    state := ConnState.C_READY
    run_on := true }

/-- A remote end whose socket is readable when `check_old_conn` polls it. -/
def readable_conn_world (now : Int) : ConnWorld :=
  { plain_conn_world with
    prep_now := now
    idle_poll := 1 }

def lifetime_config : ProxyConfig :=
  { connection_lifetime := 100, query_timeout := 0, connect_timeout := 0, disable_binary := 0 }

/-! ## `cmp_branch` with explicit indices, and the components of a version string -/

/-- The terminator of a C string. -/
def NUL : Char := Char.ofNat 0

/-- The read `s[i]` on a C string: a character of the string, the terminator
right after it, and no legal read beyond the terminator. -/
def c_char_at (s : List Char) (i : Nat) : Option Char :=
  if i < s.length then s[i]?
  else if i = s.length then some NUL
  else none

/-- The loop of `cmp_branch` as written, with the index `i` and the counter
`dot`; `none` when a read goes beyond a terminator or the fuel runs out. -/
def cmp_branch_idx (this that : List Char) : Nat → Nat → Nat → Option Bool
  | 0, _, _ => none
  | fuel + 1, i, dot =>
    match c_char_at this i, c_char_at that i with
    | some a, some b =>
      if a = NUL ∧ b = NUL then some true
      else if dot ≠ 0 ∧ a = '.' ∧ b = NUL then some true
      else if dot ≠ 0 ∧ b = '.' ∧ a = NUL then some true
      else if a ≠ b then some false
      else if a = '.' then
        if dot ≠ 0 then some true else cmp_branch_idx this that fuel (i + 1) (dot + 1)
      else cmp_branch_idx this that fuel (i + 1) dot
    | _, _ => none

/-- The components of a string: its pieces between the dots, obtained by
splitting at every `'.'`. -/
def dot_components : List Char → List (List Char)
  | [] => [[]]
  | c :: rest =>
    if c = '.' then [] :: dot_components rest
    else
      match dot_components rest with
      | [] => [[c]]
      | h :: t => (c :: h) :: t

/-- The first (at most) two components of a string. -/
def branch_of (s : List Char) : List (List Char) := (dot_components s).take 2

/-- The remote encoding is known and differs from the local one: the case in
which `tune_connection` builds the `set client_encoding` statement. -/
def encoding_mismatch (loc : LocalServer) (cw : ConnWorld) : Prop :=
  ∃ dst_enc, cw.client_encoding = some dst_enc ∧ loc.encoding ≠ dst_enc

instance (loc : LocalServer) (cw : ConnWorld) : Decidable (encoding_mismatch loc cw) := by
  unfold encoding_mismatch
  cases cw.client_encoding with
  | none => exact isFalse (by simp)
  | some e =>
    by_cases h : loc.encoding = e
    · exact isFalse (by simp [h])
    · exact isTrue ⟨e, rfl, h⟩

/-- The handle after one more statement has been sent on it. -/
def sent_one (d : PGconn) (stmt : RemoteStmt) : PGconn := { d with sent := d.sent ++ [stmt] }

/-- A remote end that reports another client encoding. -/
def latin_conn_world : ConnWorld :=
  { plain_conn_world with client_encoding := some ['L', 'A', 'T', 'I', 'N', '1'] }


/-! ## Examples for result draining -/

/-- The row-set sub-results among the sub-results that libpq hands out. -/
def row_sets (rs : List PGresult) : List PGresult :=
  rs.filter (fun r => decide (r.status = ExecStatusType.PGRES_TUPLES_OK))

/-- A connection waiting for the answer to its query, nothing captured yet. -/
def reading_conn : ProxyConnection :=
  { idle_conn with
    db := some ⟨3, []⟩
    state := ConnState.C_QUERY_READ
    run_on := true }

/-- A command-only sub-result. -/
def command_result : PGresult :=
  { status := ExecStatusType.PGRES_COMMAND_OK, fnames := [], rows := [] }

/-- A remote end that delivers a command-only sub-result, one row set, and a
second command-only sub-result, then end-of-results. -/
def mixed_conn_world : ConnWorld :=
  { plain_conn_world with
    read_results := [command_result, two_col_result [[some ['1'], some ['a']]],
      command_result] }

/-! ## Broadcast tagging -/

/-- The indices of the tagged connections of the cluster, in ascending order. -/
def tagged_conns (cluster : ProxyCluster) : List Nat :=
  (List.range cluster.conn_list.length).filter (fun j => is_tagged cluster j)

/-- The connections that the first `part_count` slots of the partition map address. -/
def addressed_conns (cluster : ProxyCluster) : List Nat :=
  cluster.part_map.take cluster.part_count.toNat

/-- Two partitions served by one connection. -/
def shared_conn_cluster : ProxyCluster :=
  { config := default_config, part_count := 2, part_mask := 1, part_map := [0, 0],
    conn_list := [idle_conn], ret_cur_conn := 0, ret_total := 0 }

/-- A broadcast call. -/
def all_select : SelectInput :=
  { run_type := RunType.R_ALL, exact_nr := 0, fn_retset := true,
    spi := ⟨SPI_OK_SELECT, INT4OID, []⟩, random := 0 }

/-! ## A round without tagged connection -/

/-- The example function with run type `R_HASH`. -/
def hash_func : ProxyFunction :=
  { name_id_func with run_type := RunType.R_HASH }

/-- A set-returning call without arguments. -/
def retset_fcinfo : FunctionCallInfo := ⟨[], [], true⟩

/-- The key query succeeds with zero rows, and `poll` wakes up `n` times
without event, as it does after its 1000 ms on an empty wait set. -/
def empty_key_world (n : Nat) : CallWorld :=
  { spi := ⟨SPI_OK_SELECT, INT4OID, []⟩, random := 0, send_type := fun _ _ _ => ([], 0, 0),
    exec := { launch := fun _ => plain_conn_world,
              iters := List.replicate n (idle_iter 0),
              cancel := fun _ => plain_conn_world } }

/-! ## The operations of `remote_execute` on one connection -/

/-- A statement has been handed to libpq on the connection and its results
are not yet read to the end: the states `C_QUERY_WRITE` and `C_QUERY_READ`. -/
def outstanding (conn : ProxyConnection) : Prop :=
  conn.state = ConnState.C_QUERY_WRITE ∨ conn.state = ConnState.C_QUERY_READ

instance (conn : ProxyConnection) : Decidable (outstanding conn) := by
  unfold outstanding; infer_instance

/-- One call that `remote_execute` makes on connection `j`: `prepare_conn` or
the guarded `send_query` of the launch loop, `handle_conn` from `poll_conns` or
the guarded `send_query` of the recheck loop in a turn `w` of the wait loop. -/
inductive ConnStep (loc : LocalServer) (func : ProxyFunction) (cf : ProxyConfig)
    (args : RemoteArgs) (world : ExecWorld) (j : Nat) :
    ProxyConnection → ProxyConnection → Prop
  | prepare (conn : ProxyConnection) :
    ConnStep loc func cf args world j conn (prepare_conn cf (world.launch j) conn).1
  | send_launch (conn : ProxyConnection) (h : conn.state = ConnState.C_READY) :
    ConnStep loc func cf args world j conn
      (send_query loc func cf args (world.launch j) conn).1
  | handle (w : IterWorld) (conn : ProxyConnection) (hw : w ∈ world.iters) :
    ConnStep loc func cf args world j conn (handle_conn (w.conn j) conn).1
  | send_recheck (w : IterWorld) (conn : ProxyConnection) (hw : w ∈ world.iters)
      (h : conn.state = ConnState.C_READY) :
    ConnStep loc func cf args world j conn (send_query loc func cf args (w.conn j) conn).1

/-- The connections `conns`, which sit at the indices `i`, `i + 1`, ... of the
cluster, are related one by one to the connections `out`, connection `j` by `R j`. -/
def steps_from (R : Nat → ProxyConnection → ProxyConnection → Prop) :
    Nat → List ProxyConnection → List ProxyConnection → Prop
  | _, [], [] => True
  | i, c :: cs, d :: ds => R i c d ∧ steps_from R (i + 1) cs ds
  | _, [], _ :: _ => False
  | _, _ :: _, [] => False

/-- Connection `j` gets from one value to the other by calls that
`remote_execute` makes on it, in some number and order. -/
def conn_run (loc : LocalServer) (func : ProxyFunction) (cf : ProxyConfig)
    (args : RemoteArgs) (world : ExecWorld) (j : Nat) :
    ProxyConnection → ProxyConnection → Prop :=
  Relation.ReflTransGen (ConnStep loc func cf args world j)

/-- A statement sent and not yet answered when the round starts. -/
def undrained_conn : ProxyConnection :=
  { idle_conn with
    db := some ⟨3, [RemoteStmt.params [] [] none none 0]⟩
    state := ConnState.C_QUERY_READ
    run_on := true }

/-- One partition whose tagged connection still has a statement outstanding. -/
def undrained_cluster : ProxyCluster :=
  { config := default_config, part_count := 1, part_mask := 0, part_map := [0],
    conn_list := [undrained_conn], ret_cur_conn := 0, ret_total := 0 }

/-- A round in which `poll` wakes up once without event. -/
def quiet_world : ExecWorld :=
  { launch := fun _ => plain_conn_world,
    iters := [idle_iter 0],
    cancel := fun _ => plain_conn_world }

/-! ## `plproxy_clean_results` with its null check, and the wait set of `poll_conns` -/

/-- The function `plproxy_clean_results` on the pointer it is given: `none`
is the null cluster, for which it returns at once. -/
def plproxy_clean_results_ptr (cluster : Option ProxyCluster) : Option ProxyCluster :=
  match cluster with
  | none => none
  | some c => some (plproxy_clean_results c)

/-- The head of `poll_conns`: the number of entries of `pfd_cache` after the
check `if (pfd_allocated < cluster->conn_count)`, `allocated` being
`pfd_allocated` before it. -/
def pfd_allocate (allocated conn_count : Nat) : Nat :=
  if allocated < conn_count then
    if conn_count < 64 then 64 else conn_count
  else allocated

/-- The connection is tagged and is connecting or in a query. -/
def waits_on (conn : ProxyConnection) : Bool :=
  conn.run_on && (conn.state == ConnState.C_CONNECT_READ ||
    conn.state == ConnState.C_QUERY_READ || conn.state == ConnState.C_CONNECT_WRITE ||
    conn.state == ConnState.C_QUERY_WRITE)

/-- The direction to wait for: readable in the two read states, writable otherwise. -/
def wait_events (conn : ProxyConnection) : Int :=
  if conn.state = ConnState.C_CONNECT_READ ∨ conn.state = ConnState.C_QUERY_READ then POLLIN
  else POLLOUT

/-- The connections of the list that are waited on, with their indices
(counted from `i`), in ascending order. -/
def wait_members (i : Nat) (conns : List ProxyConnection) : List (Nat × ProxyConnection) :=
  (conns.enumFrom i).filter (fun p => waits_on p.2)

/-- Three tagged connections, the second one ready, and one connection not tagged. -/
def mixed_state_cluster : ProxyCluster :=
  { config := default_config, part_count := 4, part_mask := 3, part_map := [0, 1, 2, 3],
    conn_list :=
      [{ idle_conn with db := some ⟨7, []⟩, state := ConnState.C_QUERY_READ, run_on := true },
       { idle_conn with db := some ⟨8, []⟩, state := ConnState.C_READY, run_on := true },
       { idle_conn with db := some ⟨9, []⟩, state := ConnState.C_CONNECT_WRITE, run_on := true },
       { idle_conn with db := some ⟨10, []⟩, state := ConnState.C_QUERY_WRITE }],
    ret_cur_conn := 0, ret_total := 0 }

/-! ## The dispatch pass of `poll_conns`, connection by connection -/

/-- The position in the wait set of the entry that the first loop of
`poll_conns` builds for connection `i`: the number of entries built for the
connections before it. -/
def wait_index (conns : List ProxyConnection) (i : Nat) : Nat :=
  (build_pollfds (conns.take i)).length

/-- What the dispatch pass is to do with connection `i`, whose value is `c`,
`conns` being the connections as they were when the wait set was built and
`revs` the `revents` that `poll` stored, by position: call `handle_conn` when the
connection has an entry and the `revents` of that entry are not zero. -/
def dispatch_one (world : Nat → ConnWorld) (revs : List Int) (conns : List ProxyConnection)
    (i : Nat) (c : ProxyConnection) : ProxyConnection × Option ProxyError :=
  if c.run_on = true ∧ in_flight c = true ∧ revs.getD (wait_index conns i) 0 ≠ 0 then
    handle_conn (world i) c
  else (c, none)

/-- The connections from index `i` on, each treated by `dispatch_one` in turn
until a call raises. -/
def dispatch_pass (world : Nat → ConnWorld) (revs : List Int) (conns : List ProxyConnection) :
    Nat → List ProxyConnection → List ProxyConnection × Option ProxyError
  | _, [] => ([], none)
  | i, c :: rest =>
    match dispatch_one world revs conns i c with
    | (c1, some e) => (c1 :: rest, some e)
    | (c1, none) =>
      match dispatch_pass world revs conns (i + 1) rest with
      | (out, e) => (c1 :: out, e)

/-- A wakeup of `poll` with events on the second entry of the wait set only. -/
def second_entry_iter : IterWorld :=
  { interrupt := none, poll_res := 1, poll_eintr := false, revents := [0, 4], now := 0,
    conn := fun _ => plain_conn_world }

/-! ## `query.c`: local execution of a statement -/

/-- The loop `for (i = 0; i < q->arg_count; i++)` of `plproxy_query_exec`, `lookup`
being what is left of `arg_lookup`: the arrays `arg_nulls` and `arg_values`. -/
def query_exec_loop (func : ProxyFunction) (fcinfo : FunctionCallInfo) :
    List Nat → List Char → List Int → Except ProxyError (List Char × List Int)
  | [], nulls, values => Except.ok (nulls, values)
  | idx :: rest, nulls, values =>
    match func.arg_types[idx]? with
    | none => Except.error ProxyError.bad_access
    | some _ =>
      if fcinfo.argnull.getD idx false then
        query_exec_loop func fcinfo rest (nulls ++ ['n']) (values ++ [0])
      else
        query_exec_loop func fcinfo rest (nulls ++ [' ']) (values ++ [fcinfo.arg.getD idx 0])

/-- The function `plproxy_query_exec`, `err` being the answer of
`SPI_execute_plan`: the `arg_nulls` and `arg_values` it hands to the plan. -/
def plproxy_query_exec (func : ProxyFunction) (fcinfo : FunctionCallInfo) (q : ProxyQuery)
    (err : Int) : Except ProxyError (List Char × List Int) :=
  match query_exec_loop func fcinfo q.arg_lookup [] [] with
  | Except.error e => Except.error e
  | Except.ok filled =>
    if err ≠ SPI_OK_SELECT then Except.error ProxyError.query_failed
    else Except.ok filled

/-- A function of two `int4` arguments whose remote statement uses the second
argument only. -/
def second_arg_func : ProxyFunction :=
  { name_id_func with
    arg_types := [⟨INT4OID, ['i', 'n', 't', '4'], true⟩, ⟨INT4OID, ['i', 'n', 't', '4'], true⟩]
    arg_names := [['a'], ['b']]
    remote_sql := ⟨"select * from f($1)".toList, [1]⟩
    hash_sql := ⟨"select $1".toList, [1]⟩ }

/-- A call with a null first argument and 20 as second argument. -/
def null_first_fcinfo : FunctionCallInfo := ⟨[0, 20], [true, false], false⟩

/-- A call with 10 as first argument and a null second argument. -/
def null_second_fcinfo : FunctionCallInfo := ⟨[10, 0], [false, true], false⟩

/-- A value codec that sends the decimal digits of the datum as text. -/
def digits_codec (_ : ProxyType) (v : Int) (_ : Bool) : List Char × Int × Int :=
  (Nat.toDigits 10 v.toNat, 0, 0)

/-- A call that completes, with the digits codec. -/
def digits_call_world : CallWorld :=
  { spi := ⟨SPI_OK_SELECT, INT4OID, []⟩, random := 0, send_type := digits_codec,
    exec := complete_world }

/-! ## `query.c`: building a statement -/

/-- The number `func->arg_count`: the arrays `arg_types` and `arg_names` of the
function have that many entries. -/
def ProxyFunction.arg_count (func : ProxyFunction) : Nat := func.arg_types.length

/-- The struct `QueryBuffer`: `arg_lookup` holds the entries written so far
(`arg_count` is their number); the array has room for `func->arg_count` entries. -/
structure QueryBuffer where
  func : ProxyFunction
  sql : List Char
  arg_lookup : List Nat
  add_types : Bool
  deriving DecidableEq, Repr

def QueryBuffer.arg_count (q : QueryBuffer) : Nat := q.arg_lookup.length

/-- The function `plproxy_query_start`. -/
def plproxy_query_start (func : ProxyFunction) (add_types : Bool) : QueryBuffer :=
  { func := func, sql := [], arg_lookup := [], add_types := add_types }

/-- The function `plproxy_query_add_const`. -/
def plproxy_query_add_const (q : QueryBuffer) (data : List Char) : QueryBuffer × Bool :=
  ({ q with sql := q.sql ++ data }, true)

/-- The test `isspace` of the C library in the C locale. -/
def isspace (c : Char) : Bool :=
  c = ' ' || (9 ≤ c.toNat && c.toNat ≤ 13)

/-- The digits that `atoi` reads, `acc` being the value so far. -/
def atoi_digits : List Char → Int → Int
  | [], acc => acc
  | c :: cs, acc =>
    if c.isDigit then atoi_digits cs (acc * 10 + ((c.toNat : Int) - 48)) else acc

/-- The number that `strtol` reads in base 10: white space, an optional sign,
then digits up to the first other character. -/
def decimal_value (s : List Char) : Int :=
  match s.dropWhile isspace with
  | '-' :: rest => - atoi_digits rest 0
  | '+' :: rest => atoi_digits rest 0
  | rest => atoi_digits rest 0

def INT_MAX : Int := 2147483647
def INT_MIN : Int := -2147483648
def LONG_MAX : Int := 9223372036854775807
def LONG_MIN : Int := -9223372036854775808

/-- The conversion of a value to a 32-bit `int`: the value modulo `2^32`, taken
in `[-2^31, 2^31)`. -/
def to_int32 (v : Int) : Int := (v + 2147483648) % 4294967296 - 2147483648

/-- The function `strtol` in base 10 with a 64-bit `long`: a number outside the
range of `long` gives `LONG_MAX` or `LONG_MIN`. -/
def strtol (s : List Char) : Int :=
  if decimal_value s > LONG_MAX then LONG_MAX
  else if decimal_value s < LONG_MIN then LONG_MIN
  else decimal_value s

/-- The function `atoi` of the C library, which returns an `int`. C defines the
result when the number read fits an `int`, and it is that number; beyond that
range the value here is the one of the GNU C library with a 64-bit `long`,
`(int) strtol(s, NULL, 10)`. -/
def atoi (s : List Char) : Int := to_int32 (strtol s)

/-- The number after the `$` and its predecessor fit an `int`, so that
`atoi(ident + 1) - 1` is computed without overflow. -/
def fits_int (s : List Char) : Prop :=
  INT_MIN < decimal_value s ∧ decimal_value s ≤ INT_MAX

instance (s : List Char) : Decidable (fits_int s) := by
  unfold fits_int; infer_instance

/-- The size of the buffer `tmp` in `add_ref`. -/
def ADD_REF_TMP : Nat := 32

/-- The text that `sprintf` writes in `add_ref`. -/
def ref_text (sql_idx : Nat) (type_name : List Char) (add_type : Bool) : List Char :=
  if add_type then '$' :: Nat.toDigits 10 (sql_idx + 1) ++ [':', ':'] ++ type_name
  else '$' :: Nat.toDigits 10 (sql_idx + 1)

/-- The function `add_ref`: the text appended to `buf`. A text that with its
terminator does not fit `tmp`, or a type index outside `arg_types`, is an access
outside an array. -/
def add_ref (buf : List Char) (sql_idx : Nat) (func : ProxyFunction) (fn_idx : Nat)
    (add_type : Bool) : Except ProxyError (List Char) :=
  let type_name : Except ProxyError (List Char) :=
    if add_type then
      match func.arg_types[fn_idx]? with
      | some ty => Except.ok ty.name
      | none => Except.error ProxyError.bad_access
    else Except.ok []
  match type_name with
  | Except.error e => Except.error e
  | Except.ok name =>
    if (ref_text sql_idx name add_type).length < ADD_REF_TMP then
      Except.ok (buf ++ ref_text sql_idx name add_type)
    else Except.error ProxyError.bad_access

/-- The loop `for (i = 0; i < q->func->arg_count; i++)` of `plproxy_query_add_ident`
from argument `i` on, with `n` arguments left: the `fn_idx` it finds. -/
def name_search (ident : List Char) (func : ProxyFunction) :
    Nat → Nat → Except ProxyError (Option Nat)
  | 0, _ => Except.ok none
  | n + 1, i =>
    match func.arg_names[i]? with
    | none => Except.error ProxyError.bad_access
    | some name =>
      if strcasecmp_eq ident name then Except.ok (some i)
      else name_search ident func n (i + 1)

/-- The loop `for (i = 0; i < q->arg_count; i++)` of `plproxy_query_add_ident` from
entry `i` on: the `sql_idx` it finds. -/
def lookup_search (fn_idx : Nat) : List Nat → Nat → Option Nat
  | [], _ => none
  | x :: rest, i => if x = fn_idx then some i else lookup_search fn_idx rest (i + 1)

/-- The block `if (fn_idx >= 0) { ... }` of `plproxy_query_add_ident`: find or
add the entry of `arg_lookup` for `fn_idx` and append the reference. A new entry
beyond the `func->arg_count` entries of the array is an access outside it. -/
def add_ident_ref (q : QueryBuffer) (fn_idx : Nat) : Except ProxyError (QueryBuffer × Bool) :=
  match lookup_search fn_idx q.arg_lookup 0 with
  | some sql_idx =>
    match add_ref q.sql sql_idx q.func fn_idx q.add_types with
    | Except.error e => Except.error e
    | Except.ok sql => Except.ok ({ q with sql := sql }, true)
  | none =>
    if q.arg_count < q.func.arg_count then
      match add_ref q.sql q.arg_count q.func fn_idx q.add_types with
      | Except.error e => Except.error e
      | Except.ok sql =>
        Except.ok ({ q with sql := sql, arg_lookup := q.arg_lookup ++ [fn_idx] }, true)
    else Except.error ProxyError.bad_access

/-- The function `plproxy_query_add_ident`: the buffer after the call and the
returned flag. The variable `fn_idx` is an `int`: `atoi(ident + 1) - 1` converted
to 32 bits. -/
def plproxy_query_add_ident (q : QueryBuffer) (ident : List Char) :
    Except ProxyError (QueryBuffer × Bool) :=
  match ident with
  | '$' :: rest =>
    if to_int32 (atoi rest - 1) < 0 ∨ to_int32 (atoi rest - 1) ≥ q.func.arg_count then
      Except.ok (q, false)
    else add_ident_ref q (to_int32 (atoi rest - 1)).toNat
  | _ =>
    match name_search ident q.func q.func.arg_count 0 with
    | Except.error e => Except.error e
    | Except.ok (some fn_idx) => add_ident_ref q fn_idx
    | Except.ok none => Except.ok ({ q with sql := q.sql ++ ident }, true)

/-- One call on a `QueryBuffer`. -/
inductive QueryOp
  | add_const (data : List Char)
  | add_ident (ident : List Char)
  deriving DecidableEq, Repr

/-- A sequence of calls of `plproxy_query_add_const` and `plproxy_query_add_ident`
on a buffer, whatever the calls return. -/
def run_query_ops : QueryBuffer → List QueryOp → Except ProxyError QueryBuffer
  | q, [] => Except.ok q
  | q, QueryOp.add_const data :: rest => run_query_ops (plproxy_query_add_const q data).1 rest
  | q, QueryOp.add_ident ident :: rest =>
    match plproxy_query_add_ident q ident with
    | Except.error e => Except.error e
    | Except.ok (q1, _) => run_query_ops q1 rest

/-- The function argument that an identifier without `$` refers to: the first
argument whose name equals it ignoring case. -/
def first_named (ident : List Char) (func : ProxyFunction) (f : Nat) : Prop :=
  (∃ name, func.arg_names[f]? = some name ∧ strcasecmp_eq ident name = true) ∧
  ∀ g name, g < f → func.arg_names[g]? = some name → strcasecmp_eq ident name = false

/-- Every reference that `add_ref` can be asked to write for the function fits
its buffer `tmp`. -/
def refs_fit (func : ProxyFunction) (add_types : Bool) : Prop :=
  ∀ k < func.arg_count, ∀ ty ∈ func.arg_types,
    (ref_text k ty.name add_types).length < ADD_REF_TMP

instance (func : ProxyFunction) (add_types : Bool) : Decidable (refs_fit func add_types) := by
  unfold refs_fit; infer_instance

/-- A function of two `int4` arguments named `a` and `A`. -/
def case_twin_func : ProxyFunction :=
  { name_id_func with
    arg_types := [⟨INT4OID, ['i', 'n', 't', '4'], true⟩, ⟨INT4OID, ['i', 'n', 't', '4'], true⟩]
    arg_names := [['a'], ['A']] }

/-- A function of two `int4` arguments named `username` and `id`. -/
def user_id_func : ProxyFunction :=
  { name_id_func with
    arg_types := [⟨25, ['t', 'e', 'x', 't'], true⟩, ⟨INT4OID, ['i', 'n', 't', '4'], true⟩]
    arg_names := ["username".toList, "id".toList] }

/-- The calls for `select * from t where id = $2 and owner = ID and name = username`. -/
def sample_ops : List QueryOp :=
  [QueryOp.add_const "select * from t where id = ".toList, QueryOp.add_ident "$2".toList,
   QueryOp.add_const " and owner = ".toList, QueryOp.add_ident "ID".toList,
   QueryOp.add_const " and name = ".toList, QueryOp.add_ident "username".toList,
   QueryOp.add_const " and x = ".toList, QueryOp.add_ident "$3".toList,
   QueryOp.add_ident "other".toList]

/-- The identifier refers to function argument `f`: it is `$` followed by the
number `f + 1`, or it has no `$` in front and `f` is the first argument whose
name equals it ignoring case. -/
def refers_to (ident : List Char) (func : ProxyFunction) (f : Nat) : Prop :=
  (∃ rest, ident = '$' :: rest ∧ decimal_value rest = (f : Int) + 1 ∧ f < func.arg_count) ∨
  (ident.head? ≠ some '$' ∧ first_named ident func f)

/-- The reference text for parameter `sql_idx` and function argument `fn_idx`. -/
def ref_of (func : ProxyFunction) (add_types : Bool) (sql_idx fn_idx : Nat) : List Char :=
  ref_text sql_idx (((func.arg_types[fn_idx]?).map (fun ty => ty.name)).getD []) add_types

/-- The entries of `arg_lookup` are pairwise distinct argument indices of the function. -/
def query_inv (q : QueryBuffer) : Prop :=
  q.arg_lookup.Nodup ∧ ∀ x ∈ q.arg_lookup, x < q.func.arg_count
/-! ## Theorems -/


/-- Two's-complement `v & (2^k - 1)` is `v mod 2^k`. -/
theorem land_mask_eq_emod (v : Int) (k : Nat) : Int.land v (2 ^ k - 1) = v % 2 ^ k := by
  have hpos : 0 < 2 ^ k := Nat.pos_pow_of_pos k (by decide)
  have hm : ((2 : Int) ^ k - 1) = Int.ofNat (2 ^ k - 1) := by
    simp [Int.ofNat_eq_coe, Nat.cast_sub (Nat.one_le_two_pow : 1 ≤ 2 ^ k)]
  have hp : ((2 : Int) ^ k) = ((2 ^ k : Nat) : Int) := by push_cast; rfl
  rw [hm, hp]
  cases v with
  | ofNat n =>
    show ((n &&& (2 ^ k - 1) : Nat) : Int) = _
    rw [Nat.and_pow_two_sub_one_eq_mod]
    simp [Int.ofNat_eq_coe]
  | negSucc n =>
    show ((Nat.ldiff (2 ^ k - 1) n : Nat) : Int) = _
    rw [Int.negSucc_emod n (by exact_mod_cast hpos)]
    have hlt : n % 2 ^ k < 2 ^ k := Nat.mod_lt _ hpos
    have h1 : Nat.ldiff (2 ^ k - 1) n = 2 ^ k - (n % 2 ^ k + 1) := by
      apply Nat.eq_of_testBit_eq
      intro i
      rw [Nat.testBit_ldiff, Nat.testBit_two_pow_sub_one, Nat.testBit_two_pow_sub_succ hlt,
        Nat.testBit_mod_two_pow]
      by_cases h : i < k <;> simp [h]
    rw [h1]
    generalize 2 ^ k = P at *
    omega

/-- The `uint32` computation of the tagging loop agrees with `v mod 2^k`. -/
theorem uint32_land_mask (v : Int) (k : Nat) (hk : k ≤ 31) :
    ((Nat.land (to_uint32 v) (to_uint32 (2 ^ k - 1)) : Nat) : Int) = v % 2 ^ k := by
  have hpos : 0 < 2 ^ k := Nat.pos_pow_of_pos k (by decide)
  have hle : 2 ^ k ≤ 2 ^ 31 := Nat.pow_le_pow_right (by decide) hk
  have hp : ((2 : Int) ^ k) = ((2 ^ k : Nat) : Int) := by push_cast; rfl
  have hm : to_uint32 (2 ^ k - 1) = 2 ^ k - 1 := by
    unfold to_uint32
    rw [hp]
    have : (((2 ^ k : Nat) : Int) - 1) % 4294967296 = ((2 ^ k : Nat) : Int) - 1 := by
      apply Int.emod_eq_of_lt <;> omega
    rw [this]
    omega
  rw [hm]
  show (((to_uint32 v) &&& (2 ^ k - 1) : Nat) : Int) = _
  rw [Nat.and_pow_two_sub_one_eq_mod]
  unfold to_uint32
  have h0 : 0 ≤ v % 4294967296 := Int.emod_nonneg _ (by decide)
  rw [Int.natCast_mod, Int.toNat_of_nonneg h0, ← hp]
  apply Int.emod_emod_of_dvd
  have : (4294967296 : Int) = 2 ^ 32 := by norm_num
  rw [this]
  exact pow_dvd_pow 2 (by omega)

theorem tag_part_ok (cluster : ProxyCluster) (slot ci : Nat)
    (hs : cluster.part_map[slot]? = some ci) (hci : ci < cluster.conn_list.length) :
    tag_part cluster slot =
      ({ cluster with conn_list :=
          cluster.conn_list.modify (fun conn => { conn with run_on := true }) ci }, none) := by
  simp [tag_part, hs, hci]

/-- After tagging connection `ci` of a cluster without tags, exactly `ci` is tagged. -/
theorem is_tagged_modify (cluster : ProxyCluster) (ci j : Nat)
    (hci : ci < cluster.conn_list.length) (hclean : ∀ i, is_tagged cluster i = false) :
    is_tagged { cluster with conn_list :=
      cluster.conn_list.modify (fun conn => { conn with run_on := true }) ci } j = true ↔
      j = ci := by
  have hj := hclean j
  simp only [is_tagged] at hj ⊢
  rw [List.getElem?_modify]
  by_cases h : ci = j
  · subst h
    have : cluster.conn_list[ci]? = some cluster.conn_list[ci] := List.getElem?_eq_getElem hci
    simp [this]
  · cases hc : cluster.conn_list[j]? with
    | none =>
      have : j ≠ ci := fun hji => h hji.symm
      simp [this]
    | some c =>
      rw [hc] at hj
      have hr : c.run_on = false := hj
      have : j ≠ ci := fun hji => h hji.symm
      simp [h, hr, this]

theorem is_tagged_clean (cluster : ProxyCluster) (i : Nat) :
    is_tagged (plproxy_clean_results cluster) i = false := by
  simp only [is_tagged, plproxy_clean_results, List.getElem?_map]
  cases cluster.conn_list[i]? <;> simp

theorem hash_slot_int (htype : Nat) (v mask : Int)
    (ht : htype = INT2OID ∨ htype = INT4OID ∨ htype = INT8OID) :
    hash_slot htype v mask = some (Nat.land (to_uint32 v) (to_uint32 mask)) := by
  rcases ht with h | h | h <;> subst h <;> simp [hash_slot, INT2OID, INT4OID, INT8OID]

theorem hash_slot_none (htype : Nat) (v mask : Int)
    (ht : ¬ (htype = INT2OID ∨ htype = INT4OID ∨ htype = INT8OID)) :
    hash_slot htype v mask = none := by
  simp only [not_or] at ht
  simp [hash_slot, ht.1, ht.2.1, ht.2.2]

theorem tag_hash_loop_single (htype : Nat) (v : Int) (cluster : ProxyCluster) (slot : Nat)
    (hs : hash_slot htype v cluster.part_mask = some slot) :
    tag_hash_loop htype [some v] cluster = tag_part cluster slot := by
  simp only [tag_hash_loop, hs]
  rcases h : tag_part cluster slot with ⟨c1, _ | e⟩ <;> simp [tag_hash_loop]

/-- C1 (amended): for an integer hash column, every key value `v` and every
mask `m = 2^k - 1` (k ≤ 31), the slot that `tag_hash_partitions` tags is the
two's-complement `v & m`, which equals `v mod 2^k` and lies in `[0, m]`; it
lies in `[0, part_count)` when `part_count = m + 1`. -/
theorem C1_hash_routing (cluster : ProxyCluster) (htype : Nat) (v : Int) (k : Nat)
    (hk : k ≤ 31) (hmask : cluster.part_mask = 2 ^ k - 1)
    (ht : htype = INT2OID ∨ htype = INT4OID ∨ htype = INT8OID) :
    hash_slot htype v cluster.part_mask = some (Int.land v cluster.part_mask).toNat ∧
    tag_hash_loop htype [some v] cluster =
      tag_part cluster (Int.land v cluster.part_mask).toNat ∧
    Int.land v cluster.part_mask = v % 2 ^ k ∧
    0 ≤ Int.land v cluster.part_mask ∧
    Int.land v cluster.part_mask ≤ cluster.part_mask ∧
    (cluster.part_count = cluster.part_mask + 1 →
      Int.land v cluster.part_mask < cluster.part_count) := by
  have hland : Int.land v cluster.part_mask = v % 2 ^ k := by
    rw [hmask]; exact land_mask_eq_emod v k
  have hpos : (0 : Int) < 2 ^ k := by positivity
  have h0 : 0 ≤ v % 2 ^ k := Int.emod_nonneg _ (ne_of_gt hpos)
  have hlt : v % 2 ^ k < 2 ^ k := Int.emod_lt_of_pos _ hpos
  have hslot : hash_slot htype v cluster.part_mask =
      some (Int.land v cluster.part_mask).toNat := by
    rw [hash_slot_int htype v _ ht, hland, hmask]
    congr 1
    have := uint32_land_mask v k hk
    omega
  refine ⟨hslot, tag_hash_loop_single htype v cluster _ hslot, hland, ?_, ?_, ?_⟩
  · rw [hland]; exact h0
  · rw [hland, hmask]; omega
  · intro hc
    rw [hc, hland, hmask]; omega

/-- C1 witness: key `-1` of type int4 on the four-partition cluster goes to slot 3. -/
theorem C1_hash_routing_witness :
    hash_slot INT4OID (-1) four_part_cluster.part_mask =
      some (Int.land (-1) four_part_cluster.part_mask).toNat ∧
    Int.land (-1) four_part_cluster.part_mask = (-1) % 2 ^ 2 ∧
    Int.land (-1) four_part_cluster.part_mask < four_part_cluster.part_count :=
  have h := C1_hash_routing four_part_cluster INT4OID (-1) 2 (by decide) (by decide)
    (Or.inr (Or.inl rfl))
  ⟨h.1, h.2.2.1, h.2.2.2.2.2 (by decide)⟩

/-- C1 counterexample: three partitions, mask 3 (the smallest `2^k - 1 ≥ 2`):
key 3 is routed to slot 3, which is not below `part_count`, and
`tag_hash_partitions` then reads outside the partition map. -/
theorem C1_slot_beyond_part_count :
    spec_part_mask 3 = 3 ∧ three_part_cluster.part_count = 3 ∧
    three_part_cluster.part_mask = 2 ^ 2 - 1 ∧
    hash_slot INT4OID 3 three_part_cluster.part_mask = some 3 ∧
    ¬ ((3 : Int) < three_part_cluster.part_count) ∧
    (tag_hash_partitions true ⟨SPI_OK_SELECT, INT4OID, [some 3]⟩ three_part_cluster).2 =
      some ProxyError.bad_access := by
  decide

theorem part_map_entry (cluster : ProxyCluster) (hv : part_map_valid cluster) (slot : Nat)
    (hs : slot < cluster.part_map.length) :
    ∃ ci, cluster.part_map[slot]? = some ci ∧ ci < cluster.conn_list.length := by
  refine ⟨cluster.part_map[slot], List.getElem?_eq_getElem hs, ?_⟩
  exact hv.2 _ (List.getElem_mem hs)

theorem tag_hash_loop_null (htype : Nat) (vals : List (Option Int)) :
    ∀ cluster : ProxyCluster, none ∈ vals → (tag_hash_loop htype vals cluster).2 ≠ none := by
  induction vals with
  | nil => intro _ h; simp at h
  | cons x rest ih =>
    intro cluster h
    cases x with
    | none => simp [tag_hash_loop]
    | some v =>
      have hrest : none ∈ rest := by simpa using h
      simp only [tag_hash_loop]
      cases hs : hash_slot htype v cluster.part_mask with
      | none => simp
      | some slot =>
        rcases ht : tag_part cluster slot with ⟨c1, _ | e⟩
        · simp only [ht]; exact ih c1 hrest
        · simp [ht]

/-- On a cluster whose masked slots are all addressable, tagging for one
integer key succeeds and tags one connection. -/
theorem tag_hash_loop_one (cluster : ProxyCluster) (htype : Nat) (v : Int)
    (ht : htype = INT2OID ∨ htype = INT4OID ∨ htype = INT8OID)
    (hv : part_map_valid cluster)
    (hm : to_uint32 cluster.part_mask < cluster.part_map.length) :
    ∃ ci, ci < cluster.conn_list.length ∧
      tag_hash_loop htype [some v] cluster =
        ({ cluster with conn_list :=
            cluster.conn_list.modify (fun conn => { conn with run_on := true }) ci }, none) := by
  have hs := hash_slot_int htype v cluster.part_mask ht
  have hle : Nat.land (to_uint32 v) (to_uint32 cluster.part_mask) ≤ to_uint32 cluster.part_mask :=
    Nat.and_le_right
  obtain ⟨ci, hci, hlt⟩ := part_map_entry cluster hv _ (lt_of_le_of_lt hle hm)
  refine ⟨ci, hlt, ?_⟩
  rw [tag_hash_loop_single htype v cluster _ hs]
  exact tag_part_ok cluster _ ci hci hlt

theorem is_tagged_false_of_all (cluster : ProxyCluster)
    (h : ∀ conn ∈ cluster.conn_list, conn.run_on = false) (j : Nat) :
    is_tagged cluster j = false := by
  unfold is_tagged
  cases hc : cluster.conn_list[j]? with
  | none => rfl
  | some c => exact h c (List.getElem?_mem hc)

/-- C4: hash policy validation. A null key value makes `tag_hash_partitions`
fail; a call that is not set-returning fails when the key query yields more
than one value; and on a cleaned cluster whose masked slots are addressable, a
call that is not set-returning succeeds exactly when the key query succeeded
with one non-null value of type int2, int4 or int8, and then exactly one
connection is tagged. -/
theorem C4_hash_validation (fn_retset : Bool) (spi : SPIResult) (cluster : ProxyCluster) :
    (none ∈ spi.vals → (tag_hash_partitions fn_retset spi cluster).2 ≠ none) ∧
    (fn_retset = false → spi.vals.length > 1 →
      (tag_hash_partitions fn_retset spi cluster).2 ≠ none) ∧
    (fn_retset = false → part_map_valid cluster →
      to_uint32 cluster.part_mask < cluster.part_map.length →
      (∀ j, is_tagged cluster j = false) →
      ((tag_hash_partitions fn_retset spi cluster).2 = none ↔
        (spi.err = SPI_OK_SELECT ∧ (∃ v, spi.vals = [some v]) ∧
          (spi.htype = INT2OID ∨ spi.htype = INT4OID ∨ spi.htype = INT8OID))) ∧
      ((tag_hash_partitions fn_retset spi cluster).2 = none →
        ∃ ci, ci < cluster.conn_count ∧
          ∀ j, is_tagged (tag_hash_partitions fn_retset spi cluster).1 j = true ↔ j = ci)) := by
  refine ⟨?_, ?_, ?_⟩
  · intro hnull
    unfold tag_hash_partitions
    by_cases herr : spi.err ≠ SPI_OK_SELECT
    · simp [herr]
    · rw [if_neg herr]
      have := tag_hash_loop_null spi.htype spi.vals cluster hnull
      rcases hl : tag_hash_loop spi.htype spi.vals cluster with ⟨c1, _ | e⟩
      · rw [hl] at this; simp at this
      · simp
  · intro hret hlen
    unfold tag_hash_partitions
    by_cases herr : spi.err ≠ SPI_OK_SELECT
    · simp [herr]
    · rw [if_neg herr]
      rcases hl : tag_hash_loop spi.htype spi.vals cluster with ⟨c1, _ | e⟩
      · simp [hret, hlen]
      · simp
  · intro hret hv hm hclean
    have key : (tag_hash_partitions fn_retset spi cluster).2 = none →
        (spi.err = SPI_OK_SELECT ∧ (∃ v, spi.vals = [some v]) ∧
          (spi.htype = INT2OID ∨ spi.htype = INT4OID ∨ spi.htype = INT8OID)) := by
      intro hok
      unfold tag_hash_partitions at hok
      by_cases herr : spi.err ≠ SPI_OK_SELECT
      · simp [herr] at hok
      · rw [if_neg herr] at hok
        have herr2 : spi.err = SPI_OK_SELECT := not_not.mp herr
        rcases hl : tag_hash_loop spi.htype spi.vals cluster with ⟨c1, _ | e⟩
        · rw [hl] at hok
          by_cases hcnt : spi.vals.length = 0 ∨ spi.vals.length > 1
          · simp only [if_pos (And.intro hcnt hret)] at hok
            simp at hok
          · have hone : spi.vals.length = 1 := by omega
            obtain ⟨x, hx⟩ := List.length_eq_one.mp hone
            cases x with
            | none =>
              have := tag_hash_loop_null spi.htype spi.vals cluster (by simp [hx])
              rw [hl] at this
              simp at this
            | some v =>
              refine ⟨herr2, ⟨v, hx⟩, ?_⟩
              by_contra hty
              have hn := hash_slot_none spi.htype v cluster.part_mask hty
              rw [hx] at hl
              simp [tag_hash_loop, hn] at hl
        · simp [hl] at hok
    have back : (spi.err = SPI_OK_SELECT ∧ (∃ v, spi.vals = [some v]) ∧
          (spi.htype = INT2OID ∨ spi.htype = INT4OID ∨ spi.htype = INT8OID)) →
        ∃ ci, ci < cluster.conn_list.length ∧ tag_hash_partitions fn_retset spi cluster =
          ({ cluster with conn_list :=
            cluster.conn_list.modify (fun conn => { conn with run_on := true }) ci }, none) := by
      rintro ⟨herr, ⟨v, hx⟩, hty⟩
      obtain ⟨ci, hlt, hloop⟩ := tag_hash_loop_one cluster spi.htype v hty hv hm
      refine ⟨ci, hlt, ?_⟩
      unfold tag_hash_partitions
      rw [if_neg (not_not.mpr herr), hx, hloop]
      simp
    refine ⟨⟨key, ?_⟩, ?_⟩
    · intro h
      obtain ⟨ci, _, heq⟩ := back h
      rw [heq]
    · intro hok
      obtain ⟨ci, hlt, heq⟩ := back (key hok)
      refine ⟨ci, hlt, ?_⟩
      intro j
      rw [heq]
      exact is_tagged_modify cluster ci j hlt hclean

/-- C4 witness: key 6 on the cleaned four-partition cluster tags one connection. -/
theorem C4_hash_validation_witness :
    (tag_hash_partitions false ⟨SPI_OK_SELECT, INT4OID, [some 6]⟩ four_part_cluster).2 = none ∧
    (tag_hash_partitions false ⟨SPI_OK_SELECT, INT4OID, [some 6, some 7]⟩ four_part_cluster).2
      ≠ none ∧
    (tag_hash_partitions false ⟨SPI_OK_SELECT, INT4OID, [none]⟩ four_part_cluster).2 ≠ none ∧
    ∃ ci, ci < four_part_cluster.conn_count ∧
      ∀ j, is_tagged
        (tag_hash_partitions false ⟨SPI_OK_SELECT, INT4OID, [some 6]⟩ four_part_cluster).1 j =
          true ↔ j = ci :=
  have h := (C4_hash_validation false ⟨SPI_OK_SELECT, INT4OID, [some 6]⟩
    four_part_cluster).2.2 rfl (by decide) (by decide)
    (is_tagged_false_of_all four_part_cluster (by decide))
  have hok := h.1.2 ⟨rfl, ⟨6, rfl⟩, Or.inr (Or.inl rfl)⟩
  ⟨hok,
    (C4_hash_validation false ⟨SPI_OK_SELECT, INT4OID, [some 6, some 7]⟩
      four_part_cluster).2.1 rfl (by decide),
    (C4_hash_validation false ⟨SPI_OK_SELECT, INT4OID, [none]⟩ four_part_cluster).1
      (by decide),
    h.2 hok⟩

/-! ### Result stream (`result.c`) -/

theorem remaining_rows_skip (cluster : ProxyCluster) (conn : ProxyConnection)
    (hc : cluster.conn_list[cluster.ret_cur_conn]? = some conn)
    (hempty : conn_ntuples conn ≤ conn.pos) :
    remaining_rows cluster =
      remaining_rows { cluster with ret_cur_conn := cluster.ret_cur_conn + 1 } := by
  obtain ⟨hlt, hget⟩ := List.getElem?_eq_some.mp hc
  simp only [remaining_rows]
  rw [List.drop_eq_getElem_cons hlt, hget]
  simp [rows_from, conn_rows, Nat.sub_eq_zero_of_le hempty]

theorem remaining_rows_nil_of_ge (cluster : ProxyCluster)
    (h : cluster.conn_list.length ≤ cluster.ret_cur_conn) : remaining_rows cluster = [] := by
  simp [remaining_rows, List.drop_eq_nil_of_le h, rows_from]

/-- The walk changes nothing but `ret_cur_conn`; when it stops at connection
`ci`, that connection has an unread row, the skipped connections had none, and
`map_results` has succeeded if the cursor is 0. -/
theorem walk_results_loop_ok (func : ProxyFunction) :
    ∀ (n : Nat) (cluster : ProxyCluster) (f1 : ProxyFunction) (c1 : ProxyCluster) (ci : Nat),
      walk_results_loop func n cluster = ((f1, c1), Except.ok ci) →
      c1 = { cluster with ret_cur_conn := ci } ∧
      remaining_rows cluster = remaining_rows c1 ∧
      ∃ conn res, cluster.conn_list[ci]? = some conn ∧ conn.res = some res ∧
        conn.pos ≠ PQntuples res ∧
        ((conn.pos = 0 ∧ map_results func res = (f1, none)) ∨ (conn.pos ≠ 0 ∧ f1 = func)) := by
  intro n
  induction n with
  | zero => intro cluster f1 c1 ci h; simp [walk_results_loop] at h
  | succ n ih =>
    intro cluster f1 c1 ci h
    simp only [walk_results_loop] at h
    cases hc : cluster.conn_list[cluster.ret_cur_conn]? with
    | none => simp [hc] at h
    | some conn =>
      simp only [hc] at h
      cases hr : conn.res with
      | none =>
        simp only [hr] at h
        obtain ⟨h1, h2, h3⟩ := ih _ f1 c1 ci h
        refine ⟨by rw [h1], ?_, h3⟩
        rw [← h2]
        exact remaining_rows_skip cluster conn hc (by simp [conn_ntuples, hr])
      | some res =>
        simp only [hr] at h
        by_cases hp : conn.pos = PQntuples res
        · simp only [hp, if_true] at h
          obtain ⟨h1, h2, h3⟩ := ih _ f1 c1 ci h
          refine ⟨by rw [h1], ?_, h3⟩
          rw [← h2]
          exact remaining_rows_skip cluster conn hc (by simp [conn_ntuples, hr, hp])
        · simp only [hp, if_false] at h
          by_cases h0 : conn.pos = 0
          · simp only [h0, if_true] at h
            rcases hm : map_results func res with ⟨fm, _ | e⟩
            · simp only [hm, Prod.mk.injEq, Except.ok.injEq] at h
              obtain ⟨⟨hf, hcl⟩, hci⟩ := h
              subst hf; subst hcl; subst hci
              exact ⟨rfl, rfl, conn, res, hc, hr, hp, Or.inl ⟨h0, hm⟩⟩
            · simp [hm] at h
          · simp only [h0, if_false, Prod.mk.injEq, Except.ok.injEq] at h
            obtain ⟨⟨hf, hcl⟩, hci⟩ := h
            subst hf; subst hcl; subst hci
            exact ⟨rfl, rfl, conn, res, hc, hr, hp, Or.inr ⟨h0, rfl⟩⟩

/-- When the walk raises, either no row is left ("bug: no result") or
`map_results` has failed on the first row of a connection. -/
theorem walk_results_loop_error (func : ProxyFunction) :
    ∀ (n : Nat) (cluster : ProxyCluster) (st : ProxyFunction × ProxyCluster) (e : ProxyError),
      n = cluster.conn_list.length - cluster.ret_cur_conn →
      walk_results_loop func n cluster = (st, Except.error e) →
      (e = ProxyError.bug_no_result ∧ remaining_rows cluster = []) ∨
      (∃ conn res, conn ∈ cluster.conn_list ∧ conn.res = some res ∧ conn.pos = 0 ∧
        PQntuples res ≠ 0 ∧ (map_results func res).2 = some e) := by
  intro n
  induction n with
  | zero =>
    intro cluster st e hn h
    simp only [walk_results_loop, Prod.mk.injEq, Except.error.injEq] at h
    exact Or.inl ⟨h.2.symm, remaining_rows_nil_of_ge cluster (by omega)⟩
  | succ n ih =>
    intro cluster st e hn h
    simp only [walk_results_loop] at h
    cases hc : cluster.conn_list[cluster.ret_cur_conn]? with
    | none =>
      have hge : cluster.conn_list.length ≤ cluster.ret_cur_conn := List.getElem?_eq_none_iff.mp hc
      omega
    | some conn =>
      simp only [hc] at h
      have hmem : conn ∈ cluster.conn_list := List.getElem?_mem hc
      have hstep : n = ({ cluster with ret_cur_conn := cluster.ret_cur_conn + 1 } :
          ProxyCluster).conn_list.length -
          ({ cluster with ret_cur_conn := cluster.ret_cur_conn + 1 } :
            ProxyCluster).ret_cur_conn := by
        show n = cluster.conn_list.length - (cluster.ret_cur_conn + 1)
        omega
      cases hr : conn.res with
      | none =>
        simp only [hr] at h
        rcases ih _ st e hstep h with ⟨h1, h2⟩ | h3
        · refine Or.inl ⟨h1, ?_⟩
          rw [remaining_rows_skip cluster conn hc (by simp [conn_ntuples, hr])]
          exact h2
        · exact Or.inr h3
      | some res =>
        simp only [hr] at h
        by_cases hp : conn.pos = PQntuples res
        · simp only [hp, if_true] at h
          rcases ih _ st e hstep h with ⟨h1, h2⟩ | h3
          · refine Or.inl ⟨h1, ?_⟩
            rw [remaining_rows_skip cluster conn hc (by simp [conn_ntuples, hr, hp])]
            exact h2
          · exact Or.inr h3
        · simp only [hp, if_false] at h
          by_cases h0 : conn.pos = 0
          · simp only [h0, if_true] at h
            rcases hm : map_results func res with ⟨fm, _ | e2⟩
            · simp [hm] at h
            · simp only [hm, Prod.mk.injEq, Except.error.injEq] at h
              refine Or.inr ⟨conn, res, hmem, hr, h0, ?_, ?_⟩
              · intro hz; exact hp (by rw [h0, hz])
              · rw [hm, ← h.2]
          · simp [h0] at h

/-- The function `map_results` changes nothing of the function but `result_map`. -/
theorem map_results_shape (func : ProxyFunction) (res : PGresult) :
    (map_results func res).1.ret_scalar = func.ret_scalar ∧
    (map_results func res).1.ret_composite = func.ret_composite := by
  unfold map_results
  cases hs : func.ret_scalar with
  | some ty => by_cases h : PQnfields res ≠ 1 <;> simp [h, hs]
  | none =>
    cases hcomp : func.ret_composite with
    | none => simp [hcomp, hs]
    | some comp =>
      by_cases h1 : PQnfields res < comp.attnames.length
      · simp [h1, hcomp, hs]
      · by_cases h2 : PQnfields res > comp.attnames.length
        · simp [h1, h2, hcomp, hs]
        · simp [h1, h2, hcomp, hs]

theorem mem_modify_pos (l : List ProxyConnection) (ci : Nat) (c : ProxyConnection)
    (hc : c ∈ l.modify (fun c => { c with pos := c.pos + 1 }) ci) :
    c ∈ l ∨ ∃ c0, l[ci]? = some c0 ∧ c = { c0 with pos := c0.pos + 1 } := by
  obtain ⟨j, hj⟩ := List.mem_iff_getElem?.mp hc
  rw [List.getElem?_modify] at hj
  by_cases h : ci = j
  · subst h
    cases hl : l[ci]? with
    | none => simp [hl] at hj
    | some c0 =>
      simp only [hl, if_true, Option.map_eq_map, Option.map_some', Option.some.injEq] at hj
      exact Or.inr ⟨c0, rfl, hj.symm⟩
  · cases hl : l[j]? with
    | none => simp [hl] at hj
    | some c0 =>
      simp only [hl, h, if_false, Option.map_eq_map, Option.map_some', Option.some.injEq] at hj
      exact Or.inl (hj ▸ List.getElem?_mem hl)

/-- One call of `plproxy_result` that returns a row: `ret_total` goes down by
one, only the cursor of the owning connection moves, by one, and the row is
the head of the rows that were left. -/
theorem plproxy_result_ok (func : ProxyFunction) (cluster : ProxyCluster)
    (f1 : ProxyFunction) (c1 : ProxyCluster) (row : ResultRow)
    (h : plproxy_result func cluster = ((f1, c1), Except.ok row)) :
    c1.ret_total = cluster.ret_total - 1 ∧
    c1.conn_list =
      cluster.conn_list.modify (fun c => { c with pos := c.pos + 1 }) row.conn ∧
    (∃ conn res, cluster.conn_list[row.conn]? = some conn ∧ conn.res = some res ∧
      conn.pos = row.row ∧ conn.pos ≠ PQntuples res ∧
      (conn.pos = 0 → (map_results func res).2 = none)) ∧
    (f1.ret_scalar = func.ret_scalar ∧ f1.ret_composite = func.ret_composite) ∧
    (pos_in_range cluster →
      pos_in_range c1 ∧ remaining_rows cluster = (row.conn, row.row) :: remaining_rows c1) := by
  unfold plproxy_result walk_results at h
  rcases hw : walk_results_loop func (cluster.conn_count - cluster.ret_cur_conn) cluster with
    ⟨⟨fw, cw⟩, e | ci⟩
  · simp [hw] at h
  · obtain ⟨hcw, hrem, conn, res, hconn, hres, hpos, hmap⟩ :=
      walk_results_loop_ok func _ cluster fw cw ci hw
    have hconn2 : cw.conn_list[ci]? = some conn := by rw [hcw]; exact hconn
    simp only [hw, hconn2, hres] at h
    have hshape : fw.ret_scalar = func.ret_scalar ∧ fw.ret_composite = func.ret_composite := by
      rcases hmap with ⟨_, hm⟩ | ⟨_, hm⟩
      · have := map_results_shape func res
        rw [hm] at this
        exact this
      · rw [hm]; exact ⟨rfl, rfl⟩
    cases hd : result_datum fw res conn.pos with
    | error e => simp [hd] at h
    | ok cells =>
      simp only [hd, Prod.mk.injEq, Except.ok.injEq] at h
      obtain ⟨⟨hf, hc⟩, hrow⟩ := h
      subst hf; subst hc; subst hrow
      have hfirst : conn.pos = 0 → (map_results func res).2 = none := by
        intro h0
        rcases hmap with ⟨_, hm⟩ | ⟨hne, _⟩
        · rw [hm]
        · exact absurd h0 hne
      refine ⟨?_, ?_, ⟨conn, res, hconn, hres, rfl, hpos, hfirst⟩, hshape, ?_⟩
      · simp [hcw]
      · simp [hcw]
      · intro hin
        have hlt : conn.pos < conn_ntuples conn := by
          have h1 := hin conn (List.getElem?_mem hconn)
          have h2 : conn_ntuples conn = PQntuples res := by simp [conn_ntuples, hres]
          omega
        constructor
        · intro c hc
          have hc2 : c ∈ cluster.conn_list.modify (fun c => { c with pos := c.pos + 1 }) ci := by
            simpa [hcw] using hc
          rcases mem_modify_pos _ _ _ hc2 with hm | ⟨c0, hc0, hceq⟩
          · exact hin c hm
          · rw [hconn] at hc0
            have : c0 = conn := (Option.some.inj hc0).symm
            subst this
            subst hceq
            show c0.pos + 1 ≤ conn_ntuples c0
            exact hlt
        · rw [hrem, hcw]
          obtain ⟨hlen, hget⟩ := List.getElem?_eq_some.mp hconn
          simp only [remaining_rows]
          rw [List.drop_modify_of_ge _ _ _ _ (le_refl ci), Nat.sub_self,
            List.drop_eq_getElem_cons hlen, hget]
          simp only [List.modify, List.modifyTailIdx, List.modifyHead, rows_from, conn_rows]
          have hcnt : conn_ntuples conn - conn.pos = (conn_ntuples conn - (conn.pos + 1)) + 1 := by
            omega
          have hnt : conn_ntuples { conn with pos := conn.pos + 1 } = conn_ntuples conn := rfl
          rw [hcnt, List.range'_succ, hnt]
          simp

theorem walk_results_loop_drained (func : ProxyFunction) :
    ∀ (n : Nat) (cluster : ProxyCluster) (st : ProxyFunction × ProxyCluster) (ci : Nat),
      walk_results_loop func n cluster = (st, Except.ok ci) →
      passed_drained cluster → passed_drained { cluster with ret_cur_conn := ci } := by
  intro n
  induction n with
  | zero => intro cluster st ci h; simp [walk_results_loop] at h
  | succ n ih =>
    intro cluster st ci h hd
    simp only [walk_results_loop] at h
    cases hc : cluster.conn_list[cluster.ret_cur_conn]? with
    | none => simp [hc] at h
    | some conn =>
      simp only [hc] at h
      have hskip : conn_ntuples conn ≤ conn.pos →
          passed_drained { cluster with ret_cur_conn := cluster.ret_cur_conn + 1 } := by
        intro hle j c hj hjc
        by_cases hjlt : j < cluster.ret_cur_conn
        · exact hd j c hjlt hjc
        · have hjeq : j = cluster.ret_cur_conn := by
            have : j < cluster.ret_cur_conn + 1 := hj
            omega
          subst hjeq
          have hjc2 : cluster.conn_list[cluster.ret_cur_conn]? = some c := hjc
          rw [hc] at hjc2
          rw [← Option.some.inj hjc2]
          exact hle
      cases hr : conn.res with
      | none =>
        simp only [hr] at h
        exact ih { cluster with ret_cur_conn := cluster.ret_cur_conn + 1 } st ci h
          (hskip (by simp [conn_ntuples, hr]))
      | some res =>
        simp only [hr] at h
        by_cases hp : conn.pos = PQntuples res
        · simp only [hp, if_true] at h
          exact ih { cluster with ret_cur_conn := cluster.ret_cur_conn + 1 } st ci h
            (hskip (by simp [conn_ntuples, hr, hp]))
        · simp only [hp, if_false] at h
          by_cases h0 : conn.pos = 0
          · simp only [h0, if_true] at h
            rcases hm : map_results func res with ⟨fm, _ | e2⟩
            · simp only [hm, Prod.mk.injEq, Except.ok.injEq] at h
              rw [← h.2]
              exact hd
            · simp [hm] at h
          · simp only [h0, if_false, Prod.mk.injEq, Except.ok.injEq] at h
            rw [← h.2]
            exact hd

theorem plproxy_result_drained (func : ProxyFunction) (cluster : ProxyCluster)
    (f1 : ProxyFunction) (c1 : ProxyCluster) (row : ResultRow)
    (h : plproxy_result func cluster = ((f1, c1), Except.ok row))
    (hd : passed_drained cluster) : passed_drained c1 := by
  unfold plproxy_result walk_results at h
  rcases hw : walk_results_loop func (cluster.conn_count - cluster.ret_cur_conn) cluster with
    ⟨⟨fw, cw⟩, e | ci⟩
  · simp [hw] at h
  · obtain ⟨hcw, -, conn, res, hconn, hres, -, -⟩ :=
      walk_results_loop_ok func _ cluster fw cw ci hw
    have hd2 := walk_results_loop_drained func _ cluster _ ci hw hd
    have hconn2 : cw.conn_list[ci]? = some conn := by rw [hcw]; exact hconn
    simp only [hw, hconn2, hres] at h
    cases hdat : result_datum fw res conn.pos with
    | error e => simp [hdat] at h
    | ok cells =>
      simp only [hdat, Prod.mk.injEq, Except.ok.injEq] at h
      obtain ⟨⟨-, hc⟩, -⟩ := h
      subst hc
      intro j c hj hjc
      have hj2 : j < ci := by rw [hcw] at hj; exact hj
      have hne : ci ≠ j := by omega
      have hjc2 : (cw.conn_list.modify (fun c => { c with pos := c.pos + 1 }) ci)[j]? = some c :=
        hjc
      rw [List.getElem?_modify_ne _ _ hne, hcw] at hjc2
      exact hd2 j c hj2 hjc2

theorem rows_from_nil (l : List ProxyConnection) :
    ∀ j, rows_from j l = [] → ∀ c ∈ l, conn_ntuples c ≤ c.pos := by
  induction l with
  | nil => intro j _ c hc; simp at hc
  | cons x rest ih =>
    intro j h c hc
    simp only [rows_from, List.append_eq_nil] at h
    rcases List.mem_cons.mp hc with hx | hr
    · subst hx
      have h1 := h.1
      simp only [conn_rows, List.map_eq_nil_iff] at h1
      have := congrArg List.length h1
      simp at this
      omega
    · exact ih (j + 1) h.2 c hr

/-- When no row is left and the passed connections are drained, every cursor
is at the end of its result. -/
theorem all_drained (cluster : ProxyCluster) (hin : pos_in_range cluster)
    (hd : passed_drained cluster) (hrem : remaining_rows cluster = []) :
    ∀ conn ∈ cluster.conn_list, conn.pos = conn_ntuples conn := by
  intro conn hc
  obtain ⟨j, hj⟩ := List.mem_iff_getElem?.mp hc
  have hle := hin conn hc
  have hge : conn_ntuples conn ≤ conn.pos := by
    by_cases hlt : j < cluster.ret_cur_conn
    · exact hd j conn hlt hj
    · apply rows_from_nil _ _ hrem
      have : (cluster.conn_list.drop cluster.ret_cur_conn)[j - cluster.ret_cur_conn]? =
          some conn := by
        rw [List.getElem?_drop]
        have : cluster.ret_cur_conn + (j - cluster.ret_cur_conn) = j := by omega
        rw [this]; exact hj
      exact List.getElem?_mem this
  omega

theorem map_one_err_indep (aname : List Char) (res : PGresult) (i nfields : Nat)
    (rm1 rm2 : List Int) :
    (map_one aname res i nfields rm1).2 = (map_one aname res i nfields rm2).2 := by
  unfold map_one
  cases name_matches aname res i with
  | error e => rfl
  | ok b =>
    cases b with
    | true => rfl
    | false =>
      cases slow_search aname res i nfields 0 with
      | error e => rfl
      | ok o => cases o <;> rfl

theorem map_results_loop_err_indep (res : PGresult) (nfields : Nat) (names : List (List Char)) :
    ∀ (i : Nat) (rm1 rm2 : List Int),
      (map_results_loop res nfields i names rm1).2 =
        (map_results_loop res nfields i names rm2).2 := by
  induction names with
  | nil => intro i rm1 rm2; rfl
  | cons a rest ih =>
    intro i rm1 rm2
    simp only [map_results_loop]
    have h := map_one_err_indep a res i nfields rm1 rm2
    rcases h1 : map_one a res i nfields rm1 with ⟨r1, _ | e1⟩ <;>
      rcases h2 : map_one a res i nfields rm2 with ⟨r2, _ | e2⟩ <;>
      simp only [h1, h2] at h ⊢
    · exact ih (i + 1) r1 r2
    · simp at h
    · simp at h
    · exact h

/-- Whether `map_results` fails, and how, depends on the shape of the function
only, not on the previous contents of `result_map`. -/
theorem map_results_err_shape (f g : ProxyFunction) (res : PGresult)
    (hs : f.ret_scalar = g.ret_scalar) (hc : f.ret_composite = g.ret_composite) :
    (map_results f res).2 = (map_results g res).2 := by
  unfold map_results
  rw [hs, hc]
  cases g.ret_scalar with
  | some ty => by_cases h : PQnfields res ≠ 1 <;> simp [h]
  | none =>
    cases g.ret_composite with
    | none => rfl
    | some comp =>
      by_cases h1 : PQnfields res < comp.attnames.length
      · simp [h1]
      · by_cases h2 : PQnfields res > comp.attnames.length
        · simp [h1, h2]
        · simp only [h1, h2, if_false]
          exact map_results_loop_err_indep res _ comp.attnames 0 _ _

/-- A function on which `map_results` can succeed has a return shape. -/
theorem map_results_ok_shape (func : ProxyFunction) (res : PGresult)
    (h : (map_results func res).2 = none) :
    func.ret_scalar ≠ none ∨ func.ret_composite ≠ none := by
  unfold map_results at h
  cases hs : func.ret_scalar with
  | some ty => exact Or.inl (by simp)
  | none =>
    cases hc : func.ret_composite with
    | none => simp [hs, hc] at h
    | some comp => exact Or.inr (by simp)

/-- While a row is left and `map_results` accepts every result that has rows,
a call of `plproxy_result` returns a row. -/
theorem plproxy_result_progress (func : ProxyFunction) (cluster : ProxyCluster)
    (hin : pos_in_range cluster)
    (hmap : ∀ conn ∈ cluster.conn_list, ∀ res, conn.res = some res → PQntuples res ≠ 0 →
      (map_results func res).2 = none)
    (hrem : remaining_rows cluster ≠ []) :
    ∃ f1 c1 row, plproxy_result func cluster = ((f1, c1), Except.ok row) := by
  unfold plproxy_result walk_results
  rcases hw : walk_results_loop func (cluster.conn_count - cluster.ret_cur_conn) cluster with
    ⟨⟨fw, cw⟩, e | ci⟩
  · exfalso
    rcases walk_results_loop_error func _ cluster _ e rfl hw with ⟨_, h2⟩ | ⟨c, r, hc, hr, _, hnt, he⟩
    · exact hrem h2
    · rw [hmap c hc r hr hnt] at he
      simp at he
  · obtain ⟨hcw, -, conn, res, hconn, hres, hpos, hm⟩ :=
      walk_results_loop_ok func _ cluster fw cw ci hw
    have hconn2 : cw.conn_list[ci]? = some conn := by rw [hcw]; exact hconn
    have hmem : conn ∈ cluster.conn_list := List.getElem?_mem hconn
    have hnt : PQntuples res ≠ 0 := by
      have h1 := hin conn hmem
      have h2 : conn_ntuples conn = PQntuples res := by simp [conn_ntuples, hres]
      omega
    have hok := hmap conn hmem res hres hnt
    have hshape := map_results_ok_shape func res hok
    have hfw : fw.ret_scalar = func.ret_scalar ∧ fw.ret_composite = func.ret_composite := by
      rcases hm with ⟨_, hm⟩ | ⟨_, hm⟩
      · have := map_results_shape func res
        rw [hm] at this
        exact this
      · rw [hm]; exact ⟨rfl, rfl⟩
    simp only [hconn2, hres]
    have hdat : ∃ cells, result_datum fw res conn.pos = Except.ok cells := by
      unfold result_datum
      rw [hfw.1, hfw.2]
      cases hc : func.ret_composite with
      | some meta => exact ⟨_, rfl⟩
      | none =>
        cases hs : func.ret_scalar with
        | some ty => exact ⟨_, rfl⟩
        | none => rcases hshape with h | h <;> simp_all
    obtain ⟨cells, hcells⟩ := hdat
    rw [hcells]
    exact ⟨_, _, _, rfl⟩

theorem rows_from_enum (l : List ProxyConnection) :
    ∀ j, (∀ c ∈ l, c.pos = 0) →
      rows_from j l = (l.enumFrom j).flatMap
        (fun p => (List.range (conn_ntuples p.2)).map (fun r => (p.1, r))) := by
  induction l with
  | nil => intro j _; rfl
  | cons x rest ih =>
    intro j h
    have hx : x.pos = 0 := h x (List.mem_cons_self _ _)
    simp only [rows_from, List.enumFrom_cons, List.flatMap_cons]
    rw [ih (j + 1) (fun c hc => h c (List.mem_cons_of_mem _ hc))]
    simp [conn_rows, hx, List.range_eq_range']

theorem rows_from_length (l : List ProxyConnection) :
    ∀ j, (∀ c ∈ l, c.pos = 0) → (rows_from j l).length = (l.map conn_ntuples).sum := by
  induction l with
  | nil => intro j _; rfl
  | cons x rest ih =>
    intro j h
    have hx : x.pos = 0 := h x (List.mem_cons_self _ _)
    simp only [rows_from, List.length_append, List.map_cons, List.sum_cons]
    rw [ih (j + 1) (fun c hc => h c (List.mem_cons_of_mem _ hc))]
    simp [conn_rows, hx]

/-- What the start state of the stream gives: the rows left are the whole
enumeration and `ret_total` is their number. -/
theorem stream_start_rows (cluster : ProxyCluster) (hs : stream_start cluster) :
    pos_in_range cluster ∧ passed_drained cluster ∧
    remaining_rows cluster = row_enum cluster ∧
    cluster.ret_total = ((row_enum cluster).length : Nat) := by
  obtain ⟨hpos, hcur, htot⟩ := hs
  have hrem : remaining_rows cluster = row_enum cluster := by
    simp only [remaining_rows, row_enum, hcur, List.drop_zero, List.enum]
    exact rows_from_enum _ 0 hpos
  refine ⟨?_, ?_, hrem, ?_⟩
  · intro c hc; rw [hpos c hc]; exact Nat.zero_le _
  · intro j c hj; rw [hcur] at hj; exact absurd hj (Nat.not_lt_zero _)
  · rw [htot, ← hrem]
    simp only [remaining_rows, hcur, List.drop_zero]
    rw [rows_from_length _ 0 hpos]

theorem drain_rows_spec :
    ∀ (k : Nat) (func : ProxyFunction) (cluster : ProxyCluster) (rows : List ResultRow)
      (f2 : ProxyFunction) (c2 : ProxyCluster),
      drain_rows k func cluster = some (rows, f2, c2) →
      pos_in_range cluster → passed_drained cluster →
      rows.length = k ∧
      remaining_rows cluster = rows.map (fun r => (r.conn, r.row)) ++ remaining_rows c2 ∧
      pos_in_range c2 ∧ passed_drained c2 ∧ c2.ret_total = cluster.ret_total - k := by
  intro k
  induction k with
  | zero =>
    intro func cluster rows f2 c2 h hin hd
    simp only [drain_rows, Option.some.injEq, Prod.mk.injEq] at h
    obtain ⟨h1, _, h3⟩ := h
    subst h1; subst h3
    simp [hin, hd]
  | succ k ih =>
    intro func cluster rows f2 c2 h hin hd
    simp only [drain_rows] at h
    rcases hp : plproxy_result func cluster with ⟨⟨f1, c1⟩, e | row⟩
    · simp [hp] at h
    · simp only [hp] at h
      cases hdr : drain_rows k f1 c1 with
      | none => simp [hdr] at h
      | some val =>
        obtain ⟨rows1, f3, c3⟩ := val
        simp only [hdr, Option.some.injEq, Prod.mk.injEq] at h
        obtain ⟨h1, h2, h3⟩ := h
        subst h1; subst h2; subst h3
        obtain ⟨htot, -, -, -, hstep⟩ := plproxy_result_ok func cluster f1 c1 row hp
        obtain ⟨hin1, hrem1⟩ := hstep hin
        have hd1 := plproxy_result_drained func cluster f1 c1 row hp hd
        obtain ⟨hl, hr, hi, hdd, ht⟩ := ih f1 c1 rows1 f3 c3 hdr hin1 hd1
        refine ⟨by simp [hl], ?_, hi, hdd, ?_⟩
        · rw [hrem1, hr]; simp
        · rw [ht, htot]; push_cast; ring

theorem drain_rows_exists :
    ∀ (k : Nat) (func : ProxyFunction) (cluster : ProxyCluster),
      pos_in_range cluster →
      (∀ conn ∈ cluster.conn_list, ∀ res, conn.res = some res → PQntuples res ≠ 0 →
        (map_results func res).2 = none) →
      k ≤ (remaining_rows cluster).length →
      ∃ rows f2 c2, drain_rows k func cluster = some (rows, f2, c2) := by
  intro k
  induction k with
  | zero => intro func cluster _ _ _; exact ⟨[], func, cluster, rfl⟩
  | succ k ih =>
    intro func cluster hin hmap hk
    have hne : remaining_rows cluster ≠ [] := by
      intro h; rw [h] at hk; simp at hk
    obtain ⟨f1, c1, row, hp⟩ := plproxy_result_progress func cluster hin hmap hne
    obtain ⟨-, hlist, -, hshape, hstep⟩ := plproxy_result_ok func cluster f1 c1 row hp
    obtain ⟨hin1, hrem1⟩ := hstep hin
    have hmap1 : ∀ conn ∈ c1.conn_list, ∀ res, conn.res = some res → PQntuples res ≠ 0 →
        (map_results f1 res).2 = none := by
      intro conn hc res hres hnt
      rw [map_results_err_shape f1 func res hshape.1 hshape.2]
      rw [hlist] at hc
      rcases mem_modify_pos _ _ _ hc with hm | ⟨c0, hc0, hceq⟩
      · exact hmap conn hm res hres hnt
      · subst hceq
        exact hmap c0 (List.getElem?_mem hc0) res hres hnt
    have hk1 : k ≤ (remaining_rows c1).length := by
      rw [hrem1] at hk; simp at hk; exact hk
    obtain ⟨rows, f2, c2, hdr⟩ := ih f1 c1 hin1 hmap1 hk1
    exact ⟨row :: rows, f2, c2, by simp [drain_rows, hp, hdr]⟩

/-- Once every cursor is at the end of its result, the next call raises "bug: no result". -/
theorem plproxy_result_end (func : ProxyFunction) (cluster : ProxyCluster)
    (hall : ∀ conn ∈ cluster.conn_list, conn.pos = conn_ntuples conn) :
    (plproxy_result func cluster).2 = Except.error ProxyError.bug_no_result := by
  unfold plproxy_result walk_results
  rcases hw : walk_results_loop func (cluster.conn_count - cluster.ret_cur_conn) cluster with
    ⟨⟨fw, cw⟩, e | ci⟩
  · rcases walk_results_loop_error func _ cluster _ e rfl hw with ⟨h1, _⟩ | ⟨c, r, hc, hr, h0, hnt, _⟩
    · simp [h1]
    · exfalso
      have := hall c hc
      simp [conn_ntuples, hr] at this
      omega
  · exfalso
    obtain ⟨-, -, conn, res, hconn, hres, hpos, -⟩ :=
      walk_results_loop_ok func _ cluster fw cw ci hw
    have := hall conn (List.getElem?_mem hconn)
    simp [conn_ntuples, hres] at this
    exact hpos this

theorem name_matches_named (aname : List Char) (res : PGresult) (c : Nat)
    (h : PQfname res c ≠ none) : name_matches aname res c = Except.ok (col_matches aname res c) := by
  unfold name_matches col_matches
  cases hf : PQfname res c with
  | none => exact absurd hf h
  | some f => by_cases hm : strcasecmp_eq aname f = true <;> simp [hm]

theorem name_matches_unnamed (aname : List Char) (res : PGresult) (c : Nat)
    (h : PQfname res c = none) :
    name_matches aname res c = Except.error (ProxyError.unnamed_column (c + 1)) := by
  simp [name_matches, h]

/-- The slow-path search over named columns: it ends at the first matching
column other than `i`, or without a column when there is none. -/
theorem slow_search_spec (aname : List Char) (res : PGresult) (i : Nat) :
    ∀ (n j : Nat), (∀ c, j ≤ c → c < j + n → PQfname res c ≠ none) →
      (∃ c, slow_search aname res i n j = Except.ok (some c) ∧ j ≤ c ∧ c < j + n ∧ c ≠ i ∧
        col_matches aname res c = true) ∨
      (slow_search aname res i n j = Except.ok none ∧
        ∀ c, j ≤ c → c < j + n → c ≠ i → col_matches aname res c = false) := by
  intro n
  induction n with
  | zero =>
    intro j _
    exact Or.inr ⟨rfl, fun c h1 h2 => by omega⟩
  | succ n ih =>
    intro j hnamed
    have hrec := ih (j + 1) (fun c h1 h2 => hnamed c (by omega) (by omega))
    have lift : (∃ c, slow_search aname res i n (j + 1) = Except.ok (some c) ∧ j + 1 ≤ c ∧
          c < j + 1 + n ∧ c ≠ i ∧ col_matches aname res c = true) ∨
        (slow_search aname res i n (j + 1) = Except.ok none ∧
          ∀ c, j + 1 ≤ c → c < j + 1 + n → c ≠ i → col_matches aname res c = false) →
        (j = i ∨ col_matches aname res j = false) →
        (∃ c, slow_search aname res i n (j + 1) = Except.ok (some c) ∧ j ≤ c ∧
          c < j + (n + 1) ∧ c ≠ i ∧ col_matches aname res c = true) ∨
        (slow_search aname res i n (j + 1) = Except.ok none ∧
          ∀ c, j ≤ c → c < j + (n + 1) → c ≠ i → col_matches aname res c = false) := by
      intro hr hj
      rcases hr with ⟨c, h1, h2, h3, h4, h5⟩ | ⟨h1, h2⟩
      · exact Or.inl ⟨c, h1, by omega, by omega, h4, h5⟩
      · refine Or.inr ⟨h1, fun c hc1 hc2 hc3 => ?_⟩
        by_cases hcj : c = j
        · subst hcj
          rcases hj with hj | hj
          · exact absurd hj hc3
          · exact hj
        · exact h2 c (by omega) (by omega) hc3
    simp only [slow_search]
    by_cases hji : j = i
    · simp only [hji, if_true]
      rw [hji] at lift hrec
      exact lift hrec (Or.inl rfl)
    · simp only [hji, if_false]
      rw [name_matches_named aname res j (hnamed j (le_refl j) (by omega))]
      cases hm : col_matches aname res j with
      | true => exact Or.inl ⟨j, rfl, le_refl j, by omega, hji, hm⟩
      | false => exact lift hrec (Or.inr hm)

/-- One attribute over named columns: either a matching column `c` is written
to `result_map[i]` (column `i` itself when that one matches), or no column
matches and the iteration raises. -/
theorem map_one_spec (aname : List Char) (res : PGresult) (i nfields : Nat) (rm : List Int)
    (hnamed : ∀ c, c < nfields → PQfname res c ≠ none) (hi : i < nfields) :
    (∃ c, c < nfields ∧ map_one aname res i nfields rm = (rm.set i (c : Int), none) ∧
      col_matches aname res c = true ∧ (col_matches aname res i = true → c = i)) ∨
    ((map_one aname res i nfields rm).2 ≠ none ∧
      ∀ c, c < nfields → col_matches aname res c = false) := by
  unfold map_one
  rw [name_matches_named aname res i (hnamed i hi)]
  cases hm : col_matches aname res i with
  | true =>
    refine Or.inl ⟨i, hi, ?_, hm, fun _ => rfl⟩
    simp [List.set_set]
  | false =>
    rcases slow_search_spec aname res i nfields 0
        (fun c _ h2 => hnamed c (by omega)) with ⟨c, h1, _, h3, h4, h5⟩ | ⟨h1, h2⟩
    · refine Or.inl ⟨c, by omega, ?_, h5, fun h => by simp at h⟩
      simp [h1, List.set_set]
    · refine Or.inr ⟨by simp [h1], fun c hc => ?_⟩
      by_cases hci : c = i
      · rw [hci]; exact hm
      · exact h2 c (Nat.zero_le c) (by omega) hci

/-- A successful run of the attribute loop has looked at the name of every
column in its range. -/
theorem map_results_loop_named (res : PGresult) (nfields : Nat) (names : List (List Char)) :
    ∀ (i0 : Nat) (rm : List Int),
      (map_results_loop res nfields i0 names rm).2 = none →
      ∀ c, i0 ≤ c → c < i0 + names.length → PQfname res c ≠ none := by
  induction names with
  | nil => intro i0 rm _ c h1 h2; simp at h2; omega
  | cons a rest ih =>
    intro i0 rm h c h1 h2
    simp only [map_results_loop] at h
    rcases hm : map_one a res i0 nfields rm with ⟨rm1, _ | e⟩
    · simp only [hm] at h
      by_cases hc : c = i0
      · subst hc
        intro hnone
        unfold map_one at hm
        rw [name_matches_unnamed a res c hnone] at hm
        simp at hm
      · exact ih (i0 + 1) rm1 h c (by omega) (by simp at h2; omega)
    · simp [hm] at h

/-- The attribute loop over named columns, when it succeeds: entries outside
its range are untouched and entry `i0 + k` holds a column matching name `k`. -/
theorem map_results_loop_spec (res : PGresult) (nfields : Nat)
    (hnamed : ∀ c, c < nfields → PQfname res c ≠ none) (names : List (List Char)) :
    ∀ (i0 : Nat) (rm rm2 : List Int), i0 + names.length ≤ nfields →
      map_results_loop res nfields i0 names rm = (rm2, none) →
      rm2.length = rm.length ∧
      (∀ idx, idx < i0 ∨ i0 + names.length ≤ idx → rm2[idx]? = rm[idx]?) ∧
      (∀ k a, names[k]? = some a → ∃ c, c < nfields ∧ col_matches a res c = true ∧
        (col_matches a res (i0 + k) = true → c = i0 + k) ∧
        (i0 + k < rm.length → rm2[i0 + k]? = some (c : Int))) := by
  induction names with
  | nil =>
    intro i0 rm rm2 _ h
    simp only [map_results_loop, Prod.mk.injEq] at h
    rw [← h.1]
    exact ⟨rfl, fun _ _ => rfl, fun k a hk => by simp at hk⟩
  | cons a rest ih =>
    intro i0 rm rm2 hle h
    simp only [List.length_cons] at hle
    simp only [map_results_loop] at h
    rcases map_one_spec a res i0 nfields rm hnamed (by omega) with
      ⟨c, hc, hm, hmatch, hfast⟩ | ⟨hm, _⟩
    · simp only [hm] at h
      obtain ⟨hlen, hout, hin⟩ := ih (i0 + 1) _ rm2 (by omega) h
      refine ⟨by simpa using hlen, ?_, ?_⟩
      · intro idx hidx
        rw [hout idx (by simp only [List.length_cons] at hidx; omega)]
        rw [List.getElem?_set]
        have : i0 ≠ idx := by simp only [List.length_cons] at hidx; omega
        simp [this]
      · intro k b hk
        cases k with
        | zero =>
          simp only [List.getElem?_cons_zero, Option.some.injEq] at hk
          subst hk
          refine ⟨c, hc, hmatch, hfast, fun hlt => ?_⟩
          rw [hout (i0 + 0) (Or.inl (by omega)), List.getElem?_set]
          simp [show i0 < rm.length from hlt]
        | succ k =>
          simp only [List.getElem?_cons_succ] at hk
          obtain ⟨c2, h1, h2, h3, h4⟩ := hin k b hk
          have e : i0 + 1 + k = i0 + (k + 1) := by omega
          rw [e] at h3 h4
          exact ⟨c2, h1, h2, h3, fun hlt => h4 (by simpa using hlt)⟩
    · rcases hm2 : map_one a res i0 nfields rm with ⟨rm1, _ | e⟩
      · rw [hm2] at hm; simp at hm
      · simp [hm2] at h

/-- The attribute loop over named columns succeeds when every name has a
matching column. -/
theorem map_results_loop_complete (res : PGresult) (nfields : Nat)
    (hnamed : ∀ c, c < nfields → PQfname res c ≠ none) (names : List (List Char)) :
    ∀ (i0 : Nat) (rm : List Int), i0 + names.length ≤ nfields →
      (∀ a ∈ names, ∃ c, c < nfields ∧ col_matches a res c = true) →
      (map_results_loop res nfields i0 names rm).2 = none := by
  induction names with
  | nil => intro i0 rm _ _; rfl
  | cons a rest ih =>
    intro i0 rm hle hall
    simp only [List.length_cons] at hle
    simp only [map_results_loop]
    rcases map_one_spec a res i0 nfields rm hnamed (by omega) with
      ⟨c, _, hm, _, _⟩ | ⟨_, hnone⟩
    · simp only [hm]
      exact ih (i0 + 1) _ (by omega) (fun b hb => hall b (List.mem_cons_of_mem _ hb))
    · obtain ⟨c, hc, hmatch⟩ := hall a (List.mem_cons_self _ _)
      rw [hnone c hc] at hmatch
      simp at hmatch

theorem plproxy_result_started (func : ProxyFunction) (cluster : ProxyCluster)
    (f1 : ProxyFunction) (c1 : ProxyCluster) (row : ResultRow)
    (h : plproxy_result func cluster = ((f1, c1), Except.ok row))
    (hst : started_ok func cluster) :
    started_ok f1 c1 ∧
    ∃ conn r, cluster.conn_list[row.conn]? = some conn ∧ conn.res = some r ∧
      (map_results func r).2 = none := by
  obtain ⟨-, hlist, ⟨conn, res, hconn, hres, -, -, hfirst⟩, hshape, -⟩ :=
    plproxy_result_ok func cluster f1 c1 row h
  have hok : (map_results func res).2 = none := by
    by_cases h0 : conn.pos = 0
    · exact hfirst h0
    · exact hst conn (List.getElem?_mem hconn) h0 res hres
  refine ⟨?_, conn, res, hconn, hres, hok⟩
  intro c hc hpos r hr
  rw [map_results_err_shape f1 func r hshape.1 hshape.2]
  rw [hlist] at hc
  rcases mem_modify_pos _ _ _ hc with hm | ⟨c0, hc0, hceq⟩
  · exact hst c hm hpos r hr
  · subst hceq
    rw [hconn] at hc0
    have : c0 = conn := (Option.some.inj hc0).symm
    subst this
    have hr2 : c0.res = some r := hr
    rw [hres] at hr2
    rw [← Option.some.inj hr2]
    exact hok

theorem drain_rows_started :
    ∀ (k : Nat) (func : ProxyFunction) (cluster : ProxyCluster) (rows : List ResultRow)
      (f2 : ProxyFunction) (c2 : ProxyCluster),
      drain_rows k func cluster = some (rows, f2, c2) → started_ok func cluster →
      ∀ row ∈ rows, ∃ conn r, cluster.conn_list[row.conn]? = some conn ∧ conn.res = some r ∧
        (map_results func r).2 = none := by
  intro k
  induction k with
  | zero =>
    intro func cluster rows f2 c2 h _ row hrow
    simp only [drain_rows, Option.some.injEq, Prod.mk.injEq] at h
    rw [← h.1] at hrow
    simp at hrow
  | succ k ih =>
    intro func cluster rows f2 c2 h hst row hrow
    simp only [drain_rows] at h
    rcases hp : plproxy_result func cluster with ⟨⟨f1, c1⟩, e | row1⟩
    · simp [hp] at h
    · simp only [hp] at h
      cases hdr : drain_rows k f1 c1 with
      | none => simp [hdr] at h
      | some val =>
        obtain ⟨rows1, f3, c3⟩ := val
        simp only [hdr, Option.some.injEq, Prod.mk.injEq] at h
        obtain ⟨h1, -, -⟩ := h
        subst h1
        obtain ⟨hst1, hfirst⟩ := plproxy_result_started func cluster f1 c1 row1 hp hst
        obtain ⟨-, hlist, -, hshape, -⟩ := plproxy_result_ok func cluster f1 c1 row1 hp
        rcases List.mem_cons.mp hrow with hr | hr
        · rw [hr]; exact hfirst
        · obtain ⟨conn, r, hc, hres, hok⟩ := ih f1 c1 rows1 f3 c3 hdr hst1 row hr
          rw [map_results_err_shape f1 func r hshape.1 hshape.2] at hok
          rw [hlist, List.getElem?_modify] at hc
          cases hc0 : cluster.conn_list[row.conn]? with
          | none => simp [hc0] at hc
          | some conn0 =>
            refine ⟨conn0, r, rfl, ?_, hok⟩
            simp only [hc0, Option.map_eq_map, Option.map_some', Option.some.injEq] at hc
            rw [← hres, ← hc]
            by_cases hi : row1.conn = row.conn <;> simp [hi]

/-- When the walk meets a connection on its first row whose result
`map_results` rejects, `plproxy_result` raises that error and returns no row. -/
theorem plproxy_result_rejected (func : ProxyFunction) (cluster : ProxyCluster)
    (conn : ProxyConnection) (r : PGresult) (e : ProxyError)
    (hc : cluster.conn_list[cluster.ret_cur_conn]? = some conn) (hr : conn.res = some r)
    (h0 : conn.pos = 0) (hnt : PQntuples r ≠ 0) (he : (map_results func r).2 = some e) :
    (plproxy_result func cluster).1.2 = cluster ∧
    (plproxy_result func cluster).2 = Except.error e := by
  obtain ⟨hlt, -⟩ := List.getElem?_eq_some.mp hc
  have hfuel : cluster.conn_count - cluster.ret_cur_conn =
      (cluster.conn_count - cluster.ret_cur_conn - 1) + 1 := by
    unfold ProxyCluster.conn_count; omega
  have hp : ¬ 0 = PQntuples r := fun h => hnt h.symm
  unfold plproxy_result walk_results
  rw [hfuel]
  simp only [walk_results_loop, hc, hr, hp, h0, if_true, if_false]
  rcases hm : map_results func r with ⟨fm, _ | e2⟩
  · rw [hm] at he; simp at he
  · rw [hm] at he
    simp only [Option.some.injEq] at he
    simp [he]

theorem PQfname_eq (res : PGresult) (c : Nat) (hc : c < res.fnames.length) :
    PQfname res c = res.fnames[c] := by
  simp [PQfname, List.getElem?_eq_getElem hc]

theorem all_named_iff (res : PGresult) :
    (∀ f ∈ res.fnames, f ≠ none) ↔ ∀ c, c < PQnfields res → PQfname res c ≠ none := by
  constructor
  · intro h c hc
    rw [PQfname_eq res c hc]
    exact h _ (List.getElem_mem hc)
  · intro h f hf
    obtain ⟨c, hc, hget⟩ := List.mem_iff_getElem.mp hf
    have := h c hc
    rw [PQfname_eq res c hc, hget] at this
    exact this

theorem col_matches_iff (aname : List Char) (res : PGresult) :
    (∃ c, c < PQnfields res ∧ col_matches aname res c = true) ↔
      ∃ f, some f ∈ res.fnames ∧ strcasecmp_eq aname f = true := by
  constructor
  · rintro ⟨c, hc, hm⟩
    unfold col_matches at hm
    rw [PQfname_eq res c hc] at hm
    cases hf : res.fnames[c] with
    | none => simp [hf] at hm
    | some f =>
      simp only [hf] at hm
      exact ⟨f, hf ▸ List.getElem_mem hc, hm⟩
  · rintro ⟨f, hf, hm⟩
    obtain ⟨c, hc, hget⟩ := List.mem_iff_getElem.mp hf
    refine ⟨c, hc, ?_⟩
    unfold col_matches
    rw [PQfname_eq res c hc, hget]
    exact hm

/-- C9: shape validation. `map_results` succeeds exactly when the function is
scalar-shaped and the result has one column, or it is composite-shaped, the
result has as many columns as the composite, all of them named, and every
expected name equals some column name ignoring case. On success of the
composite case every entry of `result_map` is a column index below the column
count (the scalar case leaves `result_map` alone). `map_results` runs before
the first row of a connection is returned: a rejected result makes
`plproxy_result` raise without returning a row, and every row the stream
returns comes from a connection whose result `map_results` accepts. -/
theorem C9_shape_validation (func : ProxyFunction) (res : PGresult) :
    ((map_results func res).2 = none ↔
      (func.ret_scalar ≠ none ∧ PQnfields res = 1) ∨
      (func.ret_scalar = none ∧ ∃ comp, func.ret_composite = some comp ∧
        PQnfields res = comp.attnames.length ∧ (∀ f ∈ res.fnames, f ≠ none) ∧
        ∀ a ∈ comp.attnames, ∃ f, some f ∈ res.fnames ∧ strcasecmp_eq a f = true)) ∧
    ((map_results func res).2 = none →
      (func.ret_scalar ≠ none → (map_results func res).1.result_map = func.result_map) ∧
      (∀ comp, func.ret_scalar = none → func.ret_composite = some comp →
        func.result_map.length = comp.attnames.length →
        ∀ v ∈ (map_results func res).1.result_map, 0 ≤ v ∧ v < (PQnfields res : Int))) ∧
    (∀ (cluster : ProxyCluster) (conn : ProxyConnection) (e : ProxyError),
      cluster.conn_list[cluster.ret_cur_conn]? = some conn → conn.res = some res →
      conn.pos = 0 → PQntuples res ≠ 0 → (map_results func res).2 = some e →
      (plproxy_result func cluster).1.2 = cluster ∧
      (plproxy_result func cluster).2 = Except.error e) ∧
    (∀ (cluster : ProxyCluster) (k : Nat) (rows : List ResultRow) (f2 : ProxyFunction)
      (c2 : ProxyCluster), stream_start cluster →
      drain_rows k func cluster = some (rows, f2, c2) →
      ∀ row ∈ rows, ∃ conn r, cluster.conn_list[row.conn]? = some conn ∧ conn.res = some r ∧
        (map_results func r).2 = none) := by
  refine ⟨?_, ?_, ?_, ?_⟩
  · unfold map_results
    cases hs : func.ret_scalar with
    | some ty =>
      by_cases h1 : PQnfields res = 1 <;> simp [h1]
    | none =>
      cases hc : func.ret_composite with
      | none => simp
      | some comp =>
        by_cases h1 : PQnfields res < comp.attnames.length
        · simp only [h1, if_true]
          constructor
          · intro h; simp at h
          · rintro (⟨h, _⟩ | ⟨_, comp2, hcomp, hlen, _⟩)
            · simp at h
            · simp only [Option.some.injEq] at hcomp
              subst hcomp; omega
        · by_cases h2 : PQnfields res > comp.attnames.length
          · simp only [h1, h2, if_true, if_false]
            constructor
            · intro h; simp at h
            · rintro (⟨h, _⟩ | ⟨_, comp2, hcomp, hlen, _⟩)
              · simp at h
              · simp only [Option.some.injEq] at hcomp
                subst hcomp; omega
          · simp only [h1, h2, if_false]
            have hlen : PQnfields res = comp.attnames.length := by omega
            constructor
            · intro hok
              refine Or.inr ⟨?_, comp, ?_, hlen, ?_, ?_⟩
              · trivial
              · rfl
              · rw [all_named_iff]
                intro c hc
                exact map_results_loop_named res _ comp.attnames 0 func.result_map hok c
                  (Nat.zero_le c) (by omega)
              · intro a ha
                have hnamed : ∀ c, c < PQnfields res → PQfname res c ≠ none := fun c hc =>
                  map_results_loop_named res _ comp.attnames 0 func.result_map hok c
                    (Nat.zero_le c) (by omega)
                obtain ⟨k, hk, hget⟩ := List.mem_iff_getElem.mp ha
                rcases hl : map_results_loop res (PQnfields res) 0 comp.attnames
                  func.result_map with ⟨rm2, _ | e⟩
                · obtain ⟨-, -, hin⟩ := map_results_loop_spec res _ hnamed comp.attnames 0
                    func.result_map rm2 (by omega) hl
                  obtain ⟨c, hc, hm, -⟩ := hin k a (by rw [List.getElem?_eq_getElem hk, hget])
                  exact (col_matches_iff a res).mp ⟨c, hc, hm⟩
                · rw [hl] at hok; simp at hok
            · rintro (⟨h, _⟩ | ⟨_, comp2, hcomp, _, hnamed, hall⟩)
              · simp at h
              · simp only [Option.some.injEq] at hcomp
                subst hcomp
                exact map_results_loop_complete res _ ((all_named_iff res).mp hnamed)
                  comp.attnames 0 func.result_map (by omega)
                  (fun a ha => (col_matches_iff a res).mpr (hall a ha))
  · intro hok
    constructor
    · intro hs
      unfold map_results
      cases hsc : func.ret_scalar with
      | none => exact absurd hsc hs
      | some ty => by_cases h1 : PQnfields res ≠ 1 <;> simp [h1]
    · intro comp hs hc hlenrm v hv
      unfold map_results at hok hv
      simp only [hs, hc] at hok hv
      by_cases h1 : PQnfields res < comp.attnames.length
      · simp [h1] at hok
      · by_cases h2 : PQnfields res > comp.attnames.length
        · simp [h1, h2] at hok
        · simp only [h1, h2, if_false] at hok hv
          have hnamed : ∀ c, c < PQnfields res → PQfname res c ≠ none := fun c hc =>
            map_results_loop_named res _ comp.attnames 0 func.result_map hok c
              (Nat.zero_le c) (by omega)
          rcases hl : map_results_loop res (PQnfields res) 0 comp.attnames
            func.result_map with ⟨rm2, _ | e⟩
          · obtain ⟨hlen2, -, hin⟩ := map_results_loop_spec res _ hnamed comp.attnames 0
              func.result_map rm2 (by omega) hl
            rw [hl] at hv
            obtain ⟨k, hk, hget⟩ := List.mem_iff_getElem.mp hv
            have hk2 : k < comp.attnames.length := by
              have : k < rm2.length := hk
              omega
            obtain ⟨c, hc2, -, -, hrm⟩ := hin k comp.attnames[k]
              (List.getElem?_eq_getElem hk2)
            have := hrm (by omega)
            rw [Nat.zero_add, List.getElem?_eq_getElem hk, hget] at this
            simp only [Option.some.injEq] at this
            rw [this]
            omega
          · rw [hl] at hok; simp at hok
  · intro cluster conn e hc hr h0 hnt he
    exact plproxy_result_rejected func cluster conn res e hc hr h0 hnt he
  · intro cluster k rows f2 c2 hs hdr
    apply drain_rows_started k func cluster rows f2 c2 hdr
    intro conn hc hpos
    exact absurd (hs.1 conn hc) hpos

/-- C9 witness: the two-column result is accepted for the function declared
as `NAME, ID`, and both entries of `result_map` are column indices. -/
theorem C9_shape_validation_witness :
    (map_results name_id_func (two_col_result [])).2 = none ∧
    ∀ v ∈ (map_results name_id_func (two_col_result [])).1.result_map,
      0 ≤ v ∧ v < (PQnfields (two_col_result []) : Int) :=
  have h := C9_shape_validation name_id_func (two_col_result [])
  have hok : (map_results name_id_func (two_col_result [])).2 = none :=
    h.1.mpr (Or.inr ⟨rfl, ⟨[['N', 'A', 'M', 'E'], ['I', 'D']], false⟩, rfl, rfl, by decide,
      by
        intro a ha
        simp only [List.mem_cons, List.mem_singleton, List.not_mem_nil, or_false] at ha
        rcases ha with rfl | rfl
        · exact ⟨['n', 'a', 'm', 'e'], by decide, by decide⟩
        · exact ⟨['i', 'd'], by decide, by decide⟩⟩)
  ⟨hok, (h.2.1 hok).2 _ rfl rfl rfl⟩

theorem strcasecmp_eq_iff (a b : List Char) :
    strcasecmp_eq a b = true ↔ fold_case a = fold_case b := by
  simp [strcasecmp_eq, fold_case]

theorem nodup_getElem?_inj {α : Type} (l : List α) (hl : l.Nodup) (i j : Nat) (x : α)
    (hi : l[i]? = some x) (hj : l[j]? = some x) : i = j := by
  obtain ⟨hi1, hi2⟩ := List.getElem?_eq_some.mp hi
  obtain ⟨hj1, hj2⟩ := List.getElem?_eq_some.mp hj
  exact (List.Nodup.getElem_inj_iff hl).mp (hi2.trans hj2.symm)

theorem col_matches_input (aname : List Char) (res : PGresult) (input : List (List Char))
    (hnames : res.fnames = input.map some) (c : Nat) :
    col_matches aname res c = true ↔ ∃ f, input[c]? = some f ∧ fold_case f = fold_case aname := by
  unfold col_matches PQfname
  rw [hnames, List.getElem?_map]
  cases hc : input[c]? with
  | none => simp
  | some f =>
    simp only [Option.map_some', Option.join, Option.some.injEq, exists_eq_left',
      Option.some_bind, id]
    rw [strcasecmp_eq_iff]
    exact eq_comm

/-- The mapping computed for a permuted result, column by column. -/
theorem map_results_permuted (func : ProxyFunction) (comp : ProxyComposite) (res : PGresult)
    (input : List (List Char))
    (hs : func.ret_scalar = none) (hc : func.ret_composite = some comp)
    (hnames : res.fnames = input.map some)
    (hperm : List.Perm (input.map fold_case) (comp.attnames.map fold_case))
    (hlen : func.result_map.length = comp.attnames.length) :
    ∃ rm2, map_results func res = ({ func with result_map := rm2 }, none) ∧
      rm2.length = comp.attnames.length ∧
      ∀ k a, comp.attnames[k]? = some a → ∃ c f, c < comp.attnames.length ∧
        input[c]? = some f ∧ fold_case f = fold_case a ∧
        ((∃ f2, input[k]? = some f2 ∧ fold_case f2 = fold_case a) → c = k) ∧
        rm2[k]? = some (c : Int) := by
  have hn : PQnfields res = comp.attnames.length := by
    have := hperm.length_eq
    simp only [List.length_map] at this
    simp [PQnfields, hnames, this]
  have hnamed : ∀ c, c < PQnfields res → PQfname res c ≠ none := by
    rw [← all_named_iff, hnames]
    intro f hf
    obtain ⟨x, _, hx⟩ := List.mem_map.mp hf
    rw [← hx]; simp
  have hall : ∀ a ∈ comp.attnames, ∃ c, c < PQnfields res ∧ col_matches a res c = true := by
    intro a ha
    have h1 : fold_case a ∈ input.map fold_case :=
      hperm.mem_iff.mpr (List.mem_map_of_mem _ ha)
    obtain ⟨f, hf, hfa⟩ := List.mem_map.mp h1
    obtain ⟨c, hc1, hc2⟩ := List.mem_iff_getElem.mp hf
    refine ⟨c, by simp [PQnfields, hnames]; exact hc1, ?_⟩
    rw [col_matches_input a res input hnames c]
    exact ⟨f, by rw [List.getElem?_eq_getElem hc1, hc2], hfa⟩
  have hok := map_results_loop_complete res _ hnamed comp.attnames 0 func.result_map
    (by omega) hall
  rcases hl : map_results_loop res (PQnfields res) 0 comp.attnames func.result_map with
    ⟨rm2, _ | e⟩
  · obtain ⟨hlen2, -, hin⟩ := map_results_loop_spec res _ hnamed comp.attnames 0
      func.result_map rm2 (by omega) hl
    refine ⟨rm2, ?_, by omega, ?_⟩
    · unfold map_results
      simp only [hs, hc]
      rw [if_neg (by omega), if_neg (by omega), hl]
    · intro k a hk
      obtain ⟨c, hc1, hc2, hc3, hc4⟩ := hin k a hk
      rw [Nat.zero_add] at hc3 hc4
      obtain ⟨f, hf1, hf2⟩ := (col_matches_input a res input hnames c).mp hc2
      have hklt : k < comp.attnames.length := (List.getElem?_eq_some.mp hk).1
      refine ⟨c, f, by omega, hf1, hf2, ?_, hc4 (by omega)⟩
      intro hfast
      exact hc3 ((col_matches_input a res input hnames k).mpr hfast)
  · rw [hl] at hok; simp at hok

/-- C8: column mapping of a permuted result. When the expected column names
are pairwise distinct ignoring case and the (named) input columns are a
permutation of them ignoring case, `map_results` on a composite-shaped function
succeeds; `result_map[i]` is the one input position whose name equals expected
name `i` ignoring case; `result_map` is a permutation of `[0, natts)`, and the
identity when the orders agree. -/
theorem C8_column_mapping (func : ProxyFunction) (comp : ProxyComposite) (res : PGresult)
    (input : List (List Char))
    (hs : func.ret_scalar = none) (hc : func.ret_composite = some comp)
    (hnames : res.fnames = input.map some)
    (hnodup : (comp.attnames.map fold_case).Nodup)
    (hperm : List.Perm (input.map fold_case) (comp.attnames.map fold_case))
    (hlen : func.result_map.length = comp.attnames.length) :
    (map_results func res).2 = none ∧
    (∀ (i : Nat) (a : List Char), comp.attnames[i]? = some a →
      ∃ (j : Nat) (f : List Char), input[j]? = some f ∧ fold_case f = fold_case a ∧
        (map_results func res).1.result_map[i]? = some (j : Int) ∧
        ∀ (j2 : Nat) (f2 : List Char), input[j2]? = some f2 → fold_case f2 = fold_case a →
          j2 = j) ∧
    List.Perm (map_results func res).1.result_map
      ((List.range comp.attnames.length).map Int.ofNat) ∧
    (input.map fold_case = comp.attnames.map fold_case →
      (map_results func res).1.result_map = (List.range comp.attnames.length).map Int.ofNat) := by
  obtain ⟨rm2, hmr, hlen2, hcols⟩ :=
    map_results_permuted func comp res input hs hc hnames hperm hlen
  have hinodup : (input.map fold_case).Nodup := hperm.nodup_iff.mpr hnodup
  have hilen : input.length = comp.attnames.length := by
    have := hperm.length_eq
    simpa using this
  have huniq : ∀ (c j2 : Nat) (f f2 : List Char), input[c]? = some f → input[j2]? = some f2 →
      fold_case f2 = fold_case f → j2 = c := by
    intro c j2 f f2 h1 h2 h3
    apply nodup_getElem?_inj _ hinodup j2 c (fold_case f)
    · rw [List.getElem?_map, h2, Option.map_some', h3]
    · rw [List.getElem?_map, h1, Option.map_some']
  rw [hmr]
  refine ⟨rfl, ?_, ?_, ?_⟩
  · intro i a hi
    obtain ⟨c, f, -, hf1, hf2, -, hrm⟩ := hcols i a hi
    exact ⟨c, f, hf1, hf2, hrm, fun j2 f2 h1 h2 => huniq c j2 f f2 hf1 h1 (h2.trans hf2.symm)⟩
  · show List.Perm rm2 _
    have hrng : ((List.range comp.attnames.length).map Int.ofNat).Nodup :=
      (List.nodup_range _).map (fun a b h => Int.ofNat.inj h)
    have hrm2 : rm2.Nodup := by
      rw [List.nodup_iff_getElem?_ne_getElem?]
      intro k1 k2 hlt hk2 heq
      have hk2' : k2 < comp.attnames.length := by omega
      have hk1' : k1 < comp.attnames.length := by omega
      obtain ⟨c1, f1, -, hf1, hg1, -, hr1⟩ := hcols k1 _ (List.getElem?_eq_getElem hk1')
      obtain ⟨c2, f2, -, hf2, hg2, -, hr2⟩ := hcols k2 _ (List.getElem?_eq_getElem hk2')
      rw [hr1, hr2] at heq
      have hcc : c1 = c2 := by
        have := Option.some.inj heq
        exact Int.ofNat.inj this
      subst hcc
      rw [hf1] at hf2
      have hff : f1 = f2 := Option.some.inj hf2
      subst hff
      have : k1 = k2 := by
        apply nodup_getElem?_inj _ hnodup k1 k2 (fold_case f1)
        · rw [List.getElem?_map, List.getElem?_eq_getElem hk1', Option.map_some', hg1]
        · rw [List.getElem?_map, List.getElem?_eq_getElem hk2', Option.map_some', hg2]
      omega
    rw [List.perm_ext_iff_of_nodup hrm2 hrng]
    intro v
    constructor
    · intro hv
      obtain ⟨k, hk, hget⟩ := List.mem_iff_getElem.mp hv
      have hk' : k < comp.attnames.length := by omega
      obtain ⟨c, f, hc1, -, -, -, hr⟩ := hcols k _ (List.getElem?_eq_getElem hk')
      rw [List.getElem?_eq_getElem hk, hget] at hr
      rw [Option.some.inj hr]
      exact List.mem_map.mpr ⟨c, List.mem_range.mpr hc1, rfl⟩
    · intro hv
      obtain ⟨c, hc1, hc2⟩ := List.mem_map.mp hv
      have hclt : c < input.length := by rw [hilen]; exact List.mem_range.mp hc1
      have hmem : fold_case input[c] ∈ comp.attnames.map fold_case :=
        hperm.mem_iff.mp (List.mem_map_of_mem _ (List.getElem_mem hclt))
      obtain ⟨a, ha, hfa⟩ := List.mem_map.mp hmem
      obtain ⟨k, hk, hget⟩ := List.mem_iff_getElem.mp ha
      obtain ⟨c2, f, -, hf1, hf2, -, hr⟩ := hcols k a (by rw [List.getElem?_eq_getElem hk, hget])
      have : c = c2 := huniq c2 c f input[c] hf1 (List.getElem?_eq_getElem hclt)
        (hfa.symm.trans hf2.symm)
      subst this
      rw [← hc2]
      exact List.getElem?_mem hr
  · intro hsame
    show rm2 = _
    apply List.ext_getElem?
    intro k
    by_cases hk : k < comp.attnames.length
    · obtain ⟨c, f, -, -, -, hfast, hr⟩ := hcols k _ (List.getElem?_eq_getElem hk)
      have hck : c = k := by
        apply hfast
        have hk2 : k < input.length := by omega
        refine ⟨input[k], List.getElem?_eq_getElem hk2, ?_⟩
        have h1 : (input.map fold_case)[k]? = (comp.attnames.map fold_case)[k]? := by rw [hsame]
        rw [List.getElem?_map, List.getElem?_map, List.getElem?_eq_getElem hk2,
          List.getElem?_eq_getElem hk] at h1
        exact Option.some.inj h1
      rw [hr, hck, List.getElem?_map, List.getElem?_range hk]
      rfl
    · rw [List.getElem?_eq_none (by omega), List.getElem?_eq_none (by simp; omega)]

/-- C8 witness: input columns `id, name` against the declaration `NAME, ID`
give the mapping `[1, 0]`. -/
theorem C8_column_mapping_witness :
    (map_results name_id_func (two_col_result [])).2 = none ∧
    List.Perm (map_results name_id_func (two_col_result [])).1.result_map
      ((List.range 2).map Int.ofNat) :=
  have h := C8_column_mapping name_id_func ⟨[['N', 'A', 'M', 'E'], ['I', 'D']], false⟩
    (two_col_result []) [['i', 'd'], ['n', 'a', 'm', 'e']] rfl rfl rfl (by decide)
    (by decide) rfl
  ⟨h.1, h.2.2.1⟩

/-! ### Executor (`execute.c`) -/

/-- The review loop, when it passes: every connection is tagged exactly when it
holds a result, the tagged ones are `C_DONE` with a row-set result, and the
total has grown by their row counts. -/
theorem review_loop_ok (l : List ProxyConnection) :
    ∀ (total t : Int), review_loop l total = (t, none) →
      (∀ conn ∈ l, (conn.run_on = true ↔ conn.res.isSome = true) ∧
        (conn.run_on = true → conn.state = ConnState.C_DONE ∧
          ∃ res, conn.res = some res ∧ res.status = ExecStatusType.PGRES_TUPLES_OK)) ∧
      t = total + (((l.filter (fun conn => conn.run_on)).map conn_ntuples).sum : Nat) := by
  induction l with
  | nil =>
    intro total t h
    simp only [review_loop, Prod.mk.injEq] at h
    simp [h.1]
  | cons conn rest ih =>
    intro total t h
    simp only [review_loop] at h
    by_cases hmis : (conn.run_on = true ∨ conn.res.isSome = true) ∧
        ¬ (conn.run_on = true ∧ conn.res.isSome = true)
    · rw [if_pos hmis] at h
      simp at h
    · rw [if_neg hmis] at h
      by_cases hrun : conn.run_on = false
      · rw [if_pos hrun] at h
        obtain ⟨h1, h2⟩ := ih total t h
        have hres : conn.res.isSome = false := by
          by_contra hc
          simp only [Bool.not_eq_false] at hc
          exact hmis ⟨Or.inr hc, fun hb => by simp [hrun] at hb⟩
        refine ⟨?_, ?_⟩
        · intro c hc
          rcases List.mem_cons.mp hc with hx | hx
          · subst hx
            simp [hrun, hres]
          · exact h1 c hx
        · rw [h2]; simp [List.filter_cons, hrun]
      · rw [if_neg hrun] at h
        have hrun1 : conn.run_on = true := by simpa using hrun
        by_cases hst : conn.state ≠ ConnState.C_DONE
        · rw [if_pos hst] at h
          simp at h
        · rw [if_neg hst] at h
          have hst1 : conn.state = ConnState.C_DONE := not_not.mp hst
          cases hres : conn.res with
          | none => simp [hres] at h
          | some res =>
            simp only [hres] at h
            by_cases hstat : res.status ≠ ExecStatusType.PGRES_TUPLES_OK
            · rw [if_pos hstat] at h
              simp at h
            · rw [if_neg hstat] at h
              obtain ⟨h1, h2⟩ := ih _ t h
              refine ⟨?_, ?_⟩
              · intro c hc
                rcases List.mem_cons.mp hc with hx | hx
                · subst hx
                  exact ⟨by simp [hrun1, hres], fun _ => ⟨hst1, res, hres, not_not.mp hstat⟩⟩
                · exact h1 c hx
              · rw [h2]
                simp [List.filter_cons, hrun1, conn_ntuples, hres]
                ring

theorem poll_conns_ret_total (w : IterWorld) (cluster : ProxyCluster) :
    (poll_conns w cluster).1.ret_total = cluster.ret_total := by
  unfold poll_conns
  split_ifs
  · rfl
  · rfl
  · rfl
  · rcases hd : dispatch_loop w.conn 0 cluster.conn_list
      (store_revents (build_pollfds cluster.conn_list) w.revents) [] with ⟨conns, _ | e⟩ <;> rfl

/-- The wait loop never touches `ret_total`. -/
theorem wait_loop_ret_total (loc : LocalServer) (func : ProxyFunction) (args : RemoteArgs)
    (iters : List IterWorld) :
    ∀ (pending : Nat) (cluster : ProxyCluster),
      (wait_loop loc func args iters pending cluster).1.ret_total = cluster.ret_total := by
  induction iters with
  | nil => intro pending cluster; by_cases h : pending = 0 <;> simp [wait_loop, h]
  | cons w rest ih =>
    intro pending cluster
    simp only [wait_loop]
    by_cases h : pending = 0
    · simp [h]
    · simp only [h, if_false]
      cases w.interrupt with
      | some code => rfl
      | none =>
        have hp := poll_conns_ret_total w cluster
        rcases hpc : poll_conns w cluster with ⟨c1, _ | e, ret⟩
        · rw [hpc] at hp
          simp only at hp ⊢
          by_cases hr : ret = 0
          · simp only [hr, if_true]
            rw [ih, hp]
          · simp only [hr, Bool.true_eq_false, if_false]
            rcases recheck_loop loc func c1.config args w 0 c1.conn_list [] 0 with
              ⟨conns, _ | e, p⟩
            · simp only
              rw [ih]
              exact hp
            · exact hp
        · rw [hpc] at hp
          exact hp

theorem launch_loop_frame (loc : LocalServer) (func : ProxyFunction) (args : RemoteArgs)
    (world : ExecWorld) (cluster : ProxyCluster) (c2 : ProxyCluster) (x : Exit)
    (h : remote_execute loc func args world cluster = (c2, x)) (hx : x = Exit.returned) :
    ∃ c1 : ProxyCluster, c1.ret_total = cluster.ret_total ∧
      review_loop c1.conn_list c1.ret_total = (c2.ret_total, none) ∧
      c2.conn_list = c1.conn_list := by
  subst hx
  unfold remote_execute at h
  rcases hl : launch_loop loc func cluster.config args world.launch 0 cluster.conn_list [] with
    ⟨conns, _ | e⟩
  · simp only [hl] at h
    have hw := wait_loop_ret_total loc func args world.iters 1
      { cluster with conn_list := conns }
    rcases hwl : wait_loop loc func args world.iters 1 { cluster with conn_list := conns } with
      ⟨c1, _ | e | _⟩
    · rw [hwl] at hw
      simp only [hwl] at h
      rcases hr : review_loop c1.conn_list c1.ret_total with ⟨total, _ | e⟩
      · simp only [hr, Prod.mk.injEq, and_true] at h
        refine ⟨c1, hw, ?_, ?_⟩
        · rw [← h]; exact hr
        · rw [← h]
      · simp [hr] at h
    · simp [hwl] at h
    · simp [hwl] at h
  · simp [hl] at h

/-- C10: end-of-round invariant. When `remote_execute` returns normally on a
cluster whose `ret_total` was reset by `plproxy_clean_results`, every
connection has `run_on` set exactly when it holds a result, every tagged
connection is `C_DONE` with a row-set result, and `ret_total` is the sum of
the row counts of the tagged connections. -/
theorem C10_end_of_round (loc : LocalServer) (func : ProxyFunction) (args : RemoteArgs)
    (world : ExecWorld) (cluster c2 : ProxyCluster) (hclean : cluster.ret_total = 0)
    (h : remote_execute loc func args world cluster = (c2, Exit.returned)) :
    (∀ conn ∈ c2.conn_list, (conn.run_on = true ↔ conn.res ≠ none) ∧
      (conn.run_on = true → conn.state = ConnState.C_DONE ∧
        ∃ res, conn.res = some res ∧ res.status = ExecStatusType.PGRES_TUPLES_OK)) ∧
    c2.ret_total = (((c2.conn_list.filter (fun conn => conn.run_on)).map conn_ntuples).sum : Nat) := by
  obtain ⟨c1, htot, hrev, hlist⟩ := launch_loop_frame loc func args world cluster c2 _ h rfl
  obtain ⟨h1, h2⟩ := review_loop_ok c1.conn_list c1.ret_total c2.ret_total hrev
  rw [hlist]
  refine ⟨?_, ?_⟩
  · intro conn hc
    obtain ⟨ha, hb⟩ := h1 conn hc
    refine ⟨?_, hb⟩
    rw [ha]
    cases conn.res <;> simp
  · rw [h2, htot, hclean]; simp

/-- C10 witness: the round that connects, sends and receives two rows returns
normally with `ret_total = 2`. -/
theorem C10_end_of_round_witness :
    (remote_execute local_server name_id_func no_args complete_world
      (one_part_cluster default_config)).2 = Exit.returned ∧
    (remote_execute local_server name_id_func no_args complete_world
      (one_part_cluster default_config)).1.ret_total = 2 :=
  have h := C10_end_of_round local_server name_id_func no_args complete_world
    (one_part_cluster default_config)
    (remote_execute local_server name_id_func no_args complete_world
      (one_part_cluster default_config)).1 rfl (by decide)
  ⟨by decide, by rw [h.2]; decide⟩

/-- A turn of the wait loop in which `poll` reports no event (timeout or
`EINTR`) changes nothing and checks nothing: the loop goes on with the next turn. -/
theorem wait_loop_zero_events (loc : LocalServer) (func : ProxyFunction) (args : RemoteArgs)
    (w : IterWorld) (rest : List IterWorld) (pending : Nat) (cluster : ProxyCluster)
    (hp : pending ≠ 0) (hi : w.interrupt = none)
    (hz : w.poll_res = 0 ∨ (w.poll_res < 0 ∧ w.poll_eintr = true)) :
    wait_loop loc func args (w :: rest) pending cluster =
      wait_loop loc func args rest pending cluster := by
  simp only [wait_loop, hp, if_false, hi]
  have hpoll : poll_conns w cluster = (cluster, none, 0) := by
    unfold poll_conns
    rcases hz with h | h
    · simp [h]
    · have hne : ¬ w.poll_res = 0 := by omega
      simp [hne, h]
  simp [hpoll]

/-- However long the wait loop sees nothing but wakeups without event, it
neither returns nor raises, whatever the clock and the timeouts are. -/
theorem wait_loop_idle (loc : LocalServer) (func : ProxyFunction) (args : RemoteArgs)
    (iters : List IterWorld) (pending : Nat) (cluster : ProxyCluster) (hp : pending ≠ 0)
    (hidle : ∀ w ∈ iters, w.interrupt = none ∧
      (w.poll_res = 0 ∨ (w.poll_res < 0 ∧ w.poll_eintr = true))) :
    wait_loop loc func args iters pending cluster = (cluster, Exit.waiting) := by
  induction iters with
  | nil => simp [wait_loop, hp]
  | cons w rest ih =>
    obtain ⟨hi, hz⟩ := hidle w (List.mem_cons_self _ _)
    rw [wait_loop_zero_events loc func args w rest pending cluster hp hi hz]
    exact ih (fun w2 hw2 => hidle w2 (List.mem_cons_of_mem _ hw2))

/-- C5 (the code at the failing input): a tagged connection sits in
`C_QUERY_READ` with `query_timeout = 1` and the query sent at time 0; `poll`
wakes up without event at times 1000, 2000 and 3000. `check_timeouts` would
raise "query timeout" at time 1000, but `remote_execute` is still waiting
after the three wakeups: the elapsed-time check is skipped. -/
theorem C5_zero_event_wakeup_skips_timeouts :
    (remote_execute local_server name_id_func no_args stalled_world
      (one_part_cluster timeout_config)).2 = Exit.waiting ∧
    (remote_execute local_server name_id_func no_args stalled_world
      (one_part_cluster timeout_config)).1.conn_list.length = 1 ∧
    ∀ conn ∈ (remote_execute local_server name_id_func no_args stalled_world
        (one_part_cluster timeout_config)).1.conn_list,
      conn.run_on = true ∧ conn.state = ConnState.C_QUERY_READ ∧
      timeout_config.query_timeout > 0 ∧
      1000 - conn.query_time > timeout_config.query_timeout ∧
      check_timeouts timeout_config conn 1000 = some ProxyError.query_timeout := by
  decide

theorem in_flight_iff (conn : ProxyConnection) :
    in_flight conn = true ↔
      (conn.state = ConnState.C_CONNECT_WRITE ∨ conn.state = ConnState.C_CONNECT_READ ∨
        conn.state = ConnState.C_QUERY_WRITE ∨ conn.state = ConnState.C_QUERY_READ) := by
  unfold in_flight
  cases conn.state <;> simp

theorem not_in_flight_iff (conn : ProxyConnection) :
    in_flight conn = false ↔
      (conn.state = ConnState.C_NONE ∨ conn.state = ConnState.C_READY ∨
        conn.state = ConnState.C_DONE) := by
  unfold in_flight
  cases conn.state <;> simp

/-- Who gets a cancel request from `remote_cancel`: the connections that are
connecting or in a query and for which libpq hands out a cancel handle. -/
theorem remote_cancel_loop_mem (world : Nat → ConnWorld) (l : List ProxyConnection) :
    ∀ (i0 i : Nat), i ∈ remote_cancel_loop world i0 l ↔
      ∃ conn, i0 ≤ i ∧ l[i - i0]? = some conn ∧ in_flight conn = true ∧
        (world i).cancel_handle = true := by
  induction l with
  | nil => intro i0 i; simp [remote_cancel_loop]
  | cons c rest ih =>
    intro i0 i
    have hshift : ∀ conn, (i0 + 1 ≤ i ∧ rest[i - (i0 + 1)]? = some conn) ↔
        (i0 ≤ i ∧ i ≠ i0 ∧ (c :: rest)[i - i0]? = some conn) := by
      intro conn
      constructor
      · rintro ⟨h1, h2⟩
        refine ⟨by omega, by omega, ?_⟩
        have : i - i0 = (i - (i0 + 1)) + 1 := by omega
        rw [this, List.getElem?_cons_succ]; exact h2
      · rintro ⟨h1, h2, h3⟩
        refine ⟨by omega, ?_⟩
        have : i - i0 = (i - (i0 + 1)) + 1 := by omega
        rw [this, List.getElem?_cons_succ] at h3; exact h3
    have hrest : i ∈ remote_cancel_loop world (i0 + 1) rest ↔
        ∃ conn, i0 ≤ i ∧ i ≠ i0 ∧ (c :: rest)[i - i0]? = some conn ∧ in_flight conn = true ∧
          (world i).cancel_handle = true := by
      rw [ih (i0 + 1) i]
      constructor
      · rintro ⟨conn, h1, h2, h3, h4⟩
        obtain ⟨a, b, d⟩ := (hshift conn).mp ⟨h1, h2⟩
        exact ⟨conn, a, b, d, h3, h4⟩
      · rintro ⟨conn, h1, h2, h3, h4, h5⟩
        obtain ⟨a, b⟩ := (hshift conn).mpr ⟨h1, h2, h3⟩
        exact ⟨conn, a, b, h4, h5⟩
    have hhead : ∀ conn, (c :: rest)[i0 - i0]? = some conn ↔ conn = c := by
      intro conn; simp [eq_comm]
    simp only [remote_cancel_loop]
    by_cases hidle : c.state = ConnState.C_NONE ∨ c.state = ConnState.C_READY ∨
        c.state = ConnState.C_DONE
    · rw [if_pos hidle, hrest]
      have hnf : in_flight c = false := (not_in_flight_iff c).mpr hidle
      constructor
      · rintro ⟨conn, h1, _, h3, h4, h5⟩; exact ⟨conn, h1, h3, h4, h5⟩
      · rintro ⟨conn, h1, h3, h4, h5⟩
        refine ⟨conn, h1, ?_, h3, h4, h5⟩
        intro heq
        subst heq
        rw [(hhead conn).mp h3, hnf] at h4
        simp at h4
    · rw [if_neg hidle]
      have hfl : in_flight c = true := by
        cases hf : in_flight c with
        | true => rfl
        | false => exact absurd ((not_in_flight_iff c).mp hf) hidle
      by_cases hh : (world i0).cancel_handle = false
      · rw [if_pos hh, hrest]
        constructor
        · rintro ⟨conn, h1, _, h3, h4, h5⟩; exact ⟨conn, h1, h3, h4, h5⟩
        · rintro ⟨conn, h1, h3, h4, h5⟩
          refine ⟨conn, h1, ?_, h3, h4, h5⟩
          intro heq
          subst heq
          rw [hh] at h5
          simp at h5
      · rw [if_neg hh, List.mem_cons, hrest]
        constructor
        · rintro (heq | ⟨conn, h1, _, h3, h4, h5⟩)
          · subst heq
            exact ⟨c, le_refl _, (hhead c).mpr rfl, hfl, by simpa using hh⟩
          · exact ⟨conn, h1, h3, h4, h5⟩
        · rintro ⟨conn, h1, h3, h4, h5⟩
          by_cases heq : i = i0
          · exact Or.inl heq
          · exact Or.inr ⟨conn, h1, heq, h3, h4, h5⟩

theorem remote_cancel_mem (world : Nat → ConnWorld) (cluster : ProxyCluster) (i : Nat) :
    i ∈ remote_cancel world cluster ↔
      ∃ conn, cluster.conn_list[i]? = some conn ∧ in_flight conn = true ∧
        (world i).cancel_handle = true := by
  unfold remote_cancel
  rw [remote_cancel_loop_mem world cluster.conn_list 0 i]
  simp

theorem tag_part_internal (cluster : ProxyCluster) (slot : Nat) (e : ProxyError)
    (h : (tag_part cluster slot).2 = some e) :
    geterrcode e = SqlErrCode.ERRCODE_INTERNAL_ERROR := by
  unfold tag_part at h
  cases hs : cluster.part_map[slot]? with
  | none =>
    simp only [hs, Option.some.injEq] at h
    rw [← h]; rfl
  | some ci =>
    simp only [hs] at h
    by_cases hci : ci < cluster.conn_list.length
    · simp [hci] at h
    · simp only [hci, if_false, Option.some.injEq] at h
      rw [← h]; rfl

theorem tag_hash_loop_internal (htype : Nat) (vals : List (Option Int)) :
    ∀ (cluster : ProxyCluster) (e : ProxyError),
      (tag_hash_loop htype vals cluster).2 = some e →
      geterrcode e = SqlErrCode.ERRCODE_INTERNAL_ERROR := by
  induction vals with
  | nil => intro cluster e h; simp [tag_hash_loop] at h
  | cons x rest ih =>
    intro cluster e h
    cases x with
    | none =>
      simp only [tag_hash_loop, Option.some.injEq] at h
      rw [← h]; rfl
    | some v =>
      simp only [tag_hash_loop] at h
      cases hs : hash_slot htype v cluster.part_mask with
      | none =>
        simp only [hs, Option.some.injEq] at h
        rw [← h]; rfl
      | some slot =>
        simp only [hs] at h
        rcases ht : tag_part cluster slot with ⟨c1, _ | e1⟩
        · simp only [ht] at h
          exact ih c1 e h
        · simp only [ht, Option.some.injEq] at h
          rw [← h]
          exact tag_part_internal cluster slot e1 (by rw [ht])

theorem tag_all_loop_internal :
    ∀ (n i : Nat) (cluster : ProxyCluster) (e : ProxyError),
      (tag_all_loop n i cluster).2 = some e →
      geterrcode e = SqlErrCode.ERRCODE_INTERNAL_ERROR := by
  intro n
  induction n with
  | zero => intro i cluster e h; simp [tag_all_loop] at h
  | succ n ih =>
    intro i cluster e h
    simp only [tag_all_loop] at h
    rcases ht : tag_part cluster i with ⟨c1, _ | e1⟩
    · simp only [ht] at h
      exact ih (i + 1) c1 e h
    · simp only [ht, Option.some.injEq] at h
      rw [← h]
      exact tag_part_internal cluster i e1 (by rw [ht])

/-- Every error of the selection step is an internal error of the proxy. -/
theorem select_internal (sel : SelectInput) (cluster : ProxyCluster) (e : ProxyError)
    (h : (plproxy_exec_select sel cluster).2 = some e) :
    geterrcode e = SqlErrCode.ERRCODE_INTERNAL_ERROR := by
  unfold plproxy_exec_select tag_partitions at h
  cases hrt : sel.run_type with
  | R_HASH =>
    simp only [hrt, tag_hash_partitions] at h
    by_cases herr : sel.spi.err ≠ SPI_OK_SELECT
    · rw [if_pos herr] at h
      simp only [Option.some.injEq] at h
      rw [← h]; rfl
    · rw [if_neg herr] at h
      rcases hl : tag_hash_loop sel.spi.htype sel.spi.vals (plproxy_clean_results cluster) with
        ⟨c1, _ | e1⟩
      · simp only [hl] at h
        split_ifs at h
        · simp only [Option.some.injEq] at h
          rw [← h]; rfl
      · simp only [hl, Option.some.injEq] at h
        rw [← h]
        exact tag_hash_loop_internal _ _ _ e1 (by rw [hl])
  | R_ALL =>
    simp only [hrt] at h
    exact tag_all_loop_internal _ _ _ e h
  | R_ANY =>
    simp only [hrt] at h
    exact tag_part_internal _ _ e h
  | R_EXACT =>
    simp only [hrt] at h
    split_ifs at h
    · simp only [Option.some.injEq] at h
      rw [← h]; rfl
    · exact tag_part_internal _ _ e h
  | R_NONE =>
    simp only [hrt, Option.some.injEq] at h
    rw [← h]; rfl

theorem prepare_args_internal (func : ProxyFunction) (fcinfo : FunctionCallInfo)
    (cf : ProxyConfig) (send_type : ProxyType → Int → Bool → List Char × Int × Int)
    (lookup : List Nat) :
    ∀ (i : Nat) (acc : PreparedArgs) (e : ProxyError),
      prepare_args_loop func fcinfo cf send_type i lookup acc = Except.error e →
      geterrcode e = SqlErrCode.ERRCODE_INTERNAL_ERROR := by
  induction lookup with
  | nil => intro i acc e h; simp [prepare_args_loop] at h
  | cons idx rest ih =>
    intro i acc e h
    simp only [prepare_args_loop] at h
    split at h
    · exact ih _ _ e h
    · split at h
      · simp only [Except.error.injEq] at h
        rw [← h]; rfl
      · exact ih _ _ e h

/-- The two ways through `plproxy_exec`: an internal error before
`remote_execute`, or the exit of `remote_execute` passed on, with cancel
requests from the catch block. -/
theorem plproxy_exec_cases (loc : LocalServer) (func : ProxyFunction)
    (fcinfo : FunctionCallInfo) (world : CallWorld) (cluster : ProxyCluster) :
    (∃ c1 e, plproxy_exec loc func fcinfo world cluster = ⟨c1, Exit.raised e, []⟩ ∧
      geterrcode e = SqlErrCode.ERRCODE_INTERNAL_ERROR) ∨
    (∃ c1 args c2 x,
      plproxy_exec_select
        ⟨func.run_type, func.exact_nr, fcinfo.fn_retset, world.spi, world.random⟩ cluster =
          (c1, none) ∧
      remote_execute loc func args world.exec c1 = (c2, x) ∧
      plproxy_exec loc func fcinfo world cluster =
        ⟨c2, x, catch_cancels world.exec.cancel c2 x⟩) := by
  unfold plproxy_exec
  rcases hsel : plproxy_exec_select
      ⟨func.run_type, func.exact_nr, fcinfo.fn_retset, world.spi, world.random⟩ cluster with
    ⟨c1, _ | e⟩
  · simp only
    cases hargs : prepare_args_loop func fcinfo c1.config world.send_type 0
        func.remote_sql.arg_lookup ⟨[], [], [], false⟩ with
    | error e =>
      exact Or.inl ⟨c1, e, rfl, prepare_args_internal _ _ _ _ _ _ _ e hargs⟩
    | ok prep =>
      simp only
      right
      rcases hex : remote_execute loc func (remote_args prep) world.exec c1 with
        ⟨c2, _ | e | _⟩
      · exact ⟨c1, _, c2, Exit.returned, rfl, hex, rfl⟩
      · refine ⟨c1, _, c2, Exit.raised e, rfl, hex, ?_⟩
        by_cases hc : geterrcode e = SqlErrCode.ERRCODE_QUERY_CANCELED <;>
          simp [catch_cancels, hc]
      · exact ⟨c1, _, c2, Exit.waiting, rfl, hex, rfl⟩
  · exact Or.inl ⟨c1, e, rfl, select_internal _ cluster e (by rw [hsel])⟩

/-- C6 (amended): `plproxy_exec` issues cancel requests only for an error
that carries the query-cancelled code; then every connection still in flight
for which libpq hands out a cancel handle gets one. A fatal error of any other
kind (connect failure, remote error, timeout, internal error) is passed on
without a cancel request. -/
theorem C6_cancel_only_on_cancel (loc : LocalServer) (func : ProxyFunction)
    (fcinfo : FunctionCallInfo) (world : CallWorld) (cluster : ProxyCluster) :
    (∀ e, (plproxy_exec loc func fcinfo world cluster).exit = Exit.raised e →
      geterrcode e ≠ SqlErrCode.ERRCODE_QUERY_CANCELED →
      (plproxy_exec loc func fcinfo world cluster).cancelled = []) ∧
    (∀ e, (plproxy_exec loc func fcinfo world cluster).exit = Exit.raised e →
      geterrcode e = SqlErrCode.ERRCODE_QUERY_CANCELED →
      ∀ i, i ∈ (plproxy_exec loc func fcinfo world cluster).cancelled ↔
        ∃ conn, (plproxy_exec loc func fcinfo world cluster).cluster.conn_list[i]? = some conn ∧
          in_flight conn = true ∧ (world.exec.cancel i).cancel_handle = true) ∧
    ((plproxy_exec loc func fcinfo world cluster).exit ≠ Exit.waiting →
      (∀ e, (plproxy_exec loc func fcinfo world cluster).exit ≠ Exit.raised e) →
      (plproxy_exec loc func fcinfo world cluster).cancelled = []) := by
  rcases plproxy_exec_cases loc func fcinfo world cluster with
    ⟨c1, e1, heq, hcode⟩ | ⟨c1, args, c2, x, -, -, heq⟩
  · rw [heq]
    refine ⟨fun _ _ _ => rfl, ?_, fun _ _ => rfl⟩
    intro e he hc
    simp only [Exit.raised.injEq] at he
    rw [← he, hcode] at hc
    exact absurd hc (by decide)
  · rw [heq]
    refine ⟨?_, ?_, ?_⟩
    · intro e he hc
      simp only at he
      simp [catch_cancels, he, hc]
    · intro e he hc i
      simp only at he
      simp only [catch_cancels, he, hc, if_true]
      exact remote_cancel_mem world.exec.cancel c2 i
    · intro _ hne
      cases x with
      | returned => rfl
      | waiting => rfl
      | raised e => exact absurd rfl (hne e)

/-- C6 counterexample: the connection attempt runs into the connect timeout
while the tagged connection is in `C_CONNECT_WRITE`; `plproxy_exec` raises the
timeout error and sends no cancel request, although libpq would hand out a
cancel handle. -/
theorem C6_timeout_without_cancel :
    (plproxy_exec local_server name_id_func no_fcinfo (call_world slow_connect_world)
      (one_part_cluster timeout_config)).exit = Exit.raised ProxyError.connect_timeout ∧
    (plproxy_exec local_server name_id_func no_fcinfo (call_world slow_connect_world)
      (one_part_cluster timeout_config)).cancelled = [] ∧
    (∀ conn ∈ (plproxy_exec local_server name_id_func no_fcinfo (call_world slow_connect_world)
        (one_part_cluster timeout_config)).cluster.conn_list,
      conn.run_on = true ∧ conn.state = ConnState.C_CONNECT_WRITE) ∧
    (plproxy_exec local_server name_id_func no_fcinfo (call_world slow_connect_world)
      (one_part_cluster timeout_config)).cluster.conn_list.length = 1 ∧
    ((call_world slow_connect_world).exec.cancel 0).cancel_handle = true := by
  decide

/-- C6 witness: on the cancelled round the connection in `C_CONNECT_WRITE`
gets a cancel request; on the timed-out round nobody does. -/
theorem C6_cancel_only_on_cancel_witness :
    (0 ∈ (plproxy_exec local_server name_id_func no_fcinfo (call_world cancelled_world)
      (one_part_cluster timeout_config)).cancelled) ∧
    (plproxy_exec local_server name_id_func no_fcinfo (call_world slow_connect_world)
      (one_part_cluster timeout_config)).cancelled = [] :=
  ⟨((C6_cancel_only_on_cancel local_server name_id_func no_fcinfo (call_world cancelled_world)
      (one_part_cluster timeout_config)).2.1
      (ProxyError.interrupt SqlErrCode.ERRCODE_QUERY_CANCELED) (by decide) rfl 0).mpr
      ⟨connecting_conn, by decide, by decide, by decide⟩,
    (C6_cancel_only_on_cancel local_server name_id_func no_fcinfo (call_world slow_connect_world)
      (one_part_cluster timeout_config)).1 ProxyError.connect_timeout (by decide) (by decide)⟩

/-- C7: cancellation path. When an error with the query-cancelled code is
raised while `remote_execute` is running, `plproxy_exec` leaves the cluster as
`remote_execute` left it, raises that same error, has sent a cancel request on
every tagged connection in `C_CONNECT_WRITE`, `C_CONNECT_READ`, `C_QUERY_WRITE`
or `C_QUERY_READ` (libpq handing out the cancel handle) and none on a
connection in `C_NONE`, `C_READY` or `C_DONE`. -/
theorem C7_cancellation_path (loc : LocalServer) (func : ProxyFunction)
    (fcinfo : FunctionCallInfo) (world : CallWorld) (cluster c1 c2 : ProxyCluster)
    (prep : PreparedArgs) (e : ProxyError)
    (hsel : plproxy_exec_select
      ⟨func.run_type, func.exact_nr, fcinfo.fn_retset, world.spi, world.random⟩ cluster =
        (c1, none))
    (hargs : prepare_args_loop func fcinfo c1.config world.send_type 0
      func.remote_sql.arg_lookup ⟨[], [], [], false⟩ = Except.ok prep)
    (hexec : remote_execute loc func (remote_args prep) world.exec c1 = (c2, Exit.raised e))
    (hcode : geterrcode e = SqlErrCode.ERRCODE_QUERY_CANCELED)
    (hhandle : ∀ i conn, c2.conn_list[i]? = some conn → conn.run_on = true →
      in_flight conn = true → (world.exec.cancel i).cancel_handle = true) :
    (plproxy_exec loc func fcinfo world cluster).cluster = c2 ∧
    (plproxy_exec loc func fcinfo world cluster).exit = Exit.raised e ∧
    (∀ i conn, c2.conn_list[i]? = some conn → conn.run_on = true →
      (conn.state = ConnState.C_CONNECT_WRITE ∨ conn.state = ConnState.C_CONNECT_READ ∨
        conn.state = ConnState.C_QUERY_WRITE ∨ conn.state = ConnState.C_QUERY_READ) →
      i ∈ (plproxy_exec loc func fcinfo world cluster).cancelled) ∧
    (∀ i conn, c2.conn_list[i]? = some conn →
      (conn.state = ConnState.C_NONE ∨ conn.state = ConnState.C_READY ∨
        conn.state = ConnState.C_DONE) →
      i ∉ (plproxy_exec loc func fcinfo world cluster).cancelled) := by
  have heq : plproxy_exec loc func fcinfo world cluster =
      ⟨c2, Exit.raised e, remote_cancel world.exec.cancel c2⟩ := by
    unfold plproxy_exec
    simp only [hsel, hargs, hexec, hcode, if_true]
  rw [heq]
  refine ⟨rfl, rfl, ?_, ?_⟩
  · intro i conn hc hrun hst
    have hfl := (in_flight_iff conn).mpr hst
    exact (remote_cancel_mem world.exec.cancel c2 i).mpr ⟨conn, hc, hfl, hhandle i conn hc hrun hfl⟩
  · intro i conn hc hst hmem
    obtain ⟨conn2, hc2, hfl, -⟩ := (remote_cancel_mem world.exec.cancel c2 i).mp hmem
    rw [hc] at hc2
    have hceq : conn = conn2 := Option.some.inj hc2
    rw [← hceq, (not_in_flight_iff conn).mpr hst] at hfl
    simp at hfl

/-- C7 witness: the query is cancelled while the tagged connection is in
`C_CONNECT_WRITE`: it gets a cancel request and the cancel error is raised. -/
theorem C7_cancellation_path_witness :
    (plproxy_exec local_server name_id_func no_fcinfo (call_world cancelled_world)
      (one_part_cluster timeout_config)).exit =
        Exit.raised (ProxyError.interrupt SqlErrCode.ERRCODE_QUERY_CANCELED) ∧
    0 ∈ (plproxy_exec local_server name_id_func no_fcinfo (call_world cancelled_world)
      (one_part_cluster timeout_config)).cancelled :=
  have h := C7_cancellation_path local_server name_id_func no_fcinfo (call_world cancelled_world)
    (one_part_cluster timeout_config) (one_part_cluster timeout_config)
    { one_part_cluster timeout_config with conn_list := [connecting_conn] }
    ⟨[], [], [], false⟩ (ProxyError.interrupt SqlErrCode.ERRCODE_QUERY_CANCELED)
    (by decide) rfl (by decide) rfl (fun _ _ _ _ _ => rfl)
  ⟨h.2.1, h.2.2.1 0 connecting_conn (by decide) (by decide) (by decide)⟩

/-- C3: exact policy. With run type `R_EXACT`, an index outside
`[0, part_count)` makes `plproxy_exec` fail with "part number out of range",
and the cluster it leaves has no connection tagged (the old tags were cleared
first); an index inside makes the selection step of `plproxy_exec` tag the
connection `part_map[i]` and no other. -/
theorem C3_exact_policy (loc : LocalServer) (func : ProxyFunction) (fcinfo : FunctionCallInfo)
    (world : CallWorld) (cluster : ProxyCluster) (hrt : func.run_type = RunType.R_EXACT) :
    ((func.exact_nr < 0 ∨ func.exact_nr ≥ cluster.part_count) →
      (plproxy_exec loc func fcinfo world cluster).exit =
        Exit.raised ProxyError.part_out_of_range ∧
      (plproxy_exec loc func fcinfo world cluster).cancelled = [] ∧
      ∀ j, is_tagged (plproxy_exec loc func fcinfo world cluster).cluster j = false) ∧
    ((0 ≤ func.exact_nr ∧ func.exact_nr < cluster.part_count) → part_map_valid cluster →
      ∃ ci, cluster.part_map[func.exact_nr.toNat]? = some ci ∧ ci < cluster.conn_count ∧
        (plproxy_exec_select
          ⟨func.run_type, func.exact_nr, fcinfo.fn_retset, world.spi, world.random⟩
          cluster).2 = none ∧
        ∀ j, is_tagged (plproxy_exec_select
          ⟨func.run_type, func.exact_nr, fcinfo.fn_retset, world.spi, world.random⟩
          cluster).1 j = true ↔ j = ci) := by
  constructor
  · intro hout
    have hout2 : func.exact_nr < 0 ∨
        func.exact_nr ≥ (plproxy_clean_results cluster).part_count := hout
    have hsel : plproxy_exec_select
        ⟨func.run_type, func.exact_nr, fcinfo.fn_retset, world.spi, world.random⟩ cluster =
        (plproxy_clean_results cluster, some ProxyError.part_out_of_range) := by
      simp only [plproxy_exec_select, tag_partitions, hrt, if_pos hout2]
    have heq : plproxy_exec loc func fcinfo world cluster =
        ⟨plproxy_clean_results cluster, Exit.raised ProxyError.part_out_of_range, []⟩ := by
      unfold plproxy_exec
      simp only [hsel]
    rw [heq]
    exact ⟨rfl, rfl, is_tagged_clean cluster⟩
  · intro hin hv
    have hlen : func.exact_nr.toNat < cluster.part_map.length := by
      have := hv.1
      omega
    obtain ⟨ci, hci, hlt⟩ := part_map_entry cluster hv _ hlen
    have hnot : ¬ (func.exact_nr < 0 ∨
        func.exact_nr ≥ (plproxy_clean_results cluster).part_count) := by
      show ¬ (func.exact_nr < 0 ∨ func.exact_nr ≥ cluster.part_count)
      omega
    have hlt2 : ci < (plproxy_clean_results cluster).conn_list.length := by
      simpa [plproxy_clean_results] using hlt
    have htag := tag_part_ok (plproxy_clean_results cluster) func.exact_nr.toNat ci hci hlt2
    refine ⟨ci, hci, hlt, ?_, ?_⟩
    · simp only [plproxy_exec_select, tag_partitions, hrt, if_neg hnot, htag]
    · intro j
      simp only [plproxy_exec_select, tag_partitions, hrt, if_neg hnot, htag]
      exact is_tagged_modify _ ci j hlt2 (is_tagged_clean cluster)

/-- C3 witness: index 5 on four partitions fails and tags nothing; index 2
tags connection 2 only. -/
theorem C3_exact_policy_witness :
    ((plproxy_exec local_server (exact_func 5) no_fcinfo (call_world complete_world)
        four_part_cluster).exit = Exit.raised ProxyError.part_out_of_range ∧
      ∀ j, is_tagged (plproxy_exec local_server (exact_func 5) no_fcinfo
        (call_world complete_world) four_part_cluster).cluster j = false) ∧
    ∃ ci, four_part_cluster.part_map[(exact_func 2).exact_nr.toNat]? = some ci ∧
      ci < four_part_cluster.conn_count ∧
      ∀ j, is_tagged (plproxy_exec_select
        ⟨(exact_func 2).run_type, (exact_func 2).exact_nr, no_fcinfo.fn_retset,
          (call_world complete_world).spi, (call_world complete_world).random⟩
        four_part_cluster).1 j = true ↔ j = ci :=
  have h5 := (C3_exact_policy local_server (exact_func 5) no_fcinfo (call_world complete_world)
    four_part_cluster rfl).1 (Or.inr (by decide))
  have h2 := (C3_exact_policy local_server (exact_func 2) no_fcinfo (call_world complete_world)
    four_part_cluster rfl).2 (by decide) (by decide)
  ⟨⟨h5.1, h5.2.2⟩, h2.imp (fun _ h => ⟨h.1, h.2.1, h.2.2.2⟩)⟩

/-! ### Connection state machine (`execute.c`) -/

/-- C17: timeout check. `check_timeouts` raises exactly when the connection is
connecting, `connect_timeout` is positive and more than `connect_timeout`
seconds have passed since `connect_time` (error "connect timeout"), or it is in
a query, `query_timeout` is positive and more than `query_timeout` seconds
have passed since `query_time` (error "query timeout"). It never raises for
`C_NONE`, `C_READY` or `C_DONE`. The connection is only read: the function
yields nothing but the error. -/
theorem C17_check_timeouts (cf : ProxyConfig) (conn : ProxyConnection) (now : Int) :
    (check_timeouts cf conn now ≠ none ↔
      ((conn.state = ConnState.C_CONNECT_READ ∨ conn.state = ConnState.C_CONNECT_WRITE) ∧
        cf.connect_timeout > 0 ∧ now - conn.connect_time > cf.connect_timeout) ∨
      ((conn.state = ConnState.C_QUERY_READ ∨ conn.state = ConnState.C_QUERY_WRITE) ∧
        cf.query_timeout > 0 ∧ now - conn.query_time > cf.query_timeout)) ∧
    ((conn.state = ConnState.C_NONE ∨ conn.state = ConnState.C_READY ∨
        conn.state = ConnState.C_DONE) → check_timeouts cf conn now = none) ∧
    (∀ e, check_timeouts cf conn now = some e →
      (e = ProxyError.connect_timeout ∧
        (conn.state = ConnState.C_CONNECT_READ ∨ conn.state = ConnState.C_CONNECT_WRITE)) ∨
      (e = ProxyError.query_timeout ∧
        (conn.state = ConnState.C_QUERY_READ ∨ conn.state = ConnState.C_QUERY_WRITE))) := by
  unfold check_timeouts
  cases hs : conn.state <;> simp only [reduceCtorEq, false_or, or_false, false_and, and_false,
    or_self, true_and, ne_eq, not_true_eq_false, false_iff, not_false_eq_true, implies_true,
    true_or, or_true, IsEmpty.forall_iff, and_true, forall_const]
  all_goals (split_ifs <;> simp <;> omega)

theorem idle_poll_loop_eq (cw : ConnWorld) (n : Nat) :
    idle_poll_loop cw n = idle_poll_loop cw 0 := by
  induction n with
  | zero => rfl
  | succ n ih => simp only [idle_poll_loop]; exact ih

/-- C12 (amended): liveness check. For a connection whose transport status is
OK, `check_old_conn` reports "drop" exactly when the lifetime is configured
(positive) and the age `now - connect_time` has reached it, or when the
connection has been idle (`now - query_time`) for at least
`PLPROXY_IDLE_CONN_CHECK` seconds and `poll` finds its socket readable. It
reports "live" when the age is below the lifetime and the connection has been
idle for less than the grace window (the socket is then not looked at) or the
socket is not readable; it raises when that `poll` fails. -/
theorem C12_check_old_conn (cf : ProxyConfig) (cw : ConnWorld) (conn : ProxyConnection)
    (now : Int) (hstatus : cw.status_ok = true) :
    (check_old_conn cf cw conn now = Except.ok false ↔
      (cf.connection_lifetime > 0 ∧ now - conn.connect_time ≥ cf.connection_lifetime) ∨
      (now - conn.query_time ≥ PLPROXY_IDLE_CONN_CHECK ∧ cw.idle_poll > 0)) ∧
    (check_old_conn cf cw conn now = Except.ok true ↔
      ¬ (cf.connection_lifetime > 0 ∧ now - conn.connect_time ≥ cf.connection_lifetime) ∧
      (now - conn.query_time < PLPROXY_IDLE_CONN_CHECK ∨ cw.idle_poll = 0)) ∧
    (check_old_conn cf cw conn now = Except.error ProxyError.check_old_conn_failed ↔
      ¬ (cf.connection_lifetime > 0 ∧ now - conn.connect_time ≥ cf.connection_lifetime) ∧
      now - conn.query_time ≥ PLPROXY_IDLE_CONN_CHECK ∧ cw.idle_poll < 0) := by
  unfold check_old_conn
  rw [idle_poll_loop_eq]
  simp only [hstatus, idle_poll_loop]
  by_cases hA : cf.connection_lifetime > 0 ∧ now - conn.connect_time ≥ cf.connection_lifetime
  · simp [hA]
  · by_cases hB : now - conn.query_time < PLPROXY_IDLE_CONN_CHECK
    · have hB2 : ¬ (now - conn.query_time ≥ PLPROXY_IDLE_CONN_CHECK) := by omega
      simp [hA, hB, hB2]
    · have hB2 : now - conn.query_time ≥ PLPROXY_IDLE_CONN_CHECK := by omega
      by_cases hC : cw.idle_poll > 0
      · have hC2 : ¬ cw.idle_poll = 0 := by omega
        have hC3 : ¬ cw.idle_poll < 0 := by omega
        simp [hA, hB, hB2, hC, hC2, hC3]
      · by_cases hD : cw.idle_poll < 0
        · have hD2 : ¬ cw.idle_poll = 0 := by omega
          simp [hA, hB, hB2, hC, hD, hD2]
        · have hD2 : cw.idle_poll = 0 := by omega
          simp [hA, hB, hB2, hD2]

/-- C12 witness: status OK, no lifetime configured, idle for 1000 seconds and
the socket readable: the connection is dropped. -/
theorem C12_check_old_conn_witness :
    check_old_conn default_config (readable_conn_world 1000) ready_conn 1000 =
      Except.ok false :=
  (C12_check_old_conn default_config (readable_conn_world 1000) ready_conn 1000 rfl).1.mpr
    (Or.inr (by decide))

/-- C12 counterexample: a connection used in the same second (idle for 0
seconds, less than any positive grace window) whose socket is readable is
reported live; the same connection idle for 1000 seconds is dropped. -/
theorem C12_recent_conn_not_polled :
    (readable_conn_world 0).status_ok = true ∧
    default_config.connection_lifetime = 0 ∧
    (0 : Int) - ready_conn.query_time < PLPROXY_IDLE_CONN_CHECK ∧
    (readable_conn_world 0).idle_poll > 0 ∧
    check_old_conn default_config (readable_conn_world 0) ready_conn 0 = Except.ok true ∧
    ¬ ((1000 : Int) - ready_conn.query_time < PLPROXY_IDLE_CONN_CHECK) ∧
    check_old_conn default_config (readable_conn_world 1000) ready_conn 1000 =
      Except.ok false := by
  refine ⟨rfl, rfl, by decide, by decide, rfl, by decide, rfl⟩

/-- What launching a new connection leaves: never `C_READY`, `connect_time` is
the current time, and without error the state is `C_CONNECT_WRITE` on the
handle that `PQconnectStart` returned. -/
theorem launch_conn_spec (cw : ConnWorld) (conn : ProxyConnection) :
    (launch_conn cw conn).1.connect_time = cw.prep_now ∧
    ((launch_conn cw conn).1.state = conn.state ∨
      (launch_conn cw conn).1.state = ConnState.C_CONNECT_WRITE) ∧
    ((launch_conn cw conn).2 = none →
      (launch_conn cw conn).1.state = ConnState.C_CONNECT_WRITE ∧
      ∃ db, cw.connect_start = some (db, false) ∧ (launch_conn cw conn).1.db = some db) := by
  unfold launch_conn
  cases hcs : cw.connect_start with
  | none => simp
  | some p =>
    obtain ⟨db, bad⟩ := p
    cases bad <;> simp

theorem check_old_conn_expired (cf : ProxyConfig) (cw : ConnWorld) (conn : ProxyConnection)
    (now : Int) (hl : cf.connection_lifetime > 0)
    (hage : now - conn.connect_time > cf.connection_lifetime) :
    check_old_conn cf cw conn now = Except.ok false := by
  unfold check_old_conn
  by_cases hs : cw.status_ok = false
  · simp [hs]
  · have hA : cf.connection_lifetime > 0 ∧ now - conn.connect_time ≥ cf.connection_lifetime :=
      ⟨hl, by omega⟩
    simp [hs, hA]

theorem dot_components_cons (c : Char) (rest : List Char) (hc : c ≠ '.') :
    ∃ h t, dot_components rest = h :: t ∧ dot_components (c :: rest) = (c :: h) :: t := by
  have hne : ∀ s : List Char, dot_components s ≠ [] := by
    intro s
    cases s with
    | nil => simp [dot_components]
    | cons x xs =>
      simp only [dot_components]
      split_ifs
      · simp
      · split <;> simp
  cases hd : dot_components rest with
  | nil => exact absurd hd (hne rest)
  | cons h t => exact ⟨h, t, rfl, by simp [dot_components, hc, hd]⟩

theorem dot_components_dot (rest : List Char) :
    dot_components ('.' :: rest) = [] :: dot_components rest := by
  simp [dot_components]

theorem dot_components_nil : dot_components [] = [[]] := rfl

/-- After the first dot, the loop compares the component that is left. -/
theorem cmp_branch_loop_succ (d : Nat) (a : List Char) :
    ∀ b : List Char, cmp_branch_loop (d + 1) a b = true ↔
      (dot_components a).take 1 = (dot_components b).take 1 := by
  induction a with
  | nil =>
    intro b
    cases b with
    | nil => simp [cmp_branch_loop]
    | cons y ys =>
      by_cases hy : y = '.'
      · subst hy
        rw [dot_components_dot, dot_components_nil]
        simp [cmp_branch_loop]
      · obtain ⟨h, t, _, h2⟩ := dot_components_cons y ys hy
        rw [h2, dot_components_nil]
        simp [cmp_branch_loop, hy]
  | cons x xs ih =>
    intro b
    cases b with
    | nil =>
      by_cases hx : x = '.'
      · subst hx
        rw [dot_components_dot, dot_components_nil]
        simp [cmp_branch_loop]
      · obtain ⟨h, t, _, h2⟩ := dot_components_cons x xs hx
        rw [h2, dot_components_nil]
        simp [cmp_branch_loop, hx]
    | cons y ys =>
      by_cases hxy : x = y
      · subst hxy
        by_cases hx : x = '.'
        · subst hx
          rw [dot_components_dot, dot_components_dot]
          simp [cmp_branch_loop]
        · obtain ⟨h, t, h1, h2⟩ := dot_components_cons x xs hx
          obtain ⟨h', t', h1', h2'⟩ := dot_components_cons x ys hx
          have := ih ys
          simp only [cmp_branch_loop, hx, h2, h2', ne_eq, not_true_eq_false, if_false]
          rw [this, h1, h1']
          simp
      · by_cases hx : x = '.'
        · subst hx
          have hy : y ≠ '.' := fun h => hxy h.symm
          obtain ⟨h', t', _, h2'⟩ := dot_components_cons y ys hy
          simp [cmp_branch_loop, hxy, dot_components_dot, h2']
        · obtain ⟨h, t, _, h2⟩ := dot_components_cons x xs hx
          by_cases hy : y = '.'
          · subst hy
            simp [cmp_branch_loop, hxy, dot_components_dot, h2]
          · obtain ⟨h', t', _, h2'⟩ := dot_components_cons y ys hy
            simp [cmp_branch_loop, hxy, h2, h2']

/-- From the start, the loop compares the first two components. -/
theorem cmp_branch_loop_zero (a : List Char) :
    ∀ b : List Char, cmp_branch_loop 0 a b = true ↔ branch_of a = branch_of b := by
  unfold branch_of
  induction a with
  | nil =>
    intro b
    cases b with
    | nil => simp [cmp_branch_loop]
    | cons y ys =>
      by_cases hy : y = '.'
      · subst hy
        obtain ⟨h, t, h1⟩ : ∃ h t, dot_components ys = h :: t := by
          cases ys with
          | nil => exact ⟨_, _, rfl⟩
          | cons z zs =>
            by_cases hz : z = '.'
            · subst hz; exact ⟨_, _, dot_components_dot zs⟩
            · obtain ⟨h, t, _, h2⟩ := dot_components_cons z zs hz
              exact ⟨_, _, h2⟩
        rw [dot_components_dot, h1, dot_components_nil]
        simp [cmp_branch_loop]
      · obtain ⟨h, t, _, h2⟩ := dot_components_cons y ys hy
        rw [h2, dot_components_nil]
        simp [cmp_branch_loop, hy]
  | cons x xs ih =>
    intro b
    cases b with
    | nil =>
      by_cases hx : x = '.'
      · subst hx
        obtain ⟨h, t, h1⟩ : ∃ h t, dot_components xs = h :: t := by
          cases xs with
          | nil => exact ⟨_, _, rfl⟩
          | cons z zs =>
            by_cases hz : z = '.'
            · subst hz; exact ⟨_, _, dot_components_dot zs⟩
            · obtain ⟨h, t, _, h2⟩ := dot_components_cons z zs hz
              exact ⟨_, _, h2⟩
        rw [dot_components_dot, h1, dot_components_nil]
        simp [cmp_branch_loop]
      · obtain ⟨h, t, _, h2⟩ := dot_components_cons x xs hx
        rw [h2, dot_components_nil]
        simp [cmp_branch_loop, hx]
    | cons y ys =>
      by_cases hxy : x = y
      · subst hxy
        by_cases hx : x = '.'
        · subst hx
          have := cmp_branch_loop_succ 0 xs ys
          simp only [Nat.zero_add] at this
          simp only [cmp_branch_loop, ne_eq, not_true_eq_false, if_false, if_true,
            dot_components_dot]
          rw [this]
          simp [List.take_succ_cons]
        · obtain ⟨h, t, h1, h2⟩ := dot_components_cons x xs hx
          obtain ⟨h', t', h1', h2'⟩ := dot_components_cons x ys hx
          have := ih ys
          simp only [cmp_branch_loop, hx, h2, h2', ne_eq, not_true_eq_false, if_false]
          rw [this, h1, h1']
          simp [List.take_succ_cons]
      · by_cases hx : x = '.'
        · subst hx
          have hy : y ≠ '.' := fun h => hxy h.symm
          obtain ⟨h', t', _, h2'⟩ := dot_components_cons y ys hy
          simp [cmp_branch_loop, hxy, dot_components_dot, h2', List.take_succ_cons]
        · obtain ⟨h, t, _, h2⟩ := dot_components_cons x xs hx
          by_cases hy : y = '.'
          · subst hy
            simp [cmp_branch_loop, hxy, dot_components_dot, h2, List.take_succ_cons]
          · obtain ⟨h', t', _, h2'⟩ := dot_components_cons y ys hy
            simp [cmp_branch_loop, hxy, h2, h2', List.take_succ_cons]

theorem c_char_at_lt (s : List Char) (i : Nat) (h : i < s.length) :
    c_char_at s i = some s[i] ∧ s.drop i = s[i] :: s.drop (i + 1) := by
  refine ⟨?_, List.drop_eq_getElem_cons h⟩
  simp [c_char_at, h, List.getElem?_eq_getElem h]

theorem c_char_at_end (s : List Char) (i : Nat) (h : i = s.length) :
    c_char_at s i = some NUL ∧ s.drop i = [] := by
  subst h
  simp [c_char_at]

theorem NUL_ne_dot : NUL ≠ '.' := by decide

/-- On strings without NUL the loop with explicit indices reads no character
beyond a terminator and computes what the loop over the remainders computes. -/
theorem cmp_branch_idx_eq (a b : List Char) (ha : NUL ∉ a) (hb : NUL ∉ b) :
    ∀ (fuel i dot : Nat), i ≤ a.length → i ≤ b.length →
      max a.length b.length + 1 ≤ fuel + i →
      cmp_branch_idx a b fuel i dot = some (cmp_branch_loop dot (a.drop i) (b.drop i)) := by
  intro fuel
  induction fuel with
  | zero =>
    intro i dot hia hib hf
    have : a.length ≤ max a.length b.length := le_max_left _ _
    omega
  | succ fuel ih =>
    intro i dot hia hib hf
    simp only [cmp_branch_idx]
    rcases Nat.lt_or_ge i a.length with hla | hla
    · obtain ⟨hca, hda⟩ := c_char_at_lt a i hla
      have hnul_a : a[i] ≠ NUL := fun h => ha (h ▸ List.getElem_mem hla)
      rcases Nat.lt_or_ge i b.length with hlb | hlb
      · obtain ⟨hcb, hdb⟩ := c_char_at_lt b i hlb
        have hnul_b : b[i] ≠ NUL := fun h => hb (h ▸ List.getElem_mem hlb)
        rw [hca, hcb, hda, hdb]
        simp only [hnul_a, hnul_b, false_and, and_false, if_false, cmp_branch_loop]
        by_cases hab : a[i] = b[i]
        · simp only [hab, ne_eq, not_true_eq_false, if_false]
          by_cases hdot : b[i] = '.'
          · simp only [hdot, if_true]
            by_cases hd : dot = 0
            · simp only [hd, ne_eq, not_true_eq_false, if_false]
              exact ih (i + 1) (0 + 1) (by omega) (by omega) (by omega)
            · simp [hd]
          · simp only [hdot, if_false]
            exact ih (i + 1) dot (by omega) (by omega) (by omega)
        · simp [hab]
      · obtain ⟨hcb, hdb⟩ := c_char_at_end b i (by omega)
        rw [hca, hcb, hda, hdb]
        simp only [hnul_a, false_and, and_false, if_false, cmp_branch_loop, and_true, true_and]
        by_cases hd : dot ≠ 0 ∧ a[i] = '.'
        · simp [hd]
        · have hd2 : ¬ (dot ≠ 0 ∧ NUL = '.') := fun h => NUL_ne_dot h.2
          simp [hd, hd2, hnul_a]
    · obtain ⟨hca, hda⟩ := c_char_at_end a i (by omega)
      rcases Nat.lt_or_ge i b.length with hlb | hlb
      · obtain ⟨hcb, hdb⟩ := c_char_at_lt b i hlb
        have hnul_b : b[i] ≠ NUL := fun h => hb (h ▸ List.getElem_mem hlb)
        rw [hca, hcb, hda, hdb]
        simp only [hnul_b, false_and, and_false, if_false, cmp_branch_loop, and_true, true_and]
        have hd2 : ¬ (dot ≠ 0 ∧ NUL = '.') := fun h => NUL_ne_dot h.2
        have hne : NUL ≠ b[i] := fun h => hnul_b h.symm
        by_cases hd : dot ≠ 0 ∧ b[i] = '.'
        · simp [hd, hd2, NUL_ne_dot]
        · simp [hd, hd2, hne, NUL_ne_dot]
      · obtain ⟨hcb, hdb⟩ := c_char_at_end b i (by omega)
        rw [hca, hcb, hda, hdb]
        simp [cmp_branch_loop]

/-- C15: version-branch comparison. `cmp_branch a b` is true exactly when the
first (at most) two dot-separated components of `a` and of `b` are the same;
so it is reflexive and symmetric; and on NUL-free strings the loop as written
with indices returns that same answer without reading a character beyond the
terminator of either string. -/
theorem C15_cmp_branch (a b : List Char) :
    (cmp_branch a b = true ↔ branch_of a = branch_of b) ∧
    cmp_branch a a = true ∧
    cmp_branch a b = cmp_branch b a ∧
    (NUL ∉ a → NUL ∉ b →
      cmp_branch_idx a b (max a.length b.length + 1) 0 0 = some (cmp_branch a b)) := by
  have key : ∀ x y : List Char, cmp_branch x y = true ↔ branch_of x = branch_of y :=
    fun x y => cmp_branch_loop_zero x y
  refine ⟨key a b, (key a a).mpr rfl, ?_, ?_⟩
  · cases h1 : cmp_branch a b with
    | true => exact ((key b a).mpr ((key a b).mp h1).symm).symm
    | false =>
      cases h2 : cmp_branch b a with
      | false => rfl
      | true =>
        have := (key a b).mpr ((key b a).mp h2).symm
        rw [h1] at this
        exact absurd this (by simp)
  · intro ha hb
    have := cmp_branch_idx_eq a b ha hb (max a.length b.length + 1) 0 0 (Nat.zero_le _)
      (Nat.zero_le _) (by omega)
    simpa [cmp_branch] using this

/-- C15 witness: the examples `8.3.1 ~ 8.3.7`, `8.3 ~ 8.3.1`, and `8.3`
against `8.30`, read with indices. -/
theorem C15_cmp_branch_witness :
    cmp_branch_idx ['8', '.', '3', '.', '1'] ['8', '.', '3', '.', '7'] 6 0 0 = some true ∧
    cmp_branch_idx ['8', '.', '3'] ['8', '.', '3', '.', '1'] 6 0 0 = some true ∧
    cmp_branch_idx ['8', '.', '3'] ['8', '.', '3', '0'] 5 0 0 = some false ∧
    cmp_branch ['8'] ['8', '.', '3'] = false :=
  ⟨(C15_cmp_branch ['8', '.', '3', '.', '1'] ['8', '.', '3', '.', '7']).2.2.2
      (by decide) (by decide),
    (C15_cmp_branch ['8', '.', '3'] ['8', '.', '3', '.', '1']).2.2.2 (by decide) (by decide),
    (C15_cmp_branch ['8', '.', '3'] ['8', '.', '3', '0']).2.2.2 (by decide) (by decide),
    by decide⟩

/-! ### Tuning handshake (`tune_connection`, `send_query`) -/

theorem tune_sql_mismatch (loc : LocalServer) (cw : ConnWorld) (h : encoding_mismatch loc cw) :
    (match cw.client_encoding with
      | some dst_enc => if loc.encoding ≠ dst_enc then some (tuning_sql loc.encoding) else none
      | none => none) = some (tuning_sql loc.encoding) := by
  obtain ⟨e, he, hne⟩ := h
  simp [he, hne]

theorem tune_sql_match (loc : LocalServer) (cw : ConnWorld) (h : ¬ encoding_mismatch loc cw) :
    (match cw.client_encoding with
      | some dst_enc => if loc.encoding ≠ dst_enc then some (tuning_sql loc.encoding) else none
      | none => none) = none := by
  cases he : cw.client_encoding with
  | none => rfl
  | some e =>
    by_cases hne : loc.encoding = e
    · simp [hne]
    · exact absurd ⟨e, he, hne⟩ h

/-- The three cases of `tune_connection` on a connection with a handle. -/
theorem tune_connection_cases (loc : LocalServer) (cw : ConnWorld) (conn : ProxyConnection)
    (d : PGconn) (v : List Char) (hdb : conn.db = some d) (hver : cw.server_version = some v) :
    (encoding_mismatch loc cw → conn.tuning = true →
      tune_connection loc cw conn =
        ({ conn with same_ver := cmp_branch v loc.pg_version },
          some ProxyError.conn_error_tuning, 0)) ∧
    (encoding_mismatch loc cw → conn.tuning = false →
      (tune_connection loc cw conn).1.tuning = true ∧
      ((tune_connection loc cw conn).2.1 = none ↔
        (cw.send_query_res ≠ 0 ∧ cw.send_flush ≥ 0)) ∧
      ((tune_connection loc cw conn).2.1 = none →
        (tune_connection loc cw conn).1.db =
          some (sent_one d (RemoteStmt.simple (tuning_sql loc.encoding))) ∧
        ((tune_connection loc cw conn).1.state = ConnState.C_QUERY_WRITE ∨
          (tune_connection loc cw conn).1.state = ConnState.C_QUERY_READ) ∧
        (tune_connection loc cw conn).2.2 = 1) ∧
      ((tune_connection loc cw conn).1.db = some d ∨
        (tune_connection loc cw conn).1.db =
          some (sent_one d (RemoteStmt.simple (tuning_sql loc.encoding))))) ∧
    (¬ encoding_mismatch loc cw →
      tune_connection loc cw conn =
        ({ conn with same_ver := cmp_branch v loc.pg_version, tuning := false }, none, 0)) := by
  refine ⟨?_, ?_, ?_⟩
  · intro hm ht
    unfold tune_connection
    simp only [hver, tune_sql_mismatch loc cw hm, ht, if_true]
  · intro hm ht
    unfold tune_connection
    simp only [hver, tune_sql_mismatch loc cw hm, ht]
    by_cases hs : cw.send_query_res = 0
    · simp [hs, hdb]
    · simp only [hs, if_false, Bool.false_eq_true]
      unfold flush_connection
      by_cases h1 : cw.send_flush > 0
      · have h1' : cw.send_flush ≥ 0 := by omega
        simp [h1, h1', pq_send, hdb, sent_one, hs]
      · by_cases h2 : cw.send_flush = 0
        · simp [h2, pq_send, hdb, sent_one, hs]
        · have h3 : ¬ cw.send_flush ≥ 0 := by omega
          simp [h1, h2, h3, pq_send, hdb, sent_one]
  · intro hm
    unfold tune_connection
    simp only [hver, tune_sql_match loc cw hm]

theorem flush_connection_frame (res : Int) (conn : ProxyConnection) :
    (flush_connection res conn).1 = { conn with state := (flush_connection res conn).1.state } ∧
    ((flush_connection res conn).2 = none →
      (flush_connection res conn).1.state = ConnState.C_QUERY_WRITE ∨
      (flush_connection res conn).1.state = ConnState.C_QUERY_READ) := by
  unfold flush_connection
  split_ifs <;> simp

theorem another_result_frame (got : Option PGresult) (conn : ProxyConnection) :
    (another_result got conn).1 =
      { conn with state := (another_result got conn).1.state,
                  res := (another_result got conn).1.res } := by
  unfold another_result
  cases got with
  | none => by_cases h : conn.tuning = true <;> simp [h]
  | some r =>
    cases hst : r.status with
    | PGRES_TUPLES_OK => by_cases h : conn.res.isSome = true <;> simp [h, hst]
    | PGRES_COMMAND_OK => simp [hst]
    | PGRES_OTHER => simp [hst]

theorem read_loop_frame (busy : Bool) (rs : List PGresult) :
    ∀ conn : ProxyConnection,
      (read_loop busy rs conn).1 =
        { conn with state := (read_loop busy rs conn).1.state,
                    res := (read_loop busy rs conn).1.res } := by
  induction rs with
  | nil =>
    intro conn
    simp only [read_loop]
    cases busy with
    | true => rfl
    | false =>
      have := another_result_frame none conn
      rcases h : another_result none conn with ⟨c1, e, b⟩
      rw [h] at this
      simpa using this
  | cons r rest ih =>
    intro conn
    simp only [read_loop]
    have h1 := another_result_frame (some r) conn
    rcases h : another_result (some r) conn with ⟨c1, _ | e, b⟩
    · rw [h] at h1
      simp only at h1 ⊢
      have h2 := ih c1
      rw [h2]
      rw [h1]
    · rw [h] at h1
      simpa using h1

/-- The function `handle_conn` changes nothing of the connection but its state
and its result. -/
theorem handle_conn_frame (cw : ConnWorld) (conn : ProxyConnection) :
    (handle_conn cw conn).1 =
      { conn with state := (handle_conn cw conn).1.state,
                  res := (handle_conn cw conn).1.res } := by
  unfold handle_conn
  cases hs : conn.state
  case C_QUERY_WRITE =>
    simp only
    have := (flush_connection_frame cw.handle_flush conn).1
    rw [this]
  case C_QUERY_READ =>
    simp only
    by_cases h : cw.consume_input = 0
    · simp [h]
    · simp only [h, if_false]
      exact read_loop_frame cw.read_busy cw.read_results conn
  case C_CONNECT_READ => simp only; cases cw.connect_poll <;> rfl
  case C_CONNECT_WRITE => simp only; cases cw.connect_poll <;> rfl
  all_goals rfl

/-- When `send_query` returns normally the connection is in `C_QUERY_WRITE` or
`C_QUERY_READ`. -/
theorem send_query_state (loc : LocalServer) (func : ProxyFunction) (cf : ProxyConfig)
    (args : RemoteArgs) (cw : ConnWorld) (conn : ProxyConnection)
    (h : (send_query loc func cf args cw conn).2 = none) :
    (send_query loc func cf args cw conn).1.state = ConnState.C_QUERY_WRITE ∨
    (send_query loc func cf args cw conn).1.state = ConnState.C_QUERY_READ := by
  unfold send_query at h ⊢
  rcases ht : tune_connection loc cw { conn with query_time := cw.send_now } with
    ⟨c1, _ | e, r⟩
  · simp only [ht] at h ⊢
    by_cases htun : c1.tuning = true
    · simp only [htun, if_true] at h ⊢
      -- the tuning statement has just been sent and flushed
      unfold tune_connection at ht
      cases hv : cw.server_version with
      | none => simp [hv] at ht
      | some v =>
        simp only [hv] at ht
        by_cases hm : encoding_mismatch loc cw
        · simp only [tune_sql_mismatch loc cw hm] at ht
          by_cases hold : conn.tuning = true
          · simp [hold] at ht
          · simp only [hold, if_false, Bool.false_eq_true] at ht
            by_cases hs : cw.send_query_res = 0
            · simp [hs] at ht
            · simp only [hs, if_false] at ht
              have hf := (flush_connection_frame cw.send_flush
                (pq_send (RemoteStmt.simple (tuning_sql loc.encoding))
                  { conn with query_time := cw.send_now,
                              same_ver := cmp_branch v loc.pg_version,
                              tuning := true, state := ConnState.C_QUERY_WRITE })).2
              rcases hfl : flush_connection cw.send_flush
                (pq_send (RemoteStmt.simple (tuning_sql loc.encoding))
                  { conn with query_time := cw.send_now,
                              same_ver := cmp_branch v loc.pg_version,
                              tuning := true, state := ConnState.C_QUERY_WRITE }) with ⟨c3, e3⟩
              rw [hfl] at hf ht
              simp only [Prod.mk.injEq] at ht
              obtain ⟨h1, h2, -⟩ := ht
              subst h1
              exact hf h2
        · simp only [tune_sql_match loc cw hm, Prod.mk.injEq] at ht
          rw [← ht.1] at htun
          simp at htun
    · simp only [htun, if_false, Bool.false_eq_true] at h ⊢
      cases hb : binary_result func cf c1 with
      | none => simp [hb] at h
      | some bin =>
        simp only [hb] at h ⊢
        by_cases hs : cw.send_params_res = 0
        · simp [hs] at h
        · simp only [hs, if_false] at h ⊢
          exact (flush_connection_frame _ _).2 h
  · simp [ht] at h

theorem flush_connection_db (res : Int) (conn : ProxyConnection) :
    (flush_connection res conn).1.db = conn.db ∧
    (flush_connection res conn).1.tuning = conn.tuning := by
  have h := (flush_connection_frame res conn).1
  constructor <;> rw [h]

/-- What one call of `send_query` sends on the handle: nothing, the tuning
statement (only when the tuning flag was clear, and the flag is set
afterwards), or the real statement (the flag is clear afterwards). -/
theorem send_query_sent (loc : LocalServer) (func : ProxyFunction) (cf : ProxyConfig)
    (args : RemoteArgs) (cw : ConnWorld) (conn : ProxyConnection) (d : PGconn)
    (hdb : conn.db = some d) :
    (send_query loc func cf args cw conn).1.db = some d ∨
    (conn.tuning = false ∧ (send_query loc func cf args cw conn).1.tuning = true ∧
      (send_query loc func cf args cw conn).1.db =
        some (sent_one d (RemoteStmt.simple (tuning_sql loc.encoding)))) ∨
    (∃ bin, (send_query loc func cf args cw conn).1.tuning = false ∧
      (send_query loc func cf args cw conn).1.db =
        some (sent_one d (RemoteStmt.params func.remote_sql.sql args.values args.plengths
          args.pformats bin))) := by
  have hdb0 : ({ conn with query_time := cw.send_now } : ProxyConnection).db = some d := hdb
  cases hv : cw.server_version with
  | none =>
    left
    unfold send_query tune_connection
    simp [hv, hdb]
  | some v =>
    obtain ⟨hA, hB, hC⟩ := tune_connection_cases loc cw { conn with query_time := cw.send_now }
      d v hdb0 hv
    by_cases hm : encoding_mismatch loc cw
    · by_cases ht : conn.tuning = true
      · left
        have h := hA hm ht
        simp only [send_query, h]
        exact hdb
      · have ht' : conn.tuning = false := by simpa using ht
        obtain ⟨h1, -, -, h4⟩ := hB hm ht'
        have hsq : (send_query loc func cf args cw conn).1 =
            (tune_connection loc cw { conn with query_time := cw.send_now }).1 := by
          simp only [send_query]
          rcases hte : tune_connection loc cw { conn with query_time := cw.send_now } with
            ⟨c1, _ | e, r⟩
          · rw [hte] at h1
            simp only at h1
            simp [h1]
          · rfl
        rw [hsq]
        rcases h4 with h | h
        · exact Or.inl h
        · exact Or.inr (Or.inl ⟨ht', h1, h⟩)
    · have h := hC hm
      simp only [send_query, h, Bool.false_eq_true, if_false]
      cases hb : binary_result func cf
          { conn with query_time := cw.send_now, same_ver := cmp_branch v loc.pg_version,
                      tuning := false } with
      | none => left; exact hdb
      | some bin =>
        simp only
        by_cases hs : cw.send_params_res = 0
        · left; simp [hs, hdb]
        · right; right
          refine ⟨bin, ?_, ?_⟩
          · simp only [hs, if_false]
            rw [(flush_connection_db _ _).2]
            rfl
          · simp only [hs, if_false]
            rw [(flush_connection_db _ _).1]
            simp [pq_send, hdb, sent_one]

/-- C16: the tuning handshake does not loop. On a connection with a handle
and a known remote version: with an encoding mismatch and the tuning flag set
`tune_connection` raises without sending; with a mismatch and the flag clear it
sets the flag and, libpq accepting the statement and the flush, has sent
exactly the one `set client_encoding` statement and left the state
`C_QUERY_WRITE` or `C_QUERY_READ` (in no case more than that one statement);
without mismatch it clears the flag, sends nothing and leaves the state. Hence
between `C_READY` and the real query at most one tuning statement goes out: a
call of `send_query` sends the tuning statement only with the flag clear and
sets it, with the flag set it sends nothing or the real statement, and
`handle_conn` in between touches neither the flag nor the handle. -/
theorem C16_tuning_handshake (loc : LocalServer) (func : ProxyFunction) (cf : ProxyConfig)
    (args : RemoteArgs) (cw cw2 : ConnWorld) (conn : ProxyConnection) (d : PGconn)
    (v : List Char) (hdb : conn.db = some d) (hver : cw.server_version = some v) :
    (encoding_mismatch loc cw → conn.tuning = true →
      (tune_connection loc cw conn).2.1 = some ProxyError.conn_error_tuning ∧
      (tune_connection loc cw conn).1.db = some d ∧
      (tune_connection loc cw conn).1.state = conn.state) ∧
    (encoding_mismatch loc cw → conn.tuning = false →
      (tune_connection loc cw conn).1.tuning = true ∧
      ((tune_connection loc cw conn).2.1 = none ↔
        (cw.send_query_res ≠ 0 ∧ cw.send_flush ≥ 0)) ∧
      ((tune_connection loc cw conn).2.1 = none →
        (tune_connection loc cw conn).1.db =
          some (sent_one d (RemoteStmt.simple (tuning_sql loc.encoding))) ∧
        ((tune_connection loc cw conn).1.state = ConnState.C_QUERY_WRITE ∨
          (tune_connection loc cw conn).1.state = ConnState.C_QUERY_READ)) ∧
      ((tune_connection loc cw conn).1.db = some d ∨
        (tune_connection loc cw conn).1.db =
          some (sent_one d (RemoteStmt.simple (tuning_sql loc.encoding))))) ∧
    (¬ encoding_mismatch loc cw →
      (tune_connection loc cw conn).2.1 = none ∧
      (tune_connection loc cw conn).1.tuning = false ∧
      (tune_connection loc cw conn).1.db = some d ∧
      (tune_connection loc cw conn).1.state = conn.state) ∧
    ((send_query loc func cf args cw conn).1.db = some d ∨
      (conn.tuning = false ∧ (send_query loc func cf args cw conn).1.tuning = true ∧
        (send_query loc func cf args cw conn).1.db =
          some (sent_one d (RemoteStmt.simple (tuning_sql loc.encoding)))) ∨
      (∃ bin, (send_query loc func cf args cw conn).1.tuning = false ∧
        (send_query loc func cf args cw conn).1.db =
          some (sent_one d (RemoteStmt.params func.remote_sql.sql args.values args.plengths
            args.pformats bin)))) ∧
    ((handle_conn cw2 conn).1.tuning = conn.tuning ∧ (handle_conn cw2 conn).1.db = conn.db) := by
  obtain ⟨hA, hB, hC⟩ := tune_connection_cases loc cw conn d v hdb hver
  refine ⟨?_, ?_, ?_, send_query_sent loc func cf args cw conn d hdb, ?_⟩
  · intro hm ht
    rw [hA hm ht]
    exact ⟨rfl, hdb, rfl⟩
  · intro hm ht
    obtain ⟨h1, h2, h3, h4⟩ := hB hm ht
    exact ⟨h1, h2, fun h => ⟨(h3 h).1, (h3 h).2.1⟩, h4⟩
  · intro hm
    rw [hC hm]
    exact ⟨rfl, rfl, hdb, rfl⟩
  · have h := handle_conn_frame cw2 conn
    constructor <;> rw [h]

/-- C16 witness: the remote end reports LATIN1. With the flag clear one `set
client_encoding` statement goes out and the flag is set; with the flag set
the call raises and nothing goes out. -/
theorem C16_tuning_handshake_witness :
    ((tune_connection local_server latin_conn_world ready_conn).1.db =
        some (sent_one ⟨3, []⟩ (RemoteStmt.simple (tuning_sql local_server.encoding))) ∧
      (tune_connection local_server latin_conn_world ready_conn).1.tuning = true) ∧
    ((tune_connection local_server latin_conn_world { ready_conn with tuning := true }).2.1 =
        some ProxyError.conn_error_tuning ∧
      (tune_connection local_server latin_conn_world { ready_conn with tuning := true }).1.db =
        some ⟨3, []⟩) :=
  have h1 := (C16_tuning_handshake local_server name_id_func default_config no_args
    latin_conn_world plain_conn_world ready_conn ⟨3, []⟩ ['8', '.', '3', '.', '1'] rfl rfl).2.1
    (by decide) rfl
  have h2 := (C16_tuning_handshake local_server name_id_func default_config no_args
    latin_conn_world plain_conn_world { ready_conn with tuning := true } ⟨3, []⟩
    ['8', '.', '3', '.', '1'] rfl rfl).1 (by decide) rfl
  ⟨⟨(h1.2.2.1 (h1.2.1.mpr (by decide))).1, h1.1⟩, h2.1, h2.2.1⟩

/-! ## Result draining -/

theorem read_loop_spec (busy : Bool) (rs : List PGresult) : ∀ conn : ProxyConnection,
    ((read_loop busy rs conn).2 = none ↔
      ((∀ r ∈ rs, r.status ≠ ExecStatusType.PGRES_OTHER) ∧
        (row_sets rs).length + (if conn.res.isSome then 1 else 0) ≤ 1)) ∧
    ((read_loop busy rs conn).2 = none →
      (read_loop busy rs conn).1 =
        { conn with
          res := if conn.res.isSome then conn.res else (row_sets rs).head?
          state := if busy then conn.state
                   else if conn.tuning then ConnState.C_READY else ConnState.C_DONE }) ∧
    (∀ e, (read_loop busy rs conn).2 = some e →
      ((e = ProxyError.conn_error_double_result ∧
          2 ≤ (row_sets rs).length + (if conn.res.isSome then 1 else 0)) ∨
        (e = ProxyError.conn_error_remote ∧
          ∃ r ∈ rs, r.status = ExecStatusType.PGRES_OTHER)) ∧
      (read_loop busy rs conn).1.state = conn.state) := by
  induction rs with
  | nil =>
    intro conn
    cases conn with
    | mk connstr db res pos ct qt st ro sv tu =>
      cases busy <;> cases tu <;> cases res <;> simp [read_loop, another_result, row_sets]
  | cons r rest ih =>
    intro conn
    cases hst : r.status with
    | PGRES_OTHER =>
      simp [read_loop, another_result, hst]
    | PGRES_COMMAND_OK =>
      have hrs : row_sets (r :: rest) = row_sets rest := by simp [row_sets, hst]
      obtain ⟨h1, h2, h3⟩ := ih conn
      simp only [read_loop, another_result, hst, hrs]
      refine ⟨?_, h2, ?_⟩
      · rw [h1]
        simp [hst]
      · intro e he
        obtain ⟨h4, h5⟩ := h3 e he
        refine ⟨?_, h5⟩
        rcases h4 with h4 | ⟨h4, r1, hr1, hr2⟩
        · exact Or.inl h4
        · exact Or.inr ⟨h4, r1, List.mem_cons_of_mem _ hr1, hr2⟩
    | PGRES_TUPLES_OK =>
      have hrs : row_sets (r :: rest) = r :: row_sets rest := by simp [row_sets, hst]
      cases hres : conn.res with
      | some r0 =>
        simp [read_loop, another_result, hst, hrs, hres]
      | none =>
        obtain ⟨h1, h2, h3⟩ := ih { conn with res := some r }
        simp only [read_loop, another_result, hst, hrs, hres, Option.isSome_none,
          Bool.false_eq_true, if_false]
        refine ⟨?_, ?_, ?_⟩
        · rw [h1]
          simp [hst]
        · intro h
          rw [h2 h]
          simp
        · intro e he
          obtain ⟨h4, h5⟩ := h3 e he
          refine ⟨?_, h5⟩
          rcases h4 with ⟨h4, h6⟩ | ⟨h4, r1, hr1, hr2⟩
          · left
            refine ⟨h4, ?_⟩
            simp at h6
            simp
            omega
          · exact Or.inr ⟨h4, r1, List.mem_cons_of_mem _ hr1, hr2⟩

/-- C19: result draining in `C_QUERY_READ`. For a connection in `C_QUERY_READ`
with no result captured, input consumed, and any finite list of completed
sub-results: `handle_conn` returns normally exactly when no sub-result has
another status and at most one is a row set; a second row set raises "double
result?", another status raises "remote error", and the state is still
`C_QUERY_READ` at the error. On normal return the command-only sub-results are
gone, the row set (if any) is `res`, nothing else has changed, and the state is
`C_QUERY_READ` while libpq reports busy, otherwise (end of results) `C_READY`
with the tuning flag set and `C_DONE` with the flag clear. -/
theorem C19_result_draining (cw : ConnWorld) (conn : ProxyConnection)
    (hstate : conn.state = ConnState.C_QUERY_READ) (hres : conn.res = none)
    (hinput : cw.consume_input ≠ 0) :
    ((handle_conn cw conn).2 = none ↔
      ((∀ r ∈ cw.read_results, r.status ≠ ExecStatusType.PGRES_OTHER) ∧
        (row_sets cw.read_results).length ≤ 1)) ∧
    ((handle_conn cw conn).2 = none →
      (handle_conn cw conn).1 =
        { conn with
          res := (row_sets cw.read_results).head?
          state := if cw.read_busy then ConnState.C_QUERY_READ
                   else if conn.tuning then ConnState.C_READY else ConnState.C_DONE }) ∧
    (∀ e, (handle_conn cw conn).2 = some e →
      ((e = ProxyError.conn_error_double_result ∧ 2 ≤ (row_sets cw.read_results).length) ∨
        (e = ProxyError.conn_error_remote ∧
          ∃ r ∈ cw.read_results, r.status = ExecStatusType.PGRES_OTHER)) ∧
      (handle_conn cw conn).1.state = ConnState.C_QUERY_READ) := by
  have hh : handle_conn cw conn = read_loop cw.read_busy cw.read_results conn := by
    simp [handle_conn, hstate, hinput]
  obtain ⟨h1, h2, h3⟩ := read_loop_spec cw.read_busy cw.read_results conn
  rw [hh]
  simp only [hres, Option.isSome_none, Bool.false_eq_true, if_false, Nat.add_zero, hstate]
    at h1 h2 h3
  exact ⟨h1, h2, h3⟩

/-- C19 witness: a command-only sub-result, a row set and another command-only
sub-result, then end of results: the row set is captured and the connection is
`C_DONE`. -/
theorem C19_result_draining_witness :
    (handle_conn mixed_conn_world reading_conn).2 = none ∧
    (handle_conn mixed_conn_world reading_conn).1 =
      { reading_conn with
        res := some (two_col_result [[some ['1'], some ['a']]])
        state := ConnState.C_DONE } :=
  have h := C19_result_draining mixed_conn_world reading_conn rfl rfl (by decide)
  have hok : (handle_conn mixed_conn_world reading_conn).2 = none := h.1.mpr (by decide)
  ⟨hok, h.2.1 hok⟩

/-! ## Broadcast tagging -/

theorem tag_all_loop_fold : ∀ (n i : Nat) (cluster : ProxyCluster),
    i + n ≤ cluster.part_map.length →
    (∀ ci ∈ cluster.part_map, ci < cluster.conn_list.length) →
    tag_all_loop n i cluster =
      ((List.range' i n).foldl (fun c s => (tag_part c s).1) cluster, none) := by
  intro n
  induction n with
  | zero => intro i cluster _ _; simp [tag_all_loop]
  | succ n ih =>
    intro i cluster hlen hval
    have hi : i < cluster.part_map.length := by omega
    have hs : cluster.part_map[i]? = some cluster.part_map[i] := List.getElem?_eq_getElem hi
    have hci : cluster.part_map[i] < cluster.conn_list.length :=
      hval _ (List.getElem_mem hi)
    have ht := tag_part_ok cluster i _ hs hci
    simp only [tag_all_loop, ht, List.range'_succ, List.foldl_cons]
    apply ih
    · simpa using (by omega : i + 1 + n ≤ cluster.part_map.length)
    · intro ci hmem
      simpa using hval ci hmem

theorem tag_all_loop_spec : ∀ (n i : Nat) (cluster : ProxyCluster),
    i + n ≤ cluster.part_map.length →
    (∀ ci ∈ cluster.part_map, ci < cluster.conn_list.length) →
    ∃ conns, tag_all_loop n i cluster = ({ cluster with conn_list := conns }, none) ∧
      ∀ j, conns[j]? = (cluster.conn_list[j]?).map (fun c =>
        if j ∈ (cluster.part_map.drop i).take n then { c with run_on := true } else c) := by
  intro n
  induction n with
  | zero =>
    intro i cluster _ _
    refine ⟨cluster.conn_list, by simp [tag_all_loop], ?_⟩
    intro j
    cases cluster.conn_list[j]? <;> simp
  | succ n ih =>
    intro i cluster hlen hval
    have hi : i < cluster.part_map.length := by omega
    have hs : cluster.part_map[i]? = some cluster.part_map[i] := List.getElem?_eq_getElem hi
    have hci : cluster.part_map[i] < cluster.conn_list.length :=
      hval _ (List.getElem_mem hi)
    have ht := tag_part_ok cluster i _ hs hci
    obtain ⟨conns, h1, h2⟩ := ih (i + 1)
      { cluster with conn_list :=
          cluster.conn_list.modify (fun conn => { conn with run_on := true }) cluster.part_map[i] }
      (by simpa using (by omega : i + 1 + n ≤ cluster.part_map.length))
      (by intro ci hmem; simpa using hval ci hmem)
    refine ⟨conns, ?_, ?_⟩
    · simp only [tag_all_loop, ht]
      exact h1
    · intro j
      rw [h2 j]
      have hd : (cluster.part_map.drop i).take (n + 1) =
          cluster.part_map[i] :: (cluster.part_map.drop (i + 1)).take n := by
        rw [List.drop_eq_getElem_cons hi, List.take_succ_cons]
      rw [hd]
      simp only [List.getElem?_modify, List.mem_cons]
      cases hc : cluster.conn_list[j]? with
      | none => simp
      | some c =>
        by_cases hj : cluster.part_map[i] = j
        · simp [hj]
        · have hj2 : ¬ j = cluster.part_map[i] := fun h => hj h.symm
          simp [hj, hj2]

/-- C18 (amended): broadcast policy. On a cluster whose partition map holds
`part_count` valid connection pointers, the selection step of `plproxy_exec`
with run type `R_ALL` succeeds; it is the tagging of the slots
`0, 1, ..., part_count - 1` in ascending order on the cleaned cluster; a
connection is tagged afterwards exactly when one of `part_map[0]`, ...,
`part_map[part_count - 1]` points to it, and every other field is as after
the cleaning. The number of tagged connections is the number of distinct
connections among these map entries; it is `part_count` when the entries
are pairwise distinct. -/
theorem C18_broadcast_policy (sel : SelectInput) (cluster : ProxyCluster)
    (hrun : sel.run_type = RunType.R_ALL) (hvalid : part_map_valid cluster) :
    (plproxy_exec_select sel cluster).2 = none ∧
    (plproxy_exec_select sel cluster).1 =
      (List.range cluster.part_count.toNat).foldl (fun c s => (tag_part c s).1)
        (plproxy_clean_results cluster) ∧
    (∀ j, is_tagged (plproxy_exec_select sel cluster).1 j = true ↔
      j ∈ addressed_conns cluster) ∧
    (plproxy_exec_select sel cluster).1 =
      { plproxy_clean_results cluster with
        conn_list := (plproxy_exec_select sel cluster).1.conn_list } ∧
    (∀ j, (plproxy_exec_select sel cluster).1.conn_list[j]? =
      ((plproxy_clean_results cluster).conn_list[j]?).map (fun c =>
        if j ∈ addressed_conns cluster then { c with run_on := true } else c)) ∧
    (tagged_conns (plproxy_exec_select sel cluster).1).length =
      (addressed_conns cluster).dedup.length ∧
    ((addressed_conns cluster).Nodup →
      (tagged_conns (plproxy_exec_select sel cluster).1).length = cluster.part_count.toNat) := by
  have hlen : 0 + cluster.part_count.toNat ≤ (plproxy_clean_results cluster).part_map.length := by
    simpa [plproxy_clean_results] using hvalid.1
  have hval : ∀ ci ∈ (plproxy_clean_results cluster).part_map,
      ci < (plproxy_clean_results cluster).conn_list.length := by
    intro ci hmem
    simpa [plproxy_clean_results] using hvalid.2 ci hmem
  have hsel : plproxy_exec_select sel cluster =
      tag_all_loop cluster.part_count.toNat 0 (plproxy_clean_results cluster) := by
    simp [plproxy_exec_select, tag_partitions, hrun, plproxy_clean_results]
  have hfold := tag_all_loop_fold _ _ _ hlen hval
  obtain ⟨conns, h1, h2⟩ := tag_all_loop_spec _ _ _ hlen hval
  have h2a : ∀ j, conns[j]? = ((plproxy_clean_results cluster).conn_list[j]?).map (fun c =>
      if j ∈ addressed_conns cluster then { c with run_on := true } else c) := by
    intro j
    rw [h2 j]
    simp [addressed_conns, plproxy_clean_results]
  have htag : ∀ j, is_tagged { plproxy_clean_results cluster with conn_list := conns } j = true ↔
      j ∈ addressed_conns cluster := by
    intro j
    have hclean := is_tagged_clean cluster j
    simp only [is_tagged] at hclean ⊢
    rw [h2a j]
    cases hc : (plproxy_clean_results cluster).conn_list[j]? with
    | none =>
      simp only [Option.map_none', Bool.false_eq_true, false_iff]
      intro hmem
      have hlt : j < (plproxy_clean_results cluster).conn_list.length := by
        apply hval
        simpa [plproxy_clean_results] using List.mem_of_mem_take hmem
      have := List.getElem?_eq_getElem hlt
      rw [hc] at this
      exact Option.noConfusion this
    | some c =>
      rw [hc] at hclean
      simp only at hclean
      by_cases hmem : j ∈ addressed_conns cluster
      · simp [hmem]
      · simp [hmem, hclean]
  have hperm : (tagged_conns { plproxy_clean_results cluster with conn_list := conns }).Perm
      (addressed_conns cluster).dedup := by
    apply (List.perm_ext_iff_of_nodup ?_ (List.nodup_dedup _)).mpr
    · intro j
      simp only [tagged_conns, List.mem_filter, List.mem_range, List.mem_dedup]
      constructor
      · intro h
        exact (htag j).mp h.2
      · intro h
        refine ⟨?_, (htag j).mpr h⟩
        have ht := (htag j).mpr h
        simp only [is_tagged] at ht
        by_contra hge
        rw [List.getElem?_eq_none (by omega)] at ht
        exact Bool.noConfusion ht
    · exact (List.nodup_range _).filter _
  have hcount := hperm.length_eq
  rw [hsel, h1]
  refine ⟨rfl, ?_, htag, rfl, h2a, hcount, ?_⟩
  · rw [← h1, hfold, List.range_eq_range']
  · intro hnd
    rw [hcount, List.Nodup.dedup hnd]
    simp only [addressed_conns, List.length_take]
    exact Nat.min_eq_left hvalid.1

/-- C18 witness: broadcast on three partitions with three connections tags
connections 0, 1 and 2. -/
theorem C18_broadcast_policy_witness :
    part_map_valid three_part_cluster ∧
    (plproxy_exec_select all_select three_part_cluster).2 = none ∧
    (tagged_conns (plproxy_exec_select all_select three_part_cluster).1).length = 3 :=
  have h := C18_broadcast_policy all_select three_part_cluster rfl (by decide)
  ⟨by decide, h.1, h.2.2.2.2.2.2 (by decide)⟩

/-- C18 counterexample: two partitions served by one connection. The broadcast
selection succeeds on a well-formed partition map and tags one connection,
although `part_count` is 2. -/
theorem C18_shared_connection :
    part_map_valid shared_conn_cluster ∧
    shared_conn_cluster.part_count = 2 ∧
    (plproxy_exec_select all_select shared_conn_cluster).2 = none ∧
    tagged_conns (plproxy_exec_select all_select shared_conn_cluster).1 = [0] := by
  decide

/-! ## A round without tagged connection -/

theorem launch_loop_untagged (loc : LocalServer) (func : ProxyFunction) (cf : ProxyConfig)
    (args : RemoteArgs) (world : Nat → ConnWorld) :
    ∀ (conns done : List ProxyConnection) (i : Nat),
      (∀ c ∈ conns, c.run_on = false) →
      launch_loop loc func cf args world i conns done = (done.reverse ++ conns, none) := by
  intro conns
  induction conns with
  | nil => intro done i _; simp [launch_loop]
  | cons c rest ih =>
    intro done i h
    have hc : c.run_on = false := h c (List.mem_cons_self _ _)
    simp only [launch_loop, hc, if_true]
    rw [ih (c :: done) (i + 1) (fun c2 h2 => h c2 (List.mem_cons_of_mem _ h2))]
    simp

/-- Without tagged connection `remote_execute` enters its wait loop with
`pending = 1`, and wakeups of `poll` without event never recompute it. -/
theorem remote_execute_untagged (loc : LocalServer) (func : ProxyFunction) (args : RemoteArgs)
    (world : ExecWorld) (cluster : ProxyCluster)
    (hnone : ∀ c ∈ cluster.conn_list, c.run_on = false)
    (hidle : ∀ w ∈ world.iters, w.interrupt = none ∧
      (w.poll_res = 0 ∨ (w.poll_res < 0 ∧ w.poll_eintr = true))) :
    remote_execute loc func args world cluster = (cluster, Exit.waiting) := by
  unfold remote_execute
  rw [launch_loop_untagged loc func cluster.config args world.launch cluster.conn_list [] 0 hnone]
  have hc : ({ cluster with conn_list := [].reverse ++ cluster.conn_list } : ProxyCluster) =
      cluster := by simp
  simp only [hc]
  rw [wait_loop_idle loc func args world.iters 1 cluster (by decide) hidle]

theorem clean_untagged (cluster : ProxyCluster) :
    ∀ c ∈ (plproxy_clean_results cluster).conn_list, c.run_on = false := by
  intro c hc
  simp only [plproxy_clean_results, List.mem_map] at hc
  obtain ⟨c0, -, rfl⟩ := hc
  rfl

/-- C11 (the code at the failing input): a set-returning call with hash policy
whose key query yields zero rows, on any cluster. The selection succeeds and
tags no connection, so no tagged connection is short of `C_DONE`; but
`remote_execute` starts its wait loop with `pending = 1` and every wakeup of
`poll` on the empty wait set reports zero events, which skips the recount:
after any number `n` of wakeups the call is still in the wait loop and has
not completed. -/
theorem C11_empty_round_keeps_waiting (n : Nat) (cluster : ProxyCluster) :
    (plproxy_exec_select
      ⟨hash_func.run_type, hash_func.exact_nr, retset_fcinfo.fn_retset, (empty_key_world n).spi,
        (empty_key_world n).random⟩ cluster) = (plproxy_clean_results cluster, none) ∧
    (∀ j, is_tagged (plproxy_clean_results cluster) j = false) ∧
    (plproxy_exec local_server hash_func retset_fcinfo (empty_key_world n) cluster).exit =
      Exit.waiting ∧
    (plproxy_exec local_server hash_func retset_fcinfo (empty_key_world n) cluster).cluster =
      plproxy_clean_results cluster := by
  have hsel : plproxy_exec_select
      ⟨hash_func.run_type, hash_func.exact_nr, retset_fcinfo.fn_retset, (empty_key_world n).spi,
        (empty_key_world n).random⟩ cluster = (plproxy_clean_results cluster, none) := by
    simp [plproxy_exec_select, tag_partitions, tag_hash_partitions, tag_hash_loop, hash_func,
      name_id_func, retset_fcinfo, empty_key_world]
  have hidle : ∀ w ∈ (empty_key_world n).exec.iters, w.interrupt = none ∧
      (w.poll_res = 0 ∨ (w.poll_res < 0 ∧ w.poll_eintr = true)) := by
    intro w hw
    have hw2 : w = idle_iter 0 := List.eq_of_mem_replicate hw
    subst hw2
    exact ⟨rfl, Or.inl rfl⟩
  have hrun := fun args => remote_execute_untagged local_server hash_func args
    (empty_key_world n).exec (plproxy_clean_results cluster) (clean_untagged cluster) hidle
  refine ⟨hsel, is_tagged_clean cluster, ?_, ?_⟩
  · unfold plproxy_exec
    rw [hsel]
    simp only
    have hprep : prepare_args_loop hash_func retset_fcinfo (plproxy_clean_results cluster).config
        (empty_key_world n).send_type 0 hash_func.remote_sql.arg_lookup ⟨[], [], [], false⟩ =
        Except.ok ⟨[], [], [], false⟩ := rfl
    rw [hprep]
    simp only
    rw [hrun]
  · unfold plproxy_exec
    rw [hsel]
    simp only
    have hprep : prepare_args_loop hash_func retset_fcinfo (plproxy_clean_results cluster).config
        (empty_key_world n).send_type 0 hash_func.remote_sql.arg_lookup ⟨[], [], [], false⟩ =
        Except.ok ⟨[], [], [], false⟩ := rfl
    rw [hprep]
    simp only
    rw [hrun]

/-! ## The operations of `remote_execute` on one connection -/

theorem steps_from_refl (R : Nat → ProxyConnection → ProxyConnection → Prop)
    (hr : ∀ j c, R j c c) : ∀ (conns : List ProxyConnection) (i : Nat),
    steps_from R i conns conns := by
  intro conns
  induction conns with
  | nil => intro i; simp [steps_from]
  | cons c rest ih => intro i; exact ⟨hr i c, ih (i + 1)⟩

theorem steps_from_trans (R : Nat → ProxyConnection → ProxyConnection → Prop)
    (ht : ∀ j a b c, R j a b → R j b c → R j a c) :
    ∀ (l1 l2 l3 : List ProxyConnection) (i : Nat),
      steps_from R i l1 l2 → steps_from R i l2 l3 → steps_from R i l1 l3 := by
  intro l1
  induction l1 with
  | nil =>
    intro l2 l3 i h12 h23
    cases l2 with
    | nil => exact h23
    | cons b bs => simp [steps_from] at h12
  | cons a as ih =>
    intro l2 l3 i h12 h23
    cases l2 with
    | nil => simp [steps_from] at h12
    | cons b bs =>
      cases l3 with
      | nil => simp [steps_from] at h23
      | cons c cs =>
        exact ⟨ht i a b c h12.1 h23.1, ih bs cs (i + 1) h12.2 h23.2⟩

theorem conn_run_refl (loc : LocalServer) (func : ProxyFunction) (cf : ProxyConfig)
    (args : RemoteArgs) (world : ExecWorld) (j : Nat) (c : ProxyConnection) :
    conn_run loc func cf args world j c c := Relation.ReflTransGen.refl

theorem conn_run_trans (loc : LocalServer) (func : ProxyFunction) (cf : ProxyConfig)
    (args : RemoteArgs) (world : ExecWorld) (j : Nat) (a b c : ProxyConnection)
    (h1 : conn_run loc func cf args world j a b) (h2 : conn_run loc func cf args world j b c) :
    conn_run loc func cf args world j a c := Relation.ReflTransGen.trans h1 h2

theorem conn_run_step (loc : LocalServer) (func : ProxyFunction) (cf : ProxyConfig)
    (args : RemoteArgs) (world : ExecWorld) (j : Nat) (a b : ProxyConnection)
    (h : ConnStep loc func cf args world j a b) : conn_run loc func cf args world j a b :=
  Relation.ReflTransGen.single h

theorem launch_loop_steps (loc : LocalServer) (func : ProxyFunction) (cf : ProxyConfig)
    (args : RemoteArgs) (world : ExecWorld) :
    ∀ (conns done : List ProxyConnection) (i : Nat),
      ∃ out, (launch_loop loc func cf args world.launch i conns done).1 = done.reverse ++ out ∧
        steps_from (conn_run loc func cf args world) i conns out := by
  intro conns
  induction conns with
  | nil => intro done i; exact ⟨[], by simp [launch_loop], by simp [steps_from]⟩
  | cons c rest ih =>
    intro done i
    have hrefl := steps_from_refl (conn_run loc func cf args world)
      (conn_run_refl loc func cf args world)
    by_cases hr : c.run_on = false
    · obtain ⟨out, h1, h2⟩ := ih (c :: done) (i + 1)
      refine ⟨c :: out, ?_, conn_run_refl loc func cf args world i c, h2⟩
      simp only [launch_loop, hr, if_true]
      rw [h1]
      simp
    · have hstep1 : conn_run loc func cf args world i c (prepare_conn cf (world.launch i) c).1 :=
        conn_run_step loc func cf args world i _ _ (ConnStep.prepare c)
      rcases hp : prepare_conn cf (world.launch i) c with ⟨c1, _ | e⟩
      · rw [hp] at hstep1
        simp only at hstep1
        by_cases hs : c1.state = ConnState.C_READY
        · have hstep2 : conn_run loc func cf args world i c1
              (send_query loc func cf args (world.launch i) c1).1 :=
            conn_run_step loc func cf args world i _ _ (ConnStep.send_launch c1 hs)
          have hstep := conn_run_trans loc func cf args world i _ _ _ hstep1 hstep2
          rcases hq : send_query loc func cf args (world.launch i) c1 with ⟨c2, _ | e⟩
          · rw [hq] at hstep
            obtain ⟨out, h1, h2⟩ := ih (c2 :: done) (i + 1)
            refine ⟨c2 :: out, ?_, hstep, h2⟩
            simp only [launch_loop, hr, Bool.true_eq_false, if_false, hp, hs, if_true, hq]
            rw [h1]
            simp
          · rw [hq] at hstep
            refine ⟨c2 :: rest, ?_, hstep, hrefl rest (i + 1)⟩
            simp only [launch_loop, hr, Bool.true_eq_false, if_false, hp, hs, if_true, hq]
        · obtain ⟨out, h1, h2⟩ := ih (c1 :: done) (i + 1)
          refine ⟨c1 :: out, ?_, hstep1, h2⟩
          simp only [launch_loop, hr, Bool.true_eq_false, if_false, hp, hs]
          rw [h1]
          simp
      · rw [hp] at hstep1
        refine ⟨c1 :: rest, ?_, hstep1, hrefl rest (i + 1)⟩
        simp only [launch_loop, hr, Bool.true_eq_false, if_false, hp]

theorem dispatch_loop_steps (loc : LocalServer) (func : ProxyFunction) (cf : ProxyConfig)
    (args : RemoteArgs) (world : ExecWorld) (w : IterWorld) (hw : w ∈ world.iters) :
    ∀ (conns : List ProxyConnection) (pf : List PollFd) (done : List ProxyConnection) (i : Nat),
      ∃ out, (dispatch_loop w.conn i conns pf done).1 = done.reverse ++ out ∧
        steps_from (conn_run loc func cf args world) i conns out := by
  intro conns
  induction conns with
  | nil => intro pf done i; exact ⟨[], by simp [dispatch_loop], by simp [steps_from]⟩
  | cons c rest ih =>
    intro pf done i
    have hrefl := steps_from_refl (conn_run loc func cf args world)
      (conn_run_refl loc func cf args world)
    have hskip : ∀ pf2, ∃ out,
        (dispatch_loop w.conn (i + 1) rest pf2 (c :: done)).1 = done.reverse ++ out ∧
        steps_from (conn_run loc func cf args world) i (c :: rest) out := by
      intro pf2
      obtain ⟨out, h1, h2⟩ := ih pf2 (c :: done) (i + 1)
      refine ⟨c :: out, ?_, conn_run_refl loc func cf args world i c, h2⟩
      rw [h1]
      simp
    by_cases hr : c.run_on = false
    · simp only [dispatch_loop, hr, if_true]
      exact hskip pf
    · by_cases hf : in_flight c = false
      · simp only [dispatch_loop, hr, Bool.true_eq_false, if_false, hf, if_true]
        exact hskip pf
      · cases pf with
        | nil =>
          refine ⟨c :: rest, ?_, conn_run_refl loc func cf args world i c, hrefl rest (i + 1)⟩
          simp only [dispatch_loop, hr, Bool.true_eq_false, if_false, hf]
        | cons entry pf_rest =>
          by_cases he : entry.revents ≠ 0
          · have hstep : conn_run loc func cf args world i c (handle_conn (w.conn i) c).1 :=
              conn_run_step loc func cf args world i _ _ (ConnStep.handle w c hw)
            rcases hh : handle_conn (w.conn i) c with ⟨c1, _ | e⟩
            · rw [hh] at hstep
              obtain ⟨out, h1, h2⟩ := ih pf_rest (c1 :: done) (i + 1)
              refine ⟨c1 :: out, ?_, hstep, h2⟩
              simp only [dispatch_loop, hr, Bool.true_eq_false, if_false, hf]
              rw [if_pos he]
              simp only [hh]
              rw [h1]
              simp
            · rw [hh] at hstep
              refine ⟨c1 :: rest, ?_, hstep, hrefl rest (i + 1)⟩
              simp only [dispatch_loop, hr, Bool.true_eq_false, if_false, hf]
              rw [if_pos he]
              simp only [hh]
          · simp only [dispatch_loop, hr, Bool.true_eq_false, if_false, hf]
            rw [if_neg he]
            exact hskip pf_rest

theorem recheck_loop_steps (loc : LocalServer) (func : ProxyFunction) (cf : ProxyConfig)
    (args : RemoteArgs) (world : ExecWorld) (w : IterWorld) (hw : w ∈ world.iters) :
    ∀ (conns done : List ProxyConnection) (i pending : Nat),
      ∃ out, (recheck_loop loc func cf args w i conns done pending).1 = done.reverse ++ out ∧
        steps_from (conn_run loc func cf args world) i conns out := by
  intro conns
  induction conns with
  | nil => intro done i pending; exact ⟨[], by simp [recheck_loop], by simp [steps_from]⟩
  | cons c rest ih =>
    intro done i pending
    have hrefl := steps_from_refl (conn_run loc func cf args world)
      (conn_run_refl loc func cf args world)
    by_cases hr : c.run_on = false
    · obtain ⟨out, h1, h2⟩ := ih (c :: done) (i + 1) pending
      refine ⟨c :: out, ?_, conn_run_refl loc func cf args world i c, h2⟩
      simp only [recheck_loop, hr, if_true]
      rw [h1]
      simp
    · have key : ∀ c1 e, (if c.state = ConnState.C_READY
            then send_query loc func cf args (w.conn i) c else (c, none)) = (c1, e) →
          conn_run loc func cf args world i c c1 := by
        intro c1 e hsent
        by_cases hs : c.state = ConnState.C_READY
        · rw [if_pos hs] at hsent
          have hstep : conn_run loc func cf args world i c
              (send_query loc func cf args (w.conn i) c).1 :=
            conn_run_step loc func cf args world i _ _ (ConnStep.send_recheck w c hw hs)
          rw [hsent] at hstep
          exact hstep
        · rw [if_neg hs] at hsent
          simp only [Prod.mk.injEq] at hsent
          rw [← hsent.1]
          exact conn_run_refl loc func cf args world i c
      rcases hsent : (if c.state = ConnState.C_READY
            then send_query loc func cf args (w.conn i) c else (c, none)) with ⟨c1, _ | e⟩
      · have hstep := key c1 none hsent
        cases hct : check_timeouts cf c1 w.now with
        | some e =>
          refine ⟨c1 :: rest, ?_, hstep, hrefl rest (i + 1)⟩
          simp only [recheck_loop, hr, Bool.true_eq_false, if_false, hsent, hct]
        | none =>
          obtain ⟨out, h1, h2⟩ := ih (c1 :: done) (i + 1)
            (if c1.state ≠ ConnState.C_DONE then pending + 1 else pending)
          refine ⟨c1 :: out, ?_, hstep, h2⟩
          simp only [recheck_loop, hr, Bool.true_eq_false, if_false, hsent, hct]
          rw [h1]
          simp
      · have hstep := key c1 (some e) hsent
        refine ⟨c1 :: rest, ?_, hstep, hrefl rest (i + 1)⟩
        simp only [recheck_loop, hr, Bool.true_eq_false, if_false, hsent]

theorem poll_conns_steps (loc : LocalServer) (func : ProxyFunction) (cf : ProxyConfig)
    (args : RemoteArgs) (world : ExecWorld) (w : IterWorld) (hw : w ∈ world.iters)
    (cluster : ProxyCluster) :
    (poll_conns w cluster).1.config = cluster.config ∧
    steps_from (conn_run loc func cf args world) 0 cluster.conn_list
      (poll_conns w cluster).1.conn_list := by
  have hrefl := steps_from_refl (conn_run loc func cf args world)
    (conn_run_refl loc func cf args world) cluster.conn_list 0
  unfold poll_conns
  by_cases h0 : w.poll_res = 0
  · rw [if_pos h0]; exact ⟨rfl, hrefl⟩
  · rw [if_neg h0]
    by_cases h1 : w.poll_res < 0 ∧ w.poll_eintr = true
    · rw [if_pos h1]; exact ⟨rfl, hrefl⟩
    · rw [if_neg h1]
      by_cases h2 : w.poll_res < 0
      · rw [if_pos h2]; exact ⟨rfl, hrefl⟩
      · rw [if_neg h2]
        obtain ⟨out, h3, h4⟩ := dispatch_loop_steps loc func cf args world w hw cluster.conn_list
          (store_revents (build_pollfds cluster.conn_list) w.revents) [] 0
        rcases hd : dispatch_loop w.conn 0 cluster.conn_list
          (store_revents (build_pollfds cluster.conn_list) w.revents) [] with ⟨conns, _ | e⟩
        · rw [hd] at h3
          simp only [List.reverse_nil, List.nil_append] at h3
          rw [← h3] at h4
          exact ⟨rfl, h4⟩
        · rw [hd] at h3
          simp only [List.reverse_nil, List.nil_append] at h3
          rw [← h3] at h4
          exact ⟨rfl, h4⟩

theorem wait_loop_steps (loc : LocalServer) (func : ProxyFunction) (args : RemoteArgs)
    (world : ExecWorld) (iters : List IterWorld) :
    (∀ w ∈ iters, w ∈ world.iters) →
    ∀ (pending : Nat) (cluster : ProxyCluster),
      steps_from (conn_run loc func cluster.config args world) 0 cluster.conn_list
        (wait_loop loc func args iters pending cluster).1.conn_list := by
  induction iters with
  | nil =>
    intro _ pending cluster
    have hrefl := steps_from_refl (conn_run loc func cluster.config args world)
      (conn_run_refl loc func cluster.config args world) cluster.conn_list 0
    by_cases h : pending = 0 <;> simp [wait_loop, h, hrefl]
  | cons w rest ih =>
    intro hsub pending cluster
    have hrefl := steps_from_refl (conn_run loc func cluster.config args world)
      (conn_run_refl loc func cluster.config args world) cluster.conn_list 0
    have htrans := steps_from_trans (conn_run loc func cluster.config args world)
      (conn_run_trans loc func cluster.config args world)
    have hw : w ∈ world.iters := hsub w (List.mem_cons_self _ _)
    have ih2 := ih (fun w2 h2 => hsub w2 (List.mem_cons_of_mem _ h2))
    simp only [wait_loop]
    by_cases h : pending = 0
    · simp [h, hrefl]
    · simp only [h, if_false]
      cases w.interrupt with
      | some code => exact hrefl
      | none =>
        obtain ⟨hcf, hp⟩ := poll_conns_steps loc func cluster.config args world w hw cluster
        rcases hpc : poll_conns w cluster with ⟨c1, _ | e, ret⟩
        · rw [hpc] at hcf hp
          simp only at hcf hp ⊢
          by_cases hr : ret = 0
          · simp only [hr, if_true]
            have h3 := ih2 pending c1
            rw [hcf] at h3
            exact htrans _ _ _ 0 hp h3
          · simp only [hr, if_false]
            obtain ⟨out, h4, h5⟩ := recheck_loop_steps loc func c1.config args world w hw
              c1.conn_list [] 0 0
            rcases hrl : recheck_loop loc func c1.config args w 0 c1.conn_list [] 0 with
              ⟨conns, _ | e, p⟩
            · rw [hrl] at h4
              simp only [List.reverse_nil, List.nil_append] at h4
              rw [← h4, hcf] at h5
              simp only
              have h3 := ih2 p { c1 with conn_list := conns }
              have hrun : conn_run loc func c1.config args world =
                  conn_run loc func cluster.config args world := by rw [hcf]
              simp only at h3
              rw [hrun] at h3
              exact htrans _ _ _ 0 hp (htrans _ _ _ 0 h5 h3)
            · rw [hrl] at h4
              simp only [List.reverse_nil, List.nil_append] at h4
              rw [← h4, hcf] at h5
              exact htrans _ _ _ 0 hp h5
        · rw [hpc] at hp
          exact hp

/-- Every connection gets from its value before `remote_execute` to its value
after it by calls of `prepare_conn`, `handle_conn` and `send_query`, the latter
made in state `C_READY` only. -/
theorem remote_execute_steps (loc : LocalServer) (func : ProxyFunction) (args : RemoteArgs)
    (world : ExecWorld) (cluster : ProxyCluster) :
    steps_from (conn_run loc func cluster.config args world) 0 cluster.conn_list
      (remote_execute loc func args world cluster).1.conn_list := by
  have htrans := steps_from_trans (conn_run loc func cluster.config args world)
    (conn_run_trans loc func cluster.config args world)
  obtain ⟨out, h1, h2⟩ := launch_loop_steps loc func cluster.config args world
    cluster.conn_list [] 0
  unfold remote_execute
  rcases hl : launch_loop loc func cluster.config args world.launch 0 cluster.conn_list [] with
    ⟨conns, _ | e⟩
  · rw [hl] at h1
    simp only [List.reverse_nil, List.nil_append] at h1
    rw [← h1] at h2
    have h3 := wait_loop_steps loc func args world world.iters (fun _ h => h) 1
      { cluster with conn_list := conns }
    simp only at h3 ⊢
    have h4 := htrans _ _ _ 0 h2 h3
    rcases hwl : wait_loop loc func args world.iters 1 { cluster with conn_list := conns } with
      ⟨c1, _ | e | _⟩
    · rw [hwl] at h4
      simp only at h4 ⊢
      rcases review_loop c1.conn_list c1.ret_total with ⟨total, _ | e⟩ <;> exact h4
    · rw [hwl] at h4
      exact h4
    · rw [hwl] at h4
      exact h4
  · rw [hl] at h1
    simp only [List.reverse_nil, List.nil_append] at h1
    rw [← h1] at h2
    exact h2

theorem send_query_db_none (loc : LocalServer) (func : ProxyFunction) (cf : ProxyConfig)
    (args : RemoteArgs) (cw : ConnWorld) (conn : ProxyConnection) (hdb : conn.db = none) :
    (send_query loc func cf args cw conn).1.db = none := by
  unfold send_query tune_connection
  cases hv : cw.server_version with
  | none => simpa using hdb
  | some v =>
    simp only
    cases hsql : (match cw.client_encoding with
      | some dst_enc => if loc.encoding ≠ dst_enc then some (tuning_sql loc.encoding) else none
      | none => none) with
    | some s =>
      simp only
      by_cases ht : conn.tuning = true
      · simpa [ht] using hdb
      · simp only [ht, Bool.false_eq_true, if_false]
        by_cases hs : cw.send_query_res = 0
        · simpa [hs] using hdb
        · simp only [hs, if_false]
          rcases hfl : flush_connection cw.send_flush
            (pq_send (RemoteStmt.simple s)
              { conn with query_time := cw.send_now,
                          same_ver := cmp_branch v loc.pg_version,
                          tuning := true, state := ConnState.C_QUERY_WRITE }) with ⟨c3, _ | e⟩
          · have h := (flush_connection_db cw.send_flush
              (pq_send (RemoteStmt.simple s)
                { conn with query_time := cw.send_now,
                            same_ver := cmp_branch v loc.pg_version,
                            tuning := true, state := ConnState.C_QUERY_WRITE })).1
            have ht3 := (flush_connection_db cw.send_flush
              (pq_send (RemoteStmt.simple s)
                { conn with query_time := cw.send_now,
                            same_ver := cmp_branch v loc.pg_version,
                            tuning := true, state := ConnState.C_QUERY_WRITE })).2
            rw [hfl] at h ht3
            simp only [pq_send] at h ht3
            simp only [ht3, if_true]
            rw [h]
            simp [hdb]
          · have h := (flush_connection_db cw.send_flush
              (pq_send (RemoteStmt.simple s)
                { conn with query_time := cw.send_now,
                            same_ver := cmp_branch v loc.pg_version,
                            tuning := true, state := ConnState.C_QUERY_WRITE })).1
            rw [hfl] at h
            simp only [pq_send] at h
            simp only
            rw [h]
            simp [hdb]
    | none =>
      simp only [Bool.false_eq_true, if_false]
      cases hb : binary_result func cf
          { conn with query_time := cw.send_now, same_ver := cmp_branch v loc.pg_version,
                      tuning := false } with
      | none => simpa using hdb
      | some bin =>
        simp only
        by_cases hs : cw.send_params_res = 0
        · simpa [hs] using hdb
        · simp only [hs, if_false]
          rw [(flush_connection_db _ _).1]
          simp [pq_send, hdb]

/-- A call of `send_query` leaves the handle alone or sends one statement on it. -/
theorem send_query_db (loc : LocalServer) (func : ProxyFunction) (cf : ProxyConfig)
    (args : RemoteArgs) (cw : ConnWorld) (conn : ProxyConnection) :
    (send_query loc func cf args cw conn).1.db = conn.db ∨
    ∃ d stmt, conn.db = some d ∧
      (send_query loc func cf args cw conn).1.db = some (sent_one d stmt) := by
  cases hdb : conn.db with
  | none => exact Or.inl (send_query_db_none loc func cf args cw conn hdb)
  | some d =>
    rcases send_query_sent loc func cf args cw conn d hdb with h | ⟨-, -, h⟩ | ⟨bin, -, h⟩
    · exact Or.inl h
    · exact Or.inr ⟨d, _, rfl, h⟩
    · exact Or.inr ⟨d, _, rfl, h⟩

/-- With a statement outstanding, `handle_conn` keeps the connection in
`C_QUERY_WRITE` or `C_QUERY_READ` unless it reads the results to the end. -/
theorem handle_conn_outstanding (cw : ConnWorld) (conn : ProxyConnection)
    (h : outstanding conn) :
    outstanding (handle_conn cw conn).1 ∨
    (conn.state = ConnState.C_QUERY_READ ∧ cw.read_busy = false ∧
      (handle_conn cw conn).2 = none ∧
      (handle_conn cw conn).1.state =
        if conn.tuning then ConnState.C_READY else ConnState.C_DONE) := by
  rcases h with h | h
  · left
    have hh : handle_conn cw conn = flush_connection cw.handle_flush conn := by
      simp [handle_conn, h]
    rw [hh]
    unfold flush_connection outstanding
    by_cases h1 : cw.handle_flush > 0
    · simp [h1]
    · by_cases h2 : cw.handle_flush = 0
      · simp [h2]
      · simp [h1, h2, h]
  · by_cases hc : cw.consume_input = 0
    · left
      have hh : handle_conn cw conn = (conn, some ProxyError.conn_error_consume_input) := by
        simp [handle_conn, h, hc]
      rw [hh]
      exact Or.inr h
    · have hh : handle_conn cw conn = read_loop cw.read_busy cw.read_results conn := by
        simp [handle_conn, h, hc]
      rw [hh]
      obtain ⟨-, h2, h3⟩ := read_loop_spec cw.read_busy cw.read_results conn
      cases he : (read_loop cw.read_busy cw.read_results conn).2 with
      | some e =>
        left
        have := (h3 e he).2
        exact Or.inr (this.trans h)
      | none =>
        have hs := congrArg ProxyConnection.state (h2 he)
        simp only at hs
        cases hb : cw.read_busy with
        | true =>
          left
          rw [hb] at hs
          simp only [if_true] at hs
          exact Or.inr (hs.trans h)
        | false =>
          right
          rw [hb] at hs
          simp only [Bool.false_eq_true, if_false] at hs
          exact ⟨h, rfl, rfl, hs⟩

theorem launch_conn_db (cw : ConnWorld) (conn : ProxyConnection) (h : ¬ outstanding conn) :
    (launch_conn cw conn).1.db = cw.connect_start.map Prod.fst ∧
    ¬ outstanding (launch_conn cw conn).1 := by
  unfold launch_conn
  cases hcs : cw.connect_start with
  | none => exact ⟨rfl, h⟩
  | some p =>
    obtain ⟨db, bad⟩ := p
    cases bad <;> simp [outstanding]

/-- The function `prepare_conn` sends nothing: it keeps the handle or takes
the one `PQconnectStart` returns; and it never leaves a statement outstanding. -/
theorem prepare_conn_db (cf : ProxyConfig) (cw : ConnWorld) (conn : ProxyConnection) :
    ((prepare_conn cf cw conn).1.db = conn.db ∨
      (prepare_conn cf cw conn).1.db = cw.connect_start.map Prod.fst) ∧
    ¬ outstanding (prepare_conn cf cw conn).1 := by
  have hdrop : ∀ c : ProxyConnection, ¬ outstanding (drop_conn c) := by
    intro c; simp [outstanding, drop_conn]
  unfold prepare_conn
  cases hs : conn.state
  case C_NONE =>
    simp only
    have hn : ¬ outstanding conn := by simp [outstanding, hs]
    exact ⟨Or.inr (launch_conn_db cw conn hn).1, (launch_conn_db cw conn hn).2⟩
  case C_DONE =>
    simp only
    rcases check_old_conn cf cw { conn with state := ConnState.C_READY } cw.prep_now with
      e | b
    · exact ⟨Or.inl rfl, by simp [outstanding]⟩
    · cases b
      · exact ⟨Or.inr (launch_conn_db cw _ (hdrop _)).1, (launch_conn_db cw _ (hdrop _)).2⟩
      · exact ⟨Or.inl rfl, by simp [outstanding]⟩
  case C_READY =>
    simp only
    rcases check_old_conn cf cw conn cw.prep_now with e | b
    · exact ⟨Or.inl rfl, by simp [outstanding, hs]⟩
    · cases b
      · exact ⟨Or.inr (launch_conn_db cw _ (hdrop _)).1, (launch_conn_db cw _ (hdrop _)).2⟩
      · exact ⟨Or.inl rfl, by simp [outstanding, hs]⟩
  all_goals
    simp only
    exact ⟨Or.inr (launch_conn_db cw _ (hdrop _)).1, (launch_conn_db cw _ (hdrop _)).2⟩

/-- A connection with a statement outstanding is dropped and launched anew by
`prepare_conn`. -/
theorem prepare_conn_outstanding (cf : ProxyConfig) (cw : ConnWorld) (conn : ProxyConnection)
    (h : outstanding conn) :
    prepare_conn cf cw conn = launch_conn cw (drop_conn conn) := by
  rcases h with h | h <;> simp [prepare_conn, h]

/-- C22: `plproxy_clean_results`. After the call `ret_total` and `ret_cur_conn`
are 0 and every connection has no result, `pos = 0` and `run_on` clear, all
its other fields (connection string, handle, state, `connect_time`,
`query_time`, `same_ver`, `tuning`) being as before; configuration and
partition map are untouched; a second call changes nothing more; and on the
null cluster the function does nothing. -/
theorem C22_clean_results (cluster : ProxyCluster) :
    (plproxy_clean_results cluster).ret_total = 0 ∧
    (plproxy_clean_results cluster).ret_cur_conn = 0 ∧
    (plproxy_clean_results cluster).conn_list.length = cluster.conn_list.length ∧
    (∀ (j : Nat) (conn : ProxyConnection), cluster.conn_list[j]? = some conn →
      ∃ conn2, (plproxy_clean_results cluster).conn_list[j]? = some conn2 ∧
        conn2.res = none ∧ conn2.pos = 0 ∧ conn2.run_on = false ∧
        conn2.state = conn.state ∧ conn2.db = conn.db ∧
        conn2.connect_time = conn.connect_time ∧ conn2.query_time = conn.query_time ∧
        conn2.tuning = conn.tuning ∧ conn2.same_ver = conn.same_ver ∧
        conn2.connstr = conn.connstr) ∧
    ((plproxy_clean_results cluster).config = cluster.config ∧
      (plproxy_clean_results cluster).part_count = cluster.part_count ∧
      (plproxy_clean_results cluster).part_mask = cluster.part_mask ∧
      (plproxy_clean_results cluster).part_map = cluster.part_map) ∧
    plproxy_clean_results (plproxy_clean_results cluster) = plproxy_clean_results cluster ∧
    plproxy_clean_results_ptr none = none ∧
    plproxy_clean_results_ptr (some cluster) = some (plproxy_clean_results cluster) := by
  refine ⟨rfl, rfl, by simp [plproxy_clean_results], ?_, ⟨rfl, rfl, rfl, rfl⟩, ?_, rfl, rfl⟩
  · intro j conn h
    refine ⟨{ conn with res := none, pos := 0, run_on := false }, ?_, rfl, rfl, rfl, rfl, rfl,
      rfl, rfl, rfl, rfl, rfl⟩
    simp [plproxy_clean_results, List.getElem?_map, h]
  · simp [plproxy_clean_results, Function.comp_def]

/-! ## The wait set of `poll_conns` -/

theorem waits_on_iff (conn : ProxyConnection) :
    waits_on conn = true ↔ conn.run_on = true ∧
      (conn.state = ConnState.C_CONNECT_READ ∨ conn.state = ConnState.C_QUERY_READ ∨
        conn.state = ConnState.C_CONNECT_WRITE ∨ conn.state = ConnState.C_QUERY_WRITE) := by
  cases hs : conn.state <;> simp [waits_on, hs]

theorem build_pollfds_eq : ∀ (conns : List ProxyConnection) (i : Nat),
    build_pollfds conns =
      (wait_members i conns).map (fun p => ⟨PQsocket p.2.db, wait_events p.2, 0⟩) := by
  intro conns
  induction conns with
  | nil => intro i; simp [build_pollfds, wait_members]
  | cons c rest ih =>
    intro i
    have ih2 := ih (i + 1)
    simp only [wait_members] at ih2 ⊢
    cases hr : c.run_on <;> cases hs : c.state <;>
      simp [build_pollfds, List.enumFrom, List.filter_cons, waits_on, wait_events, hr, hs, ih2]

theorem wait_members_sorted (conns : List ProxyConnection) (i : Nat) :
    ((wait_members i conns).map Prod.fst).Pairwise (fun a b => a < b) := by
  have hsub : ((wait_members i conns).map Prod.fst).Sublist
      ((conns.enumFrom i).map Prod.fst) :=
    (List.filter_sublist _).map Prod.fst
  rw [List.enumFrom_map_fst] at hsub
  exact List.Pairwise.sublist hsub (List.pairwise_lt_range' i conns.length)

theorem mem_wait_members (conns : List ProxyConnection) (j : Nat) (c : ProxyConnection) :
    (j, c) ∈ wait_members 0 conns ↔ conns[j]? = some c ∧ waits_on c = true := by
  simp [wait_members, List.mem_filter, List.mk_mem_enumFrom_iff_le_and_getElem?_sub]

/-- C21: the wait set of `poll_conns`. The entries that the first loop builds
are, in ascending connection index, those of the tagged connections whose
state is `C_CONNECT_READ`, `C_QUERY_READ`, `C_CONNECT_WRITE` or `C_QUERY_WRITE`,
each with the socket of the connection, `POLLIN` in the two read states and
`POLLOUT` in the two write states, and `revents` cleared; untagged connections
and connections in `C_NONE`, `C_READY` or `C_DONE` have no entry. There are at
most `conn_count` entries, and `pfd_cache` holds at least `conn_count` entries
after the allocation check (`max(64, conn_count)` when it has just grown). -/
theorem C21_wait_set (cluster : ProxyCluster) (allocated : Nat) :
    build_pollfds cluster.conn_list =
      (wait_members 0 cluster.conn_list).map
        (fun p => ⟨PQsocket p.2.db, wait_events p.2, 0⟩) ∧
    ((wait_members 0 cluster.conn_list).map Prod.fst).Pairwise (fun a b => a < b) ∧
    (∀ (j : Nat) (c : ProxyConnection), (j, c) ∈ wait_members 0 cluster.conn_list ↔
      cluster.conn_list[j]? = some c ∧ c.run_on = true ∧
        (c.state = ConnState.C_CONNECT_READ ∨ c.state = ConnState.C_QUERY_READ ∨
          c.state = ConnState.C_CONNECT_WRITE ∨ c.state = ConnState.C_QUERY_WRITE)) ∧
    (∀ c : ProxyConnection,
      (c.state = ConnState.C_CONNECT_READ ∨ c.state = ConnState.C_QUERY_READ →
        wait_events c = POLLIN) ∧
      (c.state = ConnState.C_CONNECT_WRITE ∨ c.state = ConnState.C_QUERY_WRITE →
        wait_events c = POLLOUT)) ∧
    (build_pollfds cluster.conn_list).length ≤ cluster.conn_count ∧
    cluster.conn_count ≤ pfd_allocate allocated cluster.conn_count ∧
    (allocated < cluster.conn_count →
      pfd_allocate allocated cluster.conn_count = max 64 cluster.conn_count) := by
  refine ⟨build_pollfds_eq _ 0, wait_members_sorted _ 0, ?_, ?_, ?_, ?_, ?_⟩
  · intro j c
    rw [mem_wait_members, waits_on_iff]
  · intro c
    constructor
    · intro h
      simp [wait_events, h]
    · intro h
      rcases h with h | h <;> simp [wait_events, h]
  · rw [build_pollfds_eq _ 0, List.length_map]
    unfold wait_members ProxyCluster.conn_count
    exact (List.length_filter_le _ _).trans (by simp)
  · unfold pfd_allocate
    split_ifs <;> omega
  · intro h
    unfold pfd_allocate
    rw [if_pos h]
    split_ifs <;> omega

/-- C21 witness: of three tagged connections in `C_QUERY_READ`, `C_READY` and
`C_CONNECT_WRITE` and an untagged one in `C_QUERY_WRITE`, the first and the
third are waited on, for reading and for writing. -/
theorem C21_wait_set_witness :
    build_pollfds mixed_state_cluster.conn_list = [⟨7, POLLIN, 0⟩, ⟨9, POLLOUT, 0⟩] ∧
    pfd_allocate 0 mixed_state_cluster.conn_count = 64 :=
  have h := C21_wait_set mixed_state_cluster 0
  ⟨h.1.trans (by decide), (h.2.2.2.2.2.2 (by decide)).trans (by decide)⟩

/-! ## The dispatch pass of `poll_conns` -/

theorem build_pollfds_cons (c : ProxyConnection) (rest : List ProxyConnection) :
    build_pollfds (c :: rest) =
      if c.run_on = true ∧ in_flight c = true then
        ⟨PQsocket c.db, wait_events c, 0⟩ :: build_pollfds rest
      else build_pollfds rest := by
  cases hr : c.run_on <;> cases hs : c.state <;>
    simp [build_pollfds, in_flight, wait_events, hr, hs]

theorem build_pollfds_append (a b : List ProxyConnection) :
    build_pollfds (a ++ b) = build_pollfds a ++ build_pollfds b := by
  induction a with
  | nil => simp [build_pollfds]
  | cons c rest ih =>
    rw [List.cons_append, build_pollfds_cons, build_pollfds_cons, ih]
    split_ifs <;> simp

theorem wait_index_append (pre rest : List ProxyConnection) :
    wait_index (pre ++ rest) pre.length = (build_pollfds pre).length := by
  simp [wait_index]

theorem store_revents_cons (entry : PollFd) (l : List PollFd) (revs : List Int) (k : Nat)
    (h0 : entry.revents = 0) :
    store_revents (entry :: l) (revs.drop k) =
      { entry with revents := revs.getD k 0 } :: store_revents l (revs.drop (k + 1)) := by
  cases hd : revs.drop k with
  | nil =>
    have hk : revs.length ≤ k := List.drop_eq_nil_iff.mp hd
    have hd1 : revs.drop (k + 1) = [] := List.drop_eq_nil_iff.mpr (by omega)
    have hg : revs.getD k 0 = 0 := by
      rw [List.getD_eq_getElem?_getD, List.getElem?_eq_none hk]
      rfl
    rw [hd1, hg, ← h0]
    simp [store_revents]
  | cons r rs =>
    have hk : k < revs.length := by
      by_contra hge
      have : revs.drop k = [] := List.drop_eq_nil_iff.mpr (by omega)
      rw [this] at hd
      exact List.noConfusion hd
    have hcons := List.drop_eq_getElem_cons hk
    rw [hd] at hcons
    simp only [List.cons.injEq] at hcons
    have hg : revs.getD k 0 = r := by
      rw [List.getD_eq_getElem?_getD, List.getElem?_eq_getElem hk, hcons.1]
      rfl
    rw [hg, ← hcons.2]
    simp [store_revents]

theorem dispatch_loop_pass (world : Nat → ConnWorld) (revs : List Int)
    (conns : List ProxyConnection) :
    ∀ (rest pre done : List ProxyConnection), conns = pre ++ rest →
      dispatch_loop world pre.length rest
          (store_revents (build_pollfds rest) (revs.drop (build_pollfds pre).length)) done =
        (done.reverse ++ (dispatch_pass world revs conns pre.length rest).1,
          (dispatch_pass world revs conns pre.length rest).2) := by
  intro rest
  induction rest with
  | nil => intro pre done _; simp [dispatch_loop, dispatch_pass]
  | cons c rest ih =>
    intro pre done hc
    have hc2 : conns = (pre ++ [c]) ++ rest := by simp [hc]
    have hlen : (pre ++ [c]).length = pre.length + 1 := by simp
    have hwi : wait_index conns pre.length = (build_pollfds pre).length := by
      rw [hc]; exact wait_index_append pre (c :: rest)
    have ih2 := ih (pre ++ [c])
    rw [hlen] at ih2
    by_cases hw : c.run_on = true ∧ in_flight c = true
    · have hpre : (build_pollfds (pre ++ [c])).length = (build_pollfds pre).length + 1 := by
        rw [build_pollfds_append, build_pollfds_cons, if_pos hw]
        simp [build_pollfds]
      rw [hpre] at ih2
      rw [build_pollfds_cons, if_pos hw, store_revents_cons _ _ _ _ rfl]
      have hr : ¬ c.run_on = false := by simp [hw.1]
      have hf : ¬ in_flight c = false := by simp [hw.2]
      simp only [dispatch_loop, dispatch_pass, dispatch_one, hwi]
      rw [if_neg hr, if_neg hf]
      by_cases he : revs.getD (build_pollfds pre).length 0 ≠ 0
      · rw [if_pos he, if_pos ⟨hw.1, hw.2, he⟩]
        rcases hh : handle_conn (world pre.length) c with ⟨c1, _ | e⟩
        · simp only
          rw [ih2 (c1 :: done) hc2]
          simp
        · simp
      · rw [if_neg he, if_neg (fun h => he h.2.2)]
        simp only
        rw [ih2 (c :: done) hc2]
        simp
    · have hpre : (build_pollfds (pre ++ [c])).length = (build_pollfds pre).length := by
        rw [build_pollfds_append, build_pollfds_cons, if_neg hw]
        simp [build_pollfds]
      rw [hpre] at ih2
      rw [build_pollfds_cons, if_neg hw]
      have hone : dispatch_one world revs conns pre.length c = (c, none) := by
        unfold dispatch_one
        rw [if_neg (fun h => hw ⟨h.1, h.2.1⟩)]
      simp only [dispatch_pass, hone]
      have hgo : dispatch_loop world pre.length (c :: rest)
          (store_revents (build_pollfds rest) (revs.drop (build_pollfds pre).length)) done =
          dispatch_loop world (pre.length + 1) rest
            (store_revents (build_pollfds rest) (revs.drop (build_pollfds pre).length))
            (c :: done) := by
        by_cases hr : c.run_on = false
        · simp only [dispatch_loop, hr, if_true]
        · have hr2 : c.run_on = true := by simpa using hr
          have hf : in_flight c = false := by
            cases hfl : in_flight c
            · rfl
            · exact absurd ⟨hr2, hfl⟩ hw
          simp only [dispatch_loop, hr2, Bool.true_eq_false, if_false, hf, if_true]
      rw [hgo, ih2 (c :: done) hc2]
      simp

theorem store_revents_getElem? : ∀ (l : List PollFd) (revs : List Int) (k : Nat),
    (store_revents l revs)[k]? =
      (l[k]?).map (fun e => { e with revents := (revs[k]?).getD e.revents }) := by
  intro l
  induction l with
  | nil => intro revs k; simp [store_revents]
  | cons e rest ih =>
    intro revs k
    cases revs with
    | nil =>
      cases k with
      | zero => simp [store_revents]
      | succ k =>
        have := ih [] k
        simp only [store_revents, List.getElem?_cons_succ, this]
        simp
    | cons r rs =>
      cases k with
      | zero => simp [store_revents]
      | succ k =>
        have := ih rs k
        simp only [store_revents, List.getElem?_cons_succ, this]

/-- The entry at position `wait_index conns j` of the wait set is the one
built for connection `j`. -/
theorem wait_entry_of (conns : List ProxyConnection) (revs : List Int) (j : Nat)
    (c : ProxyConnection) (hj : conns[j]? = some c)
    (hw : c.run_on = true ∧ in_flight c = true) :
    (build_pollfds conns)[wait_index conns j]? = some ⟨PQsocket c.db, wait_events c, 0⟩ ∧
    (store_revents (build_pollfds conns) revs)[wait_index conns j]? =
      some ⟨PQsocket c.db, wait_events c, revs.getD (wait_index conns j) 0⟩ := by
  have hlt : j < conns.length := (List.getElem?_eq_some.mp hj).1
  have hcj : conns[j] = c := (List.getElem?_eq_some.mp hj).2
  have hsplit : conns = conns.take j ++ c :: conns.drop (j + 1) := by
    rw [← hcj, ← List.drop_eq_getElem_cons hlt, List.take_append_drop]
  have hb : (build_pollfds conns)[wait_index conns j]? =
      some ⟨PQsocket c.db, wait_events c, 0⟩ := by
    have : build_pollfds conns = build_pollfds (conns.take j) ++
        ⟨PQsocket c.db, wait_events c, 0⟩ :: build_pollfds (conns.drop (j + 1)) := by
      conv_lhs => rw [hsplit]
      rw [build_pollfds_append, build_pollfds_cons, if_pos hw]
    rw [this]
    unfold wait_index
    rw [List.getElem?_append_right (Nat.le_refl _)]
    simp
  refine ⟨hb, ?_⟩
  rw [store_revents_getElem?, hb]
  simp [List.getD_eq_getElem?_getD]

theorem dispatch_pass_ok (world : Nat → ConnWorld) (revs : List Int)
    (conns : List ProxyConnection) :
    ∀ (rest : List ProxyConnection) (i : Nat),
      (dispatch_pass world revs conns i rest).2 = none →
      ∀ (k : Nat) (c : ProxyConnection), rest[k]? = some c →
        (dispatch_pass world revs conns i rest).1[k]? =
          some (dispatch_one world revs conns (i + k) c).1 ∧
        (dispatch_one world revs conns (i + k) c).2 = none := by
  intro rest
  induction rest with
  | nil => intro i _ k c h; simp at h
  | cons c0 rest ih =>
    intro i hok k c hk
    simp only [dispatch_pass] at hok ⊢
    rcases h1 : dispatch_one world revs conns i c0 with ⟨c1, _ | e⟩
    · simp only [h1] at hok ⊢
      cases k with
      | zero =>
        simp only [List.getElem?_cons_zero, Option.some.injEq] at hk
        subst hk
        simp [h1]
      | succ k =>
        simp only [List.getElem?_cons_succ] at hk ⊢
        have := ih (i + 1) hok k c hk
        rw [show i + (k + 1) = i + 1 + k by omega]
        exact this
    · simp [h1] at hok

/-- C24: dispatch alignment in `poll_conns`. When `poll` reports at least one
event, the dispatch pass treats connection `j` according to the entry at the
position where the first loop put the entry of connection `j` (counted on the
connections as they were before the pass): that entry carries the socket and
direction of connection `j`, the pass never runs out of entries, and it calls
`handle_conn` on a connection exactly when the connection is in the wait set and
the `revents` of its entry are not zero, one connection after the other until
a call raises; without a raise every connection is the result of that one
call or is unchanged. -/
theorem C24_dispatch_alignment (w : IterWorld) (cluster : ProxyCluster)
    (hev : w.poll_res > 0) :
    (poll_conns w cluster).1 =
      { cluster with conn_list :=
          (dispatch_pass w.conn w.revents cluster.conn_list 0 cluster.conn_list).1 } ∧
    (poll_conns w cluster).2.1 =
      (dispatch_pass w.conn w.revents cluster.conn_list 0 cluster.conn_list).2 ∧
    (∀ (j : Nat) (c : ProxyConnection), cluster.conn_list[j]? = some c →
      c.run_on = true → in_flight c = true →
      (store_revents (build_pollfds cluster.conn_list) w.revents)[
          wait_index cluster.conn_list j]? =
        some ⟨PQsocket c.db, wait_events c,
          w.revents.getD (wait_index cluster.conn_list j) 0⟩) ∧
    ((poll_conns w cluster).2.1 = none →
      ∀ (j : Nat) (c : ProxyConnection), cluster.conn_list[j]? = some c →
        (poll_conns w cluster).1.conn_list[j]? =
          some (if c.run_on = true ∧ in_flight c = true ∧
              w.revents.getD (wait_index cluster.conn_list j) 0 ≠ 0
            then (handle_conn (w.conn j) c).1 else c)) := by
  have hloop := dispatch_loop_pass w.conn w.revents cluster.conn_list cluster.conn_list [] []
    (by simp)
  simp only [List.length_nil, build_pollfds, List.drop_zero, List.reverse_nil,
    List.nil_append] at hloop
  have hpoll : poll_conns w cluster =
      match dispatch_loop w.conn 0 cluster.conn_list
        (store_revents (build_pollfds cluster.conn_list) w.revents) [] with
      | (conns, some e) => ({ cluster with conn_list := conns }, some e, 0)
      | (conns, none) => ({ cluster with conn_list := conns }, none, 1) := by
    unfold poll_conns
    rw [if_neg (by omega), if_neg (fun h => by omega), if_neg (by omega)]
  have h1 : (poll_conns w cluster).1 =
      { cluster with conn_list :=
          (dispatch_pass w.conn w.revents cluster.conn_list 0 cluster.conn_list).1 } := by
    rw [hpoll, hloop]
    rcases (dispatch_pass w.conn w.revents cluster.conn_list 0 cluster.conn_list).2 with
      _ | e <;> rfl
  have h2 : (poll_conns w cluster).2.1 =
      (dispatch_pass w.conn w.revents cluster.conn_list 0 cluster.conn_list).2 := by
    rw [hpoll, hloop]
    rcases (dispatch_pass w.conn w.revents cluster.conn_list 0 cluster.conn_list).2 with
      _ | e <;> rfl
  refine ⟨h1, h2, ?_, ?_⟩
  · intro j c hj hr hf
    exact (wait_entry_of cluster.conn_list w.revents j c hj ⟨hr, hf⟩).2
  · intro hok j c hj
    rw [h2] at hok
    have h3 := (dispatch_pass_ok w.conn w.revents cluster.conn_list cluster.conn_list 0 hok
      j c hj).1
    rw [h1]
    simp only [Nat.zero_add] at h3
    rw [h3]
    unfold dispatch_one
    split_ifs <;> rfl

/-- C24 witness: of the tagged connections 0 (`C_QUERY_READ`), 1 (`C_READY`) and
2 (`C_CONNECT_WRITE`), connection 2 has the second entry of the wait set; with
events on that entry only, `handle_conn` moves connection 2 to `C_READY` and
leaves the others alone. -/
theorem C24_dispatch_alignment_witness :
    wait_index mixed_state_cluster.conn_list 2 = 1 ∧
    (poll_conns second_entry_iter mixed_state_cluster).2.1 = none ∧
    (poll_conns second_entry_iter mixed_state_cluster).1.conn_list.map
        (fun c => c.state) =
      [ConnState.C_QUERY_READ, ConnState.C_READY, ConnState.C_READY,
        ConnState.C_QUERY_WRITE] :=
  have h := C24_dispatch_alignment second_entry_iter mixed_state_cluster (by decide)
  ⟨by decide, h.2.1.trans (by decide), by rw [h.1]; decide⟩

/-! ## Remote parameters and null arguments -/

/-- C23 (the code at the failing input): a function of two arguments whose
statements use `$2` only, so `arg_lookup = [1]`, as `plproxy_query_add_ident`
builds it. With the first argument null
and the second 20, `plproxy_exec` prepares NULL for remote parameter 0 although
function argument `arg_lookup[0] = 1` is not null, and the statement goes out
with that NULL; `plproxy_query_exec` marks local parameter 0 as not null with
value 20. With the first argument 10 and the second null, `plproxy_exec`
prepares an encoded value for remote parameter 0 although the argument it
refers to is null, while `plproxy_query_exec` marks local parameter 0 as null. -/
theorem C23_null_flag_by_position :
    run_query_ops (plproxy_query_start second_arg_func false)
        [QueryOp.add_const "select * from f(".toList, QueryOp.add_ident "$2".toList,
          QueryOp.add_const ")".toList] =
      Except.ok ⟨second_arg_func, second_arg_func.remote_sql.sql, [1], false⟩ ∧
    second_arg_func.remote_sql.arg_lookup = [1] ∧
    second_arg_func.hash_sql.arg_lookup = [1] ∧
    (null_first_fcinfo.argnull.getD 1 false = false ∧
      prepare_args_loop second_arg_func null_first_fcinfo default_config digits_codec 0
          second_arg_func.remote_sql.arg_lookup ⟨[], [], [], false⟩ =
        Except.ok ⟨[none], [0], [0], false⟩ ∧
      plproxy_query_exec second_arg_func null_first_fcinfo second_arg_func.hash_sql
          SPI_OK_SELECT = Except.ok ([' '], [20]) ∧
      (plproxy_exec local_server second_arg_func null_first_fcinfo digits_call_world
          (one_part_cluster default_config)).exit = Exit.returned ∧
      (plproxy_exec local_server second_arg_func null_first_fcinfo digits_call_world
          (one_part_cluster default_config)).cluster.conn_list.map (fun c => c.db) =
        [some ⟨5, [RemoteStmt.params second_arg_func.remote_sql.sql [none] none none 0]⟩]) ∧
    (null_second_fcinfo.argnull.getD 1 false = true ∧
      prepare_args_loop second_arg_func null_second_fcinfo default_config digits_codec 0
          second_arg_func.remote_sql.arg_lookup ⟨[], [], [], false⟩ =
        Except.ok ⟨[some ['0']], [0], [0], false⟩ ∧
      plproxy_query_exec second_arg_func null_second_fcinfo second_arg_func.hash_sql
          SPI_OK_SELECT = Except.ok (['n'], [0])) := by
  refine ⟨rfl, rfl, rfl, ⟨rfl, rfl, rfl, by decide, by decide⟩, ⟨rfl, rfl, rfl⟩⟩

/-! ## `query.c`: the parameter table of a statement under construction -/

theorem lookup_search_none (f : Nat) : ∀ (l : List Nat) (i : Nat),
    lookup_search f l i = none ↔ f ∉ l := by
  intro l
  induction l with
  | nil => intro i; simp [lookup_search]
  | cons x rest ih =>
    intro i
    by_cases hx : x = f
    · simp [lookup_search, hx]
    · have hx2 : ¬ f = x := fun h => hx h.symm
      simp [lookup_search, hx, hx2, ih (i + 1)]

theorem lookup_search_some (f : Nat) : ∀ (l : List Nat) (i j : Nat),
    lookup_search f l i = some j →
    ∃ k, j = i + k ∧ l[k]? = some f := by
  intro l
  induction l with
  | nil => intro i j h; simp [lookup_search] at h
  | cons x rest ih =>
    intro i j h
    by_cases hx : x = f
    · simp only [lookup_search, hx, if_true, Option.some.injEq] at h
      exact ⟨0, by omega, by simp [hx]⟩
    · simp only [lookup_search, hx, if_false] at h
      obtain ⟨k, hk1, hk2⟩ := ih (i + 1) j h
      exact ⟨k + 1, by omega, by simpa using hk2⟩

theorem nodup_index_unique (l : List Nat) (hnd : l.Nodup) (j k f : Nat)
    (hj : l[j]? = some f) (hk : l[k]? = some f) : j = k := by
  have hj1 := List.getElem?_eq_some.mp hj
  have hk1 := List.getElem?_eq_some.mp hk
  obtain ⟨hjl, hje⟩ := hj1
  obtain ⟨hkl, hke⟩ := hk1
  exact (List.Nodup.getElem_inj_iff hnd).mp (hje.trans hke.symm)

theorem nodup_bounded_length (l : List Nat) (n : Nat) (hnd : l.Nodup)
    (hb : ∀ x ∈ l, x < n) : l.length ≤ n := by
  have hsub : l ⊆ List.range n := fun x hx => List.mem_range.mpr (hb x hx)
  have := (List.subperm_of_subset hnd hsub).length_le
  simpa using this

theorem name_search_spec (ident : List Char) (func : ProxyFunction) :
    ∀ (n i : Nat), i + n = func.arg_names.length →
      (∀ g name, g < i → func.arg_names[g]? = some name → strcasecmp_eq ident name = false) →
      (∃ f, name_search ident func n i = Except.ok (some f) ∧ first_named ident func f) ∨
      (name_search ident func n i = Except.ok none ∧
        ∀ name ∈ func.arg_names, strcasecmp_eq ident name = false) := by
  intro n
  induction n with
  | zero =>
    intro i hi hbefore
    right
    refine ⟨rfl, ?_⟩
    intro name hmem
    obtain ⟨g, hg, hge⟩ := List.getElem_of_mem hmem
    exact hbefore g name (by omega) (by rw [List.getElem?_eq_getElem hg, hge])
  | succ n ih =>
    intro i hi hbefore
    have hlt : i < func.arg_names.length := by omega
    have hget : func.arg_names[i]? = some func.arg_names[i] := List.getElem?_eq_getElem hlt
    simp only [name_search, hget]
    by_cases hm : strcasecmp_eq ident func.arg_names[i] = true
    · left
      exact ⟨i, by simp [hm], ⟨_, hget, hm⟩, hbefore⟩
    · have hm2 : strcasecmp_eq ident func.arg_names[i] = false := by simpa using hm
      simp only [hm2, Bool.false_eq_true, if_false]
      apply ih (i + 1) (by omega)
      intro g name hg hgn
      by_cases hgi : g = i
      · subst hgi
        rw [hget] at hgn
        simp only [Option.some.injEq] at hgn
        rw [← hgn]
        exact hm2
      · exact hbefore g name (by omega) hgn

theorem first_named_unique (ident : List Char) (func : ProxyFunction) (f g : Nat)
    (hf : first_named ident func f) (hg : first_named ident func g) : f = g := by
  obtain ⟨⟨nf, hf1, hf2⟩, hf3⟩ := hf
  obtain ⟨⟨ng, hg1, hg2⟩, hg3⟩ := hg
  rcases Nat.lt_trichotomy f g with h | h | h
  · have := hg3 f nf h hf1
    rw [hf2] at this
    exact Bool.noConfusion this
  · exact h
  · have := hf3 g ng h hg1
    rw [hg2] at this
    exact Bool.noConfusion this

theorem add_ref_ok (buf : List Char) (func : ProxyFunction) (add_types : Bool)
    (sql_idx fn_idx : Nat) (hfit : refs_fit func add_types)
    (hs : sql_idx < func.arg_count) (hf : fn_idx < func.arg_count) :
    add_ref buf sql_idx func fn_idx add_types =
      Except.ok (buf ++ ref_of func add_types sql_idx fn_idx) := by
  have hget : func.arg_types[fn_idx]? = some func.arg_types[fn_idx] :=
    List.getElem?_eq_getElem hf
  have hmem : func.arg_types[fn_idx] ∈ func.arg_types := List.getElem_mem hf
  have hlen := hfit sql_idx hs _ hmem
  cases add_types with
  | true =>
    simp only [add_ref, ref_of, hget, if_true, Option.map_some', Option.getD_some]
    rw [if_pos hlen]
  | false =>
    have hsame : ref_text sql_idx [] false = ref_text sql_idx func.arg_types[fn_idx].name false :=
      by simp [ref_text]
    simp only [add_ref, ref_of, hget, Bool.false_eq_true, if_false, Option.map_some',
      Option.getD_some]
    rw [hsame, if_pos hlen]

/-- The block that adds a reference to argument `f`, on a buffer whose table is
in order: it succeeds, the reference has the number of the entry for `f`, an
entry already present is reused and nothing else of the table changes. -/
theorem add_ident_ref_spec (q : QueryBuffer) (f : Nat) (hinv : query_inv q)
    (hfit : refs_fit q.func q.add_types) (hf : f < q.func.arg_count) :
    ∃ k q2, add_ident_ref q f = Except.ok (q2, true) ∧
      q2.arg_lookup[k]? = some f ∧
      q2.sql = q.sql ++ ref_of q.func q.add_types k f ∧
      q2.func = q.func ∧ q2.add_types = q.add_types ∧
      (∀ j, q.arg_lookup[j]? = some f → j = k) ∧
      ((f ∈ q.arg_lookup ∧ q2.arg_lookup = q.arg_lookup) ∨
        (f ∉ q.arg_lookup ∧ q2.arg_lookup = q.arg_lookup ++ [f])) ∧
      query_inv q2 := by
  obtain ⟨hnd, hb⟩ := hinv
  unfold add_ident_ref
  cases hls : lookup_search f q.arg_lookup 0 with
  | some sql_idx =>
    obtain ⟨k, hk1, hk2⟩ := lookup_search_some f q.arg_lookup 0 sql_idx hls
    have hk : sql_idx = k := by omega
    subst hk
    have hmem : f ∈ q.arg_lookup := List.getElem?_mem hk2
    have hlt : sql_idx < q.arg_lookup.length := (List.getElem?_eq_some.mp hk2).1
    have hle := nodup_bounded_length q.arg_lookup q.func.arg_count hnd hb
    have hs : sql_idx < q.func.arg_count := by omega
    simp only [add_ref_ok q.sql q.func q.add_types sql_idx f hfit hs hf]
    exact ⟨sql_idx, _, rfl, hk2, rfl, rfl, rfl,
      fun j hj => nodup_index_unique q.arg_lookup hnd j sql_idx f hj hk2,
      Or.inl ⟨hmem, rfl⟩, hnd, hb⟩
  | none =>
    have hnot : f ∉ q.arg_lookup := (lookup_search_none f q.arg_lookup 0).mp hls
    have hnd2 : (q.arg_lookup ++ [f]).Nodup := by
      rw [List.nodup_append]
      refine ⟨hnd, by simp, ?_⟩
      intro x hx1 hx2
      simp only [List.mem_singleton] at hx2
      subst hx2
      exact hnot hx1
    have hb2 : ∀ x ∈ q.arg_lookup ++ [f], x < q.func.arg_count := by
      intro x hx
      rcases List.mem_append.mp hx with h | h
      · exact hb x h
      · simp only [List.mem_singleton] at h
        subst h
        exact hf
    have hle := nodup_bounded_length _ q.func.arg_count hnd2 hb2
    have hlt : q.arg_count < q.func.arg_count := by
      unfold QueryBuffer.arg_count
      simp only [List.length_append, List.length_singleton] at hle
      omega
    simp only [hlt, if_true, add_ref_ok q.sql q.func q.add_types q.arg_count f hfit hlt hf]
    refine ⟨q.arg_count, _, rfl, ?_, rfl, rfl, rfl, ?_, Or.inr ⟨hnot, rfl⟩, hnd2, hb2⟩
    · simp [QueryBuffer.arg_count]
    · intro j hj
      exact absurd (List.getElem?_mem hj) hnot

/-- Where the number read fits an `int`, `atoi` returns it. -/
theorem atoi_exact (s : List Char) (h : INT_MIN ≤ decimal_value s ∧ decimal_value s ≤ INT_MAX) :
    atoi s = decimal_value s := by
  obtain ⟨h1, h2⟩ := h
  simp only [INT_MIN, INT_MAX] at h1 h2
  have hs : strtol s = decimal_value s := by
    unfold strtol
    simp only [LONG_MAX, LONG_MIN]
    rw [if_neg (by omega), if_neg (by omega)]
  unfold atoi to_int32
  rw [hs]
  omega

/-- Where the number after the `$` and its predecessor fit an `int`, `fn_idx` is
that number less one. -/
theorem fn_idx_exact (s : List Char) (h : fits_int s) :
    to_int32 (atoi s - 1) = decimal_value s - 1 := by
  obtain ⟨h1, h2⟩ := h
  rw [atoi_exact s ⟨Int.le_of_lt h1, h2⟩]
  simp only [INT_MIN, INT_MAX] at h1 h2
  unfold to_int32
  omega

/-- Beyond the range of `int` the result of `atoi` is not the number read: the
digits 4294967297 give 1, and digits beyond the range of `long` give -1. -/
theorem atoi_beyond_int :
    atoi "4294967297".toList = 1 ∧ atoi "99999999999999999999".toList = -1 ∧
    atoi "2147483648".toList = -2147483648 ∧ atoi "-99999999999999999999".toList = 0 := by
  decide

theorem add_ident_dollar (q : QueryBuffer) (rest : List Char) :
    plproxy_query_add_ident q ('$' :: rest) =
      if to_int32 (atoi rest - 1) < 0 ∨ to_int32 (atoi rest - 1) ≥ q.func.arg_count then
        Except.ok (q, false)
      else add_ident_ref q (to_int32 (atoi rest - 1)).toNat := rfl

theorem add_ident_plain (q : QueryBuffer) (ident : List Char)
    (h : ident.head? ≠ some '$') :
    plproxy_query_add_ident q ident =
      match name_search ident q.func q.func.arg_count 0 with
      | Except.error e => Except.error e
      | Except.ok (some fn_idx) => add_ident_ref q fn_idx
      | Except.ok none => Except.ok ({ q with sql := q.sql ++ ident }, true) := by
  unfold plproxy_query_add_ident
  split
  · simp at h
  · rfl

theorem first_named_lt (ident : List Char) (func : ProxyFunction) (f : Nat)
    (hnames : func.arg_names.length = func.arg_count) (h : first_named ident func f) :
    f < func.arg_count := by
  obtain ⟨⟨name, h1, -⟩, -⟩ := h
  rw [← hnames]
  exact (List.getElem?_eq_some.mp h1).1

theorem refers_to_lt (ident : List Char) (func : ProxyFunction) (f : Nat)
    (hnames : func.arg_names.length = func.arg_count) (h : refers_to ident func f) :
    f < func.arg_count := by
  rcases h with ⟨rest, -, -, h⟩ | ⟨-, h⟩
  · exact h
  · exact first_named_lt ident func f hnames h

/-- An identifier that refers to argument `f` leads to the block that adds a
reference to `f`. -/
theorem add_ident_refers (q : QueryBuffer) (ident : List Char) (f : Nat)
    (hnames : q.func.arg_names.length = q.func.arg_count)
    (hcount : q.func.arg_count < 2147483648)
    (h : refers_to ident q.func f) :
    plproxy_query_add_ident q ident = add_ident_ref q f := by
  rcases h with ⟨rest, hid, hat, hf⟩ | ⟨hhead, hfirst⟩
  · subst hid
    have hfit : fits_int rest := by
      unfold fits_int
      simp only [INT_MIN, INT_MAX]
      omega
    rw [add_ident_dollar, fn_idx_exact rest hfit, hat]
    have h1 : ¬ ((f : Int) + 1 - 1 < 0 ∨ (f : Int) + 1 - 1 ≥ q.func.arg_count) := by omega
    rw [if_neg h1]
    congr 1
    omega
  · rw [add_ident_plain q ident hhead]
    rcases name_search_spec ident q.func q.func.arg_count 0 (by omega)
      (fun g name hg _ => absurd hg (Nat.not_lt_zero g)) with ⟨g, hg1, hg2⟩ | ⟨-, hnone⟩
    · rw [hg1, first_named_unique ident q.func f g hfirst hg2]
    · obtain ⟨⟨name, hn1, hn2⟩, -⟩ := hfirst
      have := hnone name (List.getElem?_mem hn1)
      rw [hn2] at this
      exact Bool.noConfusion this

/-- Every call of `plproxy_query_add_ident` on a buffer whose table is in order
returns, keeps the table in order and keeps the entries it had. -/
theorem add_ident_total (q : QueryBuffer) (ident : List Char) (hinv : query_inv q)
    (hfit : refs_fit q.func q.add_types)
    (hnames : q.func.arg_names.length = q.func.arg_count) :
    ∃ q2 b, plproxy_query_add_ident q ident = Except.ok (q2, b) ∧ query_inv q2 ∧
      q2.func = q.func ∧ q2.add_types = q.add_types ∧
      q.arg_lookup <+: q2.arg_lookup := by
  have hblock : ∀ f, f < q.func.arg_count →
      ∃ q2 b, add_ident_ref q f = Except.ok (q2, b) ∧ query_inv q2 ∧
        q2.func = q.func ∧ q2.add_types = q.add_types ∧ q.arg_lookup <+: q2.arg_lookup := by
    intro f hf
    obtain ⟨k, q2, h1, -, -, h4, h5, -, h7, h8⟩ := add_ident_ref_spec q f hinv hfit hf
    refine ⟨q2, true, h1, h8, h4, h5, ?_⟩
    rcases h7 with ⟨-, h⟩ | ⟨-, h⟩
    · rw [h]
    · rw [h]; exact List.prefix_append _ _
  by_cases hhead : ident.head? = some '$'
  · obtain ⟨rest, hid⟩ : ∃ rest, ident = '$' :: rest := by
      cases ident with
      | nil => simp at hhead
      | cons c rest =>
        simp only [List.head?_cons, Option.some.injEq] at hhead
        exact ⟨rest, by rw [hhead]⟩
    subst hid
    rw [add_ident_dollar]
    by_cases hr : to_int32 (atoi rest - 1) < 0 ∨ to_int32 (atoi rest - 1) ≥ q.func.arg_count
    · rw [if_pos hr]
      exact ⟨q, false, rfl, hinv, rfl, rfl, List.prefix_refl _⟩
    · rw [if_neg hr]
      exact hblock _ (by omega)
  · rw [add_ident_plain q ident hhead]
    rcases name_search_spec ident q.func q.func.arg_count 0 (by omega)
      (fun g name hg _ => absurd hg (Nat.not_lt_zero g)) with ⟨g, hg1, hg2⟩ | ⟨hnone, -⟩
    · rw [hg1]
      exact hblock g (first_named_lt ident q.func g hnames hg2)
    · rw [hnone]
      exact ⟨_, true, rfl, hinv, rfl, rfl, List.prefix_refl _⟩

theorem run_query_ops_inv : ∀ (ops : List QueryOp) (q : QueryBuffer), query_inv q →
    refs_fit q.func q.add_types → q.func.arg_names.length = q.func.arg_count →
    ∃ q2, run_query_ops q ops = Except.ok q2 ∧ query_inv q2 ∧ q2.func = q.func ∧
      q2.add_types = q.add_types ∧ q.arg_lookup <+: q2.arg_lookup := by
  intro ops
  induction ops with
  | nil => intro q hinv _ _; exact ⟨q, rfl, hinv, rfl, rfl, List.prefix_refl _⟩
  | cons op rest ih =>
    intro q hinv hfit hnames
    cases op with
    | add_const data =>
      simp only [run_query_ops, plproxy_query_add_const]
      exact ih { q with sql := q.sql ++ data } hinv hfit hnames
    | add_ident ident =>
      obtain ⟨q1, b, h1, h2, h3, h4, h5⟩ := add_ident_total q ident hinv hfit hnames
      simp only [run_query_ops, h1]
      obtain ⟨q2, h6, h7, h8, h9, h10⟩ := ih q1 h2 (by rw [h3, h4]; exact hfit)
        (by rw [h3]; exact hnames)
      exact ⟨q2, h6, h7, h8.trans h3, h9.trans h4, h5.trans h10⟩

/-- C25 (amended): the parameter table of a query buffer. For a function whose
`arg_names` array has `arg_count` entries and whose references fit the buffer of
`add_ref`, every sequence of `plproxy_query_add_const` and `plproxy_query_add_ident`
calls on a buffer from `plproxy_query_start` runs through and leaves
`arg_count <= func.arg_count` with the entries of `arg_lookup` pairwise distinct
indices below `func.arg_count`. On such a buffer, `$n` with `n < 1` or
`n > func.arg_count`, `n` and `n - 1` fitting an `int`, returns false and changes
nothing; an identifier that refers to argument `f` (`$n` with `n = f + 1`, or a
name equal ignoring case to that of `f`, the first such argument) returns true
and appends `$k`, followed by `::` and the type name when `add_types` is set,
where `arg_lookup[k - 1] = f`, an earlier entry for `f` being reused and the
other entries kept; any other identifier without `$` is appended as it is.
The number `func.arg_count` is an `int`. -/
theorem C25_query_buffer (func : ProxyFunction) (add_types : Bool) (ops : List QueryOp)
    (hnames : func.arg_names.length = func.arg_count) (hfit : refs_fit func add_types)
    (hcount : func.arg_count < 2147483648) :
    ∃ q, run_query_ops (plproxy_query_start func add_types) ops = Except.ok q ∧
      q.func = func ∧ q.add_types = add_types ∧
      q.arg_count ≤ func.arg_count ∧ q.arg_lookup.Nodup ∧
      (∀ x ∈ q.arg_lookup, x < func.arg_count) ∧
      (∀ rest : List Char, fits_int rest →
        (decimal_value rest < 1 ∨ decimal_value rest > func.arg_count) →
        plproxy_query_add_ident q ('$' :: rest) = Except.ok (q, false)) ∧
      (∀ (ident : List Char) (f : Nat), refers_to ident func f →
        ∃ k q2, plproxy_query_add_ident q ident = Except.ok (q2, true) ∧
          q2.sql = q.sql ++ ref_of func add_types k f ∧
          q2.arg_lookup[k]? = some f ∧
          (∀ j, q.arg_lookup[j]? = some f → j = k) ∧
          q.arg_lookup <+: q2.arg_lookup ∧
          q2.arg_count ≤ func.arg_count) ∧
      (∀ ident : List Char, ident.head? ≠ some '$' →
        (∀ name ∈ func.arg_names, strcasecmp_eq ident name = false) →
        plproxy_query_add_ident q ident = Except.ok ({ q with sql := q.sql ++ ident }, true)) ∧
      (∀ (k f : Nat) (ty : ProxyType), func.arg_types[f]? = some ty →
        ref_of func add_types k f =
          if add_types then '$' :: Nat.toDigits 10 (k + 1) ++ [':', ':'] ++ ty.name
          else '$' :: Nat.toDigits 10 (k + 1)) := by
  have hinv0 : query_inv (plproxy_query_start func add_types) := by
    simp [query_inv, plproxy_query_start]
  obtain ⟨q, h1, h2, h3, h4, -⟩ := run_query_ops_inv ops (plproxy_query_start func add_types)
    hinv0 hfit hnames
  have hf : q.func = func := h3
  have ha : q.add_types = add_types := h4
  have hfit2 : refs_fit q.func q.add_types := by rw [hf, ha]; exact hfit
  have hnames2 : q.func.arg_names.length = q.func.arg_count := by rw [hf]; exact hnames
  have hb : ∀ x ∈ q.arg_lookup, x < func.arg_count := by
    intro x hx
    have := h2.2 x hx
    rwa [hf] at this
  refine ⟨q, h1, hf, ha, nodup_bounded_length _ _ h2.1 hb, h2.1, hb, ?_, ?_, ?_, ?_⟩
  · intro rest hint hr
    rw [add_ident_dollar, fn_idx_exact rest hint, hf]
    rw [if_pos (by omega)]
  · intro ident f hrefers
    have hrefers2 : refers_to ident q.func f := by rw [hf]; exact hrefers
    have hlt : f < q.func.arg_count := refers_to_lt ident q.func f hnames2 hrefers2
    obtain ⟨k, q2, e1, e2, e3, e4, e5, e6, e7, e8⟩ := add_ident_ref_spec q f h2 hfit2 hlt
    refine ⟨k, q2, ?_, ?_, e2, e6, ?_, ?_⟩
    · rw [add_ident_refers q ident f hnames2 (by rw [hf]; exact hcount) hrefers2, e1]
    · rw [e3, hf, ha]
    · rcases e7 with ⟨-, h⟩ | ⟨-, h⟩
      · rw [h]
      · rw [h]; exact List.prefix_append _ _
    · have := nodup_bounded_length _ _ e8.1 e8.2
      rw [e4, hf] at this
      exact this
  · intro ident hhead hnone
    rw [add_ident_plain q ident hhead]
    rcases name_search_spec ident q.func q.func.arg_count 0 (by omega)
      (fun g name hg _ => absurd hg (Nat.not_lt_zero g)) with ⟨g, -, hg2⟩ | ⟨hn, -⟩
    · obtain ⟨⟨name, hn1, hn2⟩, -⟩ := hg2
      rw [hf] at hn1
      have := hnone name (List.getElem?_mem hn1)
      rw [hn2] at this
      exact Bool.noConfusion this
    · rw [hn]
  · intro k f ty hty
    simp only [ref_of, hty, Option.map_some', Option.getD_some, ref_text]

/-- C25 witness: the calls for a statement that uses `$2`, `ID`, `username`, the
rejected `$3` and the plain word `other` on a function with arguments `username`
and `id` leave a table of at most two entries. -/
theorem C25_query_buffer_witness :
    ∃ q, run_query_ops (plproxy_query_start user_id_func false) sample_ops = Except.ok q ∧
      q.arg_count ≤ user_id_func.arg_count ∧ q.arg_lookup.Nodup ∧
      plproxy_query_add_ident q ['$', '3'] = Except.ok (q, false) :=
  have ⟨q, h⟩ := C25_query_buffer user_id_func false sample_ops (by decide) (by decide)
    (by decide)
  ⟨q, h.1, h.2.2.2.1, h.2.2.2.2.1, h.2.2.2.2.2.2.1 ['3'] (by decide) (Or.inr (by decide))⟩

/-- C25 counterexample: the arguments are named `a` and `A`. The identifier
`A` is the name of argument 1, but the search ignores case and stops at the
first match: the reference is `$1` with `arg_lookup[0] = 0`. And on a buffer
started with `add_types` the identifier `id` is not emitted as `$1` but as
`$1::int4`. -/
theorem C25_first_name_wins :
    case_twin_func.arg_names[1]? = some ['A'] ∧
    strcasecmp_eq ['A'] ['A'] = true ∧
    plproxy_query_add_ident (plproxy_query_start case_twin_func false) ['A'] =
      Except.ok (⟨case_twin_func, ['$', '1'], [0], false⟩, true) ∧
    plproxy_query_add_ident (plproxy_query_start user_id_func true) ['i', 'd'] =
      Except.ok (⟨user_id_func, "$1::int4".toList, [1], true⟩, true) := by
  refine ⟨rfl, by decide, rfl, rfl⟩

/-- C22 witness: connection 0 of the cluster that has streamed its rows holds
a result and is `C_DONE`; after the cleaning the result is gone and the state,
the handle and the times are the same. -/
theorem C22_clean_results_witness :
    ∃ conn2, (plproxy_clean_results streamed_cluster).conn_list[0]? = some conn2 ∧
      conn2.res = none ∧ conn2.pos = 0 ∧ conn2.run_on = false ∧
      conn2.state = ConnState.C_DONE ∧ conn2.db = some ⟨3, []⟩ :=
  have ⟨conn2, h⟩ := (C22_clean_results streamed_cluster).2.2.2.1 0
    (done_conn (two_col_result [[some ['1'], some ['a']], [some ['2'], none]])) rfl
  ⟨conn2, h.1, h.2.1, h.2.2.1, h.2.2.2.1, h.2.2.2.2.1, h.2.2.2.2.2.1⟩

/-- C17 witness: a connection in `C_READY` never times out, whatever the limits
and the time are; a query sent at time 0 with `query_timeout = 1` has timed out
at time 1000. -/
theorem C17_check_timeouts_witness :
    check_timeouts timeout_config ready_conn 1000 = none ∧
    check_timeouts timeout_config reading_conn 1000 ≠ none :=
  ⟨(C17_check_timeouts timeout_config ready_conn 1000).2.1 (Or.inr (Or.inl rfl)),
    (C17_check_timeouts timeout_config reading_conn 1000).1.mpr
      (Or.inr ⟨Or.inl rfl, by decide, by decide⟩)⟩

end PLProxy
